import Mathlib

/-!
# LuxOS: trap dispatch and controller setup (`src/src/interrupts.c`)

A shallow embedding of `interrupts.c`.  Every C function becomes a function on an
explicit machine state `Interrupts.State`.  C unsigned integers are natural numbers that
are reduced modulo `2^w` wherever the C code converts or wraps.  C `char` values are the
byte values `0..255`.  Effects that leave the C program (port writes, the descriptor-table
load, `sti`, characters handed to `vga_putc`, gate stores) are recorded in chronological
order in `State.log`.
-/

namespace Interrupts

/-! ## Data model -/

/-- One observable step of the program, in the order in which the code performs it. -/
inductive Event where
  /-- The instruction `outb val, port`. -/
  | outb (port val : Nat)
  /-- The call of `idt_load`, with the register image `idtp` it commits. -/
  | idt_load (limit base : Nat)
  /-- The store of a gate into `idt[num]` by `idt_set_gate`. -/
  | gate (num : Nat)
  /-- The instruction `sti`. -/
  | sti
  /-- The call `vga_putc(ch)`. -/
  | putc (ch : Nat)
  deriving DecidableEq

/-- The trap frame `struct regs` (interrupts.c:23-28 and 271-277). -/
structure regs where
  gs : Nat
  fs : Nat
  es : Nat
  ds : Nat
  edi : Nat
  esi : Nat
  ebp : Nat
  esp : Nat
  ebx : Nat
  edx : Nat
  ecx : Nat
  eax : Nat
  int_no : Nat
  err_code : Nat
  eip : Nat
  cs : Nat
  eflags : Nat
  useresp : Nat
  ss : Nat
  deriving DecidableEq

/-- The packed gate descriptor `struct idt_entry` (interrupts.c:125-131). -/
structure idt_entry where
  base_lo : Nat
  sel : Nat
  always0 : Nat
  flags : Nat
  base_hi : Nat
  deriving DecidableEq

/-- The packed descriptor-table register image `struct idt_ptr` (interrupts.c:133-136). -/
structure idt_ptr where
  limit : Nat
  base : Nat
  deriving DecidableEq

/-- The constant `IDT_ENTRIES` (`#define IDT_ENTRIES 256`, interrupts.c:138). -/
def IDT_ENTRIES : Nat := 256

/-- The value of `sizeof(struct idt_entry)`: the struct is packed, so it is the sum of its
field sizes (2 + 2 + 1 + 1 + 2 bytes). -/
def sizeof_idt_entry : Nat := 2 + 2 + 1 + 1 + 2

/-- Modelled from the spec: one interrupt controller (hardware, not code), with the vector
offset and interrupt mask of the `ControllerState` of the spec and the progress of its
4-word initialization sequence.  `step = 0` means
that the controller is operational (a data-port write sets the mask); `step = 1, 2, 3`
mean that the next data-port write is the vector offset, the cascade wiring, the operating
mode. -/
structure Pic where
  offset : Nat
  mask : Nat
  cascade : Nat
  mode : Nat
  step : Nat
  deriving DecidableEq

/-- Modelled from the spec: the chained controller pair, primary and secondary. -/
structure ControllerState where
  primary : Pic
  secondary : Pic
  deriving DecidableEq

/-- Link-time constants that the C file only names: the address of the table `idt` and
the addresses of the assembly stubs `isr0..isr31` and `irq0..irq15`
(declared at interrupts.c:143-156, defined in interrupts.asm). -/
structure Symbols where
  idt_addr : Nat
  isr : Nat → Nat
  irq : Nat → Nat

/-- The machine state that `interrupts.c` reads and writes. -/
structure State where
  /-- The table `static struct idt_entry idt[IDT_ENTRIES]`. -/
  idt : Fin 256 → idt_entry
  /-- The variable `static struct idt_ptr idtp`. -/
  idtp : idt_ptr
  /-- The descriptor-table register of the processor (`none` until a load). -/
  idtr : Option idt_ptr
  /-- The text buffer `VGA[...]`, a map from cell index to 16-bit cell. -/
  VGA : Nat → Nat
  vga_row : Nat
  vga_col : Nat
  vga_color : Nat
  /-- The variable `volatile uint32_t timer_ticks`. -/
  timer_ticks : Nat
  /-- The two interrupt controllers behind ports 0x20/0x21 and 0xA0/0xA1. -/
  pic : ControllerState
  /-- The interrupt-enable flag of the processor. -/
  intr_enabled : Bool
  /-- Chronological record of observable steps. -/
  log : List Event

/-! ## Controller protocol -/

/-- Modelled from the spec: a write to the command port of a controller.  A byte with bit 4
set is the initialize command (`ICW1`, 0x11 in this program); it starts the initialization
sequence.  Other command bytes (such as the end-of-interrupt byte 0x20) leave the
controller state alone. -/
def Pic.command (p : Pic) (val : Nat) : Pic :=
  if val / 16 % 2 = 1 then { p with step := 1 } else p

/-- Modelled from the spec: a write to the data port of a controller.  During
initialization the next three writes are vector offset, cascade wiring and operating mode;
any later write sets the mask. -/
def Pic.data (p : Pic) (val : Nat) : Pic :=
  if p.step = 1 then { p with offset := val, step := 2 }
  else if p.step = 2 then { p with cascade := val, step := 3 }
  else if p.step = 3 then { p with mode := val, step := 0 }
  else { p with mask := val }

/-- Modelled from the spec: routing of a port write to the controller pair.  The primary
controller has command port 0x20 and data port 0x21, the secondary 0xA0 and 0xA1. -/
def ControllerState.write (cs : ControllerState) (port val : Nat) : ControllerState :=
  if port = 0x20 then { cs with primary := cs.primary.command val }
  else if port = 0x21 then { cs with primary := cs.primary.data val }
  else if port = 0xA0 then { cs with secondary := cs.secondary.command val }
  else if port = 0xA1 then { cs with secondary := cs.secondary.data val }
  else cs

/-! ## Basic I/O -/

/-- Function `static inline void outb(uint16_t port, uint8_t val)` (interrupts.c:11-13):
the byte `val` is written to the I/O port `port`; the controllers react to it. -/
def outb (port val : Nat) (k : State) : State :=
  let port := port % 2 ^ 16
  let val := val % 2 ^ 8
  { k with pic := k.pic.write port val, log := k.log ++ [Event.outb port val] }

/-! ## VGA -/

/-- The conversion `(uint16_t)ch` of a (signed) `char` holding the byte `ch`. -/
def char_to_u16 (ch : Nat) : Nat :=
  if ch % 256 < 128 then ch % 256 else 0xFF00 + ch % 256

/-- Function `static void vga_putc(char ch)` (interrupts.c:100-109). -/
def vga_putc (ch : Nat) (k : State) : State :=
  let k := { k with log := k.log ++ [Event.putc ch] }
  if ch = 10 then
    let k := { k with vga_row := (k.vga_row + 1) % 2 ^ 16, vga_col := 0 }
    if k.vga_row ≥ 25 then { k with vga_row := 24 } else k
  else
    let k := { k with VGA := Function.update k.VGA (k.vga_row * 80 + k.vga_col)
                        ((char_to_u16 ch ||| ((k.vga_color % 2 ^ 16) <<< 8)) % 2 ^ 16) }
    let k := { k with vga_col := (k.vga_col + 1) % 2 ^ 16 }
    if k.vga_col ≥ 80 then
      let k := { k with vga_col := 0, vga_row := (k.vga_row + 1) % 2 ^ 16 }
      if k.vga_row ≥ 25 then { k with vga_row := 24 } else k
    else k

/-- Function `void vga_puts(const char* s)`, whose body is `while (*s) vga_putc(*s++);`
(interrupts.c:110).
The argument is the memory that `s` points to; reading stops at the first NUL. -/
def vga_puts : List Nat → State → State
  | [], k => k
  | c :: s, k => if c = 0 then k else vga_puts s (vga_putc c k)

/-- The loop `while (num > 0 && i > 0) { buf[--i] = '0' + (num % 10); num /= 10; }` of
`print_uint` (interrupts.c:117-120); returns the final `i` and `buf`. -/
def print_uint_loop : Nat → Nat → List Nat → Nat × List Nat
  | 0, _, buf => (0, buf)
  | i + 1, num, buf =>
    if num > 0 then print_uint_loop i (num / 10) (buf.set i (48 + num % 10))
    else (i + 1, buf)

/-- Function `void print_uint(uint32_t num)` (interrupts.c:112-122).  `buf0` is the indeterminate
initial content of the local array `char buf[11]`. -/
def print_uint (buf0 : List Nat) (num : Nat) (k : State) : State :=
  let num := num % 2 ^ 32
  let i := 10
  let buf := buf0.set i 0
  if num = 0 then vga_putc 48 k
  else
    let (i, buf) := print_uint_loop i num buf
    vga_puts (buf.drop i) k

/-! ## Handlers -/

/-- The memory of a C string literal: the bytes of its characters, then the NUL. -/
def c_str (s : String) : List Nat := s.toList.map Char.toNat ++ [0]

/-- Function `void isr_handler(struct regs *r)` (interrupts.c:30-34).  The first component of the
result is the content of the frame `*r` when the handler returns. -/
def isr_handler (buf0 : List Nat) (r : regs) (k : State) : regs × State :=
  let k := vga_puts (c_str "ISR: ") k
  let k := print_uint buf0 r.int_no k
  let k := vga_puts (c_str "\n") k
  (r, k)

/-- Function `void irq_handler(struct regs *r)` (interrupts.c:36-40).  The first component of the
result is the content of the frame `*r` when the handler returns. -/
def irq_handler (r : regs) (k : State) : regs × State :=
  let k := if r.int_no ≥ 40 then outb 0xA0 0x20 k else k
  let k := outb 0x20 0x20 k
  (r, k)

/-! ## Descriptor table -/

/-- Modelled from the spec: `idt_load` is defined in interrupts.asm, which is not among
the sources (interrupts.c:143 only declares it).  By the spec the load commits the base
address of the table and its byte-length-minus-one to the processor in one atomic register
update: the register receives the current content of `idtp`. -/
def idt_load (k : State) : State :=
  { k with idtr := some k.idtp,
           log := k.log ++ [Event.idt_load k.idtp.limit k.idtp.base] }

/-- Function `static void idt_set_gate(uint8_t num, uint32_t base, uint16_t sel, uint8_t flags)`
(interrupts.c:159-165). -/
def idt_set_gate (num base sel flags : Nat) (k : State) : State :=
  let num : Fin 256 := ⟨num % 2 ^ 8, Nat.mod_lt _ (by decide)⟩
  let base := base % 2 ^ 32
  let sel := sel % 2 ^ 16
  let flags := flags % 2 ^ 8
  let k := { k with idt := Function.update k.idt num
                      { k.idt num with base_lo := base &&& 0xFFFF } }
  let k := { k with idt := Function.update k.idt num
                      { k.idt num with base_hi := (base >>> 16) &&& 0xFFFF } }
  let k := { k with idt := Function.update k.idt num { k.idt num with sel := sel } }
  let k := { k with idt := Function.update k.idt num { k.idt num with always0 := 0 } }
  let k := { k with idt := Function.update k.idt num { k.idt num with flags := flags } }
  { k with log := k.log ++ [Event.gate num.val] }

/-- The body of the loop of `idt_install` (interrupts.c:172-176) for one index `i`. -/
def idt_clear (k : State) (i : Fin 256) : State :=
  let k := { k with idt := Function.update k.idt i { k.idt i with base_lo := 0 } }
  let k := { k with idt := Function.update k.idt i { k.idt i with sel := 0 } }
  let k := { k with idt := Function.update k.idt i { k.idt i with always0 := 0 } }
  let k := { k with idt := Function.update k.idt i { k.idt i with flags := 0 } }
  { k with idt := Function.update k.idt i { k.idt i with base_hi := 0 } }

/-- Function `void idt_install(void)` (interrupts.c:168-179). -/
def idt_install (sym : Symbols) (k : State) : State :=
  let k := { k with idtp := { k.idtp with
                        limit := (sizeof_idt_entry * IDT_ENTRIES - 1) % 2 ^ 16 } }
  let k := { k with idtp := { k.idtp with base := sym.idt_addr % 2 ^ 32 } }
  let k := (List.finRange 256).foldl idt_clear k
  idt_load k

/-- The call `idt_set_gate(num, (uint32_t)stub, 0x08, 0x8E)` is written out 32 times in
`void isrs_install(void)` (interrupts.c:182-216), once per exception stub. -/
def isrs_install (sym : Symbols) (k : State) : State :=
  let k := idt_set_gate 0 (sym.isr 0) 0x08 0x8E k
  let k := idt_set_gate 1 (sym.isr 1) 0x08 0x8E k
  let k := idt_set_gate 2 (sym.isr 2) 0x08 0x8E k
  let k := idt_set_gate 3 (sym.isr 3) 0x08 0x8E k
  let k := idt_set_gate 4 (sym.isr 4) 0x08 0x8E k
  let k := idt_set_gate 5 (sym.isr 5) 0x08 0x8E k
  let k := idt_set_gate 6 (sym.isr 6) 0x08 0x8E k
  let k := idt_set_gate 7 (sym.isr 7) 0x08 0x8E k
  let k := idt_set_gate 8 (sym.isr 8) 0x08 0x8E k
  let k := idt_set_gate 9 (sym.isr 9) 0x08 0x8E k
  let k := idt_set_gate 10 (sym.isr 10) 0x08 0x8E k
  let k := idt_set_gate 11 (sym.isr 11) 0x08 0x8E k
  let k := idt_set_gate 12 (sym.isr 12) 0x08 0x8E k
  let k := idt_set_gate 13 (sym.isr 13) 0x08 0x8E k
  let k := idt_set_gate 14 (sym.isr 14) 0x08 0x8E k
  let k := idt_set_gate 15 (sym.isr 15) 0x08 0x8E k
  let k := idt_set_gate 16 (sym.isr 16) 0x08 0x8E k
  let k := idt_set_gate 17 (sym.isr 17) 0x08 0x8E k
  let k := idt_set_gate 18 (sym.isr 18) 0x08 0x8E k
  let k := idt_set_gate 19 (sym.isr 19) 0x08 0x8E k
  let k := idt_set_gate 20 (sym.isr 20) 0x08 0x8E k
  let k := idt_set_gate 21 (sym.isr 21) 0x08 0x8E k
  let k := idt_set_gate 22 (sym.isr 22) 0x08 0x8E k
  let k := idt_set_gate 23 (sym.isr 23) 0x08 0x8E k
  let k := idt_set_gate 24 (sym.isr 24) 0x08 0x8E k
  let k := idt_set_gate 25 (sym.isr 25) 0x08 0x8E k
  let k := idt_set_gate 26 (sym.isr 26) 0x08 0x8E k
  let k := idt_set_gate 27 (sym.isr 27) 0x08 0x8E k
  let k := idt_set_gate 28 (sym.isr 28) 0x08 0x8E k
  let k := idt_set_gate 29 (sym.isr 29) 0x08 0x8E k
  let k := idt_set_gate 30 (sym.isr 30) 0x08 0x8E k
  idt_set_gate 31 (sym.isr 31) 0x08 0x8E k

/-! ## Controller remap -/

/-- The constant `PIC1` (interrupts.c:218). -/
def PIC1 : Nat := 0x20
/-- The constant `PIC2` (interrupts.c:219). -/
def PIC2 : Nat := 0xA0
/-- The constant `PIC1_CMD` (interrupts.c:220). -/
def PIC1_CMD : Nat := PIC1
/-- The constant `PIC1_DATA` (interrupts.c:221). -/
def PIC1_DATA : Nat := PIC1 + 1
/-- The constant `PIC2_CMD` (interrupts.c:222). -/
def PIC2_CMD : Nat := PIC2
/-- The constant `PIC2_DATA` (interrupts.c:223). -/
def PIC2_DATA : Nat := PIC2 + 1
/-- The constant `ICW1_INIT` (interrupts.c:224). -/
def ICW1_INIT : Nat := 0x11
/-- The constant `ICW4_8086` (interrupts.c:225). -/
def ICW4_8086 : Nat := 0x01

/-- Function `void irq_remap(void)` (interrupts.c:227-239). -/
def irq_remap (k : State) : State :=
  let k := outb PIC1_CMD ICW1_INIT k
  let k := outb PIC2_CMD ICW1_INIT k
  let k := outb PIC1_DATA 0x20 k
  let k := outb PIC2_DATA 0x28 k
  let k := outb PIC1_DATA 4 k
  let k := outb PIC2_DATA 2 k
  let k := outb PIC1_DATA ICW4_8086 k
  let k := outb PIC2_DATA ICW4_8086 k
  let k := outb PIC1_DATA 0x0 k
  outb PIC2_DATA 0x0 k

/-- Function `void irq_install(void)` (interrupts.c:241-260). -/
def irq_install (sym : Symbols) (k : State) : State :=
  let k := irq_remap k
  let k := idt_set_gate 32 (sym.irq 0) 0x08 0x8E k
  let k := idt_set_gate 33 (sym.irq 1) 0x08 0x8E k
  let k := idt_set_gate 34 (sym.irq 2) 0x08 0x8E k
  let k := idt_set_gate 35 (sym.irq 3) 0x08 0x8E k
  let k := idt_set_gate 36 (sym.irq 4) 0x08 0x8E k
  let k := idt_set_gate 37 (sym.irq 5) 0x08 0x8E k
  let k := idt_set_gate 38 (sym.irq 6) 0x08 0x8E k
  let k := idt_set_gate 39 (sym.irq 7) 0x08 0x8E k
  let k := idt_set_gate 40 (sym.irq 8) 0x08 0x8E k
  let k := idt_set_gate 41 (sym.irq 9) 0x08 0x8E k
  let k := idt_set_gate 42 (sym.irq 10) 0x08 0x8E k
  let k := idt_set_gate 43 (sym.irq 11) 0x08 0x8E k
  let k := idt_set_gate 44 (sym.irq 12) 0x08 0x8E k
  let k := idt_set_gate 45 (sym.irq 13) 0x08 0x8E k
  let k := idt_set_gate 46 (sym.irq 14) 0x08 0x8E k
  idt_set_gate 47 (sym.irq 15) 0x08 0x8E k

/-! ## Timer -/

/-- Function `void timer_callback(void)` (interrupts.c:265-267): `timer_ticks++` on a
32-bit unsigned counter. -/
def timer_callback (k : State) : State :=
  { k with timer_ticks := (k.timer_ticks + 1) % 2 ^ 32 }

/-- Function `void init_pit(uint32_t frequency)` (interrupts.c:281-286).  The division
`1193180 / frequency` traps when `frequency` is zero; the result is then `none`. -/
def init_pit (frequency : Nat) (k : State) : Option State :=
  let frequency := frequency % 2 ^ 32
  if frequency = 0 then none
  else
    let divisor := 1193180 / frequency
    let k := outb 0x43 0x36 k
    let k := outb 0x40 ((divisor &&& 0xFF) % 2 ^ 8) k
    let k := outb 0x40 (((divisor >>> 8) &&& 0xFF) % 2 ^ 8) k
    some k

/-! ## Boot sequence -/

/-- The instruction `sti` (interrupts.c:295). -/
def sti (k : State) : State :=
  { k with intr_enabled := true, log := k.log ++ [Event.sti] }

/-- The straight-line part of `void kernel_main(void)` (interrupts.c:290-297), up to the
polling loop `while (1)` that never returns. -/
def kernel_main_boot (sym : Symbols) (k : State) : Option State :=
  let k := idt_install sym k
  let k := isrs_install sym k
  let k := irq_install sym k
  match init_pit 100 k with
  | none => none
  | some k =>
    let k := sti k
    some (vga_puts (c_str "Interrupts installed. Waiting for ticks...\n") k)

/-- The bytes written to the I/O port `port`, in order, among the events `ev`. -/
def port_writes (port : Nat) : List Event → List Nat
  | [] => []
  | Event.outb p v :: ev => if p = port then v :: port_writes port ev else port_writes port ev
  | _ :: ev => port_writes port ev

/-! ## Concrete inputs -/

/-- A concrete machine state: a table full of junk descriptors, controllers as the
firmware leaves them (offsets 8 and 0x70, every line masked), an empty log. -/
def sample_state : State :=
  { idt := fun i => ⟨i.val, 1, 2, 3, 4⟩, idtp := ⟨0, 0⟩, idtr := none,
    VGA := fun _ => 0, vga_row := 0, vga_col := 0, vga_color := 7, timer_ticks := 0,
    pic := ⟨⟨8, 0xFF, 0, 0, 0⟩, ⟨0x70, 0xFF, 0, 0, 0⟩⟩, intr_enabled := false, log := [] }

/-- A concrete link map: the table at 0x105000, the exception stubs from 0x100000 and the
IRQ stubs from 0x100400, 16 bytes apart. -/
def sample_symbols : Symbols :=
  ⟨0x00105000, fun n => 0x00100000 + 16 * n, fun n => 0x00100400 + 16 * n⟩

/-- A concrete trap frame with vector number `v`. -/
def sample_regs (v : Nat) : regs :=
  ⟨0x10, 0x10, 0x10, 0x10, 1, 2, 3, 4, 5, 6, 7, 8, v, 0, 0x100abc, 0x08, 0x202, 0, 0⟩

/-! ## Port writes by controller -/

/-- The port writes among the events `ev` that go to the controller with command port
`cmd` and data port `data`, in order, as pairs of port and byte. -/
def controller_writes (cmd data : Nat) : List Event → List (Nat × Nat)
  | [] => []
  | Event.outb p v :: ev =>
    if p = cmd ∨ p = data then (p, v) :: controller_writes cmd data ev
    else controller_writes cmd data ev
  | _ :: ev => controller_writes cmd data ev

/-! ## Trap stubs -/

/-- The part of the processor state that the trap stubs read and write: the eight general
registers, the four data segment registers, the interrupt-enable flag, and memory as a map
from the byte address of a 32-bit word to the word. -/
structure Cpu where
  eax : Nat
  ecx : Nat
  edx : Nat
  ebx : Nat
  esp : Nat
  ebp : Nat
  esi : Nat
  edi : Nat
  ds : Nat
  es : Nat
  fs : Nat
  gs : Nat
  intr_flag : Bool
  mem : Nat → Nat

/-- The instruction `push` of a 32-bit value: the stack pointer goes down by four (modulo
2^32) and the value is stored where it then points.  A 16-bit segment register is pushed
zero-extended. -/
def Cpu.push (v : Nat) (s : Cpu) : Cpu :=
  let sp := (2 ^ 32 - 4 + s.esp) % 2 ^ 32
  { s with esp := sp, mem := Function.update s.mem sp (v % 2 ^ 32) }

/-- The word that `pop` reads: the one the stack pointer points to. -/
def Cpu.top (s : Cpu) : Nat := s.mem s.esp

/-- The instruction `add $n, %esp`; the second half of every `pop`. -/
def Cpu.add_esp (n : Nat) (s : Cpu) : Cpu :=
  { s with esp := (n + s.esp) % 2 ^ 32 }

/-- The instruction `pusha`: pushes eax, ecx, edx, ebx, the value that esp had before the
instruction, ebp, esi, edi. -/
def Cpu.pusha (s : Cpu) : Cpu :=
  let temp := s.esp
  let s := s.push s.eax
  let s := s.push s.ecx
  let s := s.push s.edx
  let s := s.push s.ebx
  let s := s.push temp
  let s := s.push s.ebp
  let s := s.push s.esi
  s.push s.edi

/-- The instruction `popa`: pops edi, esi, ebp, skips the saved esp, pops ebx, edx, ecx,
eax. -/
def Cpu.popa (s : Cpu) : Cpu :=
  let s := { s with edi := s.top }.add_esp 4
  let s := { s with esi := s.top }.add_esp 4
  let s := { s with ebp := s.top }.add_esp 4
  let s := s.add_esp 4
  let s := { s with ebx := s.top }.add_esp 4
  let s := { s with edx := s.top }.add_esp 4
  let s := { s with ecx := s.top }.add_esp 4
  { s with eax := s.top }.add_esp 4

/-- The instruction `call f`: the return address is pushed and `f` runs until it returns.
The argument `f` is the effect of the called function from its first instruction through
its `ret`. -/
def Cpu.call (f : Cpu → Cpu) (ret_addr : Nat) (s : Cpu) : Cpu :=
  f (s.push ret_addr)

/-- The instructions of `isr_common_stub` before `call isr_handler` (interrupts.c:44-54);
`irq_common_stub` has the same instructions before `call irq_handler`
(interrupts.c:70-80). -/
def stub_prolog (s : Cpu) : Cpu :=
  let s := s.pusha
  let s := s.push s.ds
  let s := s.push s.es
  let s := s.push s.fs
  let s := s.push s.gs
  let s := { s with eax := s.eax / 2 ^ 16 * 2 ^ 16 + 0x10 }
  let s := { s with ds := s.eax % 2 ^ 16 }
  let s := { s with es := s.eax % 2 ^ 16 }
  let s := { s with fs := s.eax % 2 ^ 16 }
  let s := { s with gs := s.eax % 2 ^ 16 }
  s.push s.esp

/-- The instructions of `isr_common_stub` after `call isr_handler`, up to and including
`sti` (interrupts.c:56-63); `irq_common_stub` has the same instructions after
`call irq_handler` (interrupts.c:82-89).  The result is the state in which `iret`
executes. -/
def stub_epilog (s : Cpu) : Cpu :=
  let s := s.add_esp 4
  let s := { s with gs := s.top % 2 ^ 16 }.add_esp 4
  let s := { s with fs := s.top % 2 ^ 16 }.add_esp 4
  let s := { s with es := s.top % 2 ^ 16 }.add_esp 4
  let s := { s with ds := s.top % 2 ^ 16 }.add_esp 4
  let s := s.popa
  let s := s.add_esp 8
  { s with intr_flag := true }

/-- The naked function `isr_common_stub` (interrupts.c:42-66), from its entry to the state
in which its last instruction `iret` executes.  `handler` is the effect of the called C
function `isr_handler` and `ret_addr` the address of the instruction after the `call`. -/
def isr_common_stub (handler : Cpu → Cpu) (ret_addr : Nat) (s : Cpu) : Cpu :=
  stub_epilog ((stub_prolog s).call handler ret_addr)

/-- The naked function `irq_common_stub` (interrupts.c:68-92), from its entry to the state
in which its last instruction `iret` executes.  `handler` is the effect of the called C
function `irq_handler`. -/
def irq_common_stub (handler : Cpu → Cpu) (ret_addr : Nat) (s : Cpu) : Cpu :=
  stub_epilog ((stub_prolog s).call handler ret_addr)

/-- The registers hold values of their width: 32 bits for the general registers and the
stack pointer, 16 bits for the segment registers. -/
def Cpu.wf (s : Cpu) : Prop :=
  s.eax < 2 ^ 32 ∧ s.ecx < 2 ^ 32 ∧ s.edx < 2 ^ 32 ∧ s.ebx < 2 ^ 32 ∧ s.esp < 2 ^ 32 ∧
  s.ebp < 2 ^ 32 ∧ s.esi < 2 ^ 32 ∧ s.edi < 2 ^ 32 ∧
  s.ds < 2 ^ 16 ∧ s.es < 2 ^ 16 ∧ s.fs < 2 ^ 16 ∧ s.gs < 2 ^ 16

/-- A called handler, entered in the state `t` (the stack pointer at the return address,
the argument one word above it), returns to its caller and leaves unmodified the twelve
register words that the stub saved above the argument. -/
def keeps_frame (handler : Cpu → Cpu) (t : Cpu) : Prop :=
  (handler t).esp = (4 + t.esp) % 2 ^ 32 ∧
    ∀ k, k < 12 → (handler t).mem (t.esp + 8 + 4 * k) = t.mem (t.esp + 8 + 4 * k)

/-- The structure `struct regs` read from memory at the address `p`: nineteen consecutive
32-bit words in the declared field order. -/
def read_regs (mem : Nat → Nat) (p : Nat) : regs :=
  { gs := mem p, fs := mem (p + 4), es := mem (p + 8), ds := mem (p + 12),
    edi := mem (p + 16), esi := mem (p + 20), ebp := mem (p + 24), esp := mem (p + 28),
    ebx := mem (p + 32), edx := mem (p + 36), ecx := mem (p + 40), eax := mem (p + 44),
    int_no := mem (p + 48), err_code := mem (p + 52),
    eip := mem (p + 56), cs := mem (p + 60), eflags := mem (p + 64),
    useresp := mem (p + 68), ss := mem (p + 72) }

/-- The field names of the first declaration of `struct regs` (interrupts.c:23-28), in
order. -/
def regs_fields_first : List String :=
  ["gs", "fs", "es", "ds",
   "edi", "esi", "ebp", "esp", "ebx", "edx", "ecx", "eax",
   "int_no", "err_code",
   "eip", "cs", "eflags", "useresp", "ss"]

/-- The field names of the second declaration of `struct regs` (interrupts.c:271-277), in
order. -/
def regs_fields_second : List String :=
  ["gs", "fs", "es", "ds",
   "edi", "esi", "ebp", "esp", "ebx", "edx", "ecx", "eax",
   "int_no",
   "err_code",
   "eip", "cs", "eflags", "useresp", "ss"]

/-- A processor state at the entry of a common stub: distinct register values, the stack
pointer at 0x9000, and above it the words that the vector stub (vector 33, error code 0)
and the hardware pushed. -/
def sample_cpu : Cpu :=
  { eax := 0xA1, ecx := 0xC1, edx := 0xD1, ebx := 0xB1, esp := 0x9000, ebp := 0xB2,
    esi := 0x51, edi := 0xD2, ds := 0x23, es := 0x2B, fs := 0x33, gs := 0x3B,
    intr_flag := false,
    mem := fun a => if a = 0x9000 then 33 else if a = 0x9004 then 0
      else if a = 0x9008 then 0x100abc else if a = 0x900C then 0x08
      else if a = 0x9010 then 0x202 else if a = 0x9014 then 0x8ff0
      else if a = 0x9018 then 0x10 else 0xEE }

/-- A handler that returns after overwriting the caller-saved registers, the segment
registers and the stack below its frame. -/
def sample_handler (t : Cpu) : Cpu :=
  { t with eax := 0, ecx := 1, edx := 2, ds := 0x10, esp := (4 + t.esp) % 2 ^ 32,
           mem := fun a => if a < t.esp then 0xDEAD else t.mem a }

end Interrupts

/-!
# LuxOS: clock, delay, text output and file store (`src/src/kernel.c`)

A shallow embedding of the parts of `kernel.c` that the claims are about.  Reads of the
memory-mapped timer registers are volatile: the values they return are arguments of the
functions.  The `double` values are exact rationals: floating-point rounding is not
modelled.
-/

namespace Kernel

/-! ## Timer -/

/-- The memory-mapped registers of the timer block at `HPET_BASE` (kernel.c:27-32), as a
read finds them. -/
structure HpetRegs where
  /-- The register `HPET_CAP_HIGH`: the tick period in femtoseconds. -/
  cap_high : Nat
  /-- The register `HPET_CONFIG_LOW`: bit 0 enables the counter. -/
  config_low : Nat
  /-- The register `HPET_COUNTER_LOW`. -/
  counter_low : Nat
  /-- The register `HPET_COUNTER_HIGH`. -/
  counter_high : Nat
  deriving DecidableEq

/-- The timer variables of kernel.c:35-38. -/
structure ClockState where
  hpet_tick_seconds : ℚ
  hpet_tick_microseconds : ℚ
  last_high : Nat
  overflow_count : Nat
  deriving DecidableEq

/-- Function `void hpet_init(void)` (kernel.c:41-52).  The argument `hw` holds the register
contents at the call; the result holds the registers after the store to
`HPET_CONFIG_LOW`, and the new timer variables. -/
def hpet_init (hw : HpetRegs) (_c : ClockState) : HpetRegs × ClockState :=
  let hw := { hw with config_low := (hw.config_low % 2 ^ 32) ||| 1 }
  let period_fs : Nat := hw.cap_high % 2 ^ 32
  (hw, { hpet_tick_seconds := (period_fs : ℚ) / 1000000000000000,
         hpet_tick_microseconds := (period_fs : ℚ) / 1000000000,
         last_high := hw.counter_high % 2 ^ 32,
         overflow_count := 0 })

/-- Function `void hpet_poll_overflow(void)` (kernel.c:55-64).  The argument `high` is the
value that the read of `HPET_COUNTER_HIGH` returns. -/
def hpet_poll_overflow (high : Nat) (c : ClockState) : ClockState :=
  let high := high % 2 ^ 32
  let c := if high < c.last_high then
      { c with overflow_count := (c.overflow_count + 1) % 2 ^ 32 } else c
  { c with last_high := high }

/-- Function `uint32_t hpet_get_low(void)` (kernel.c:66-68).  The argument `low` is the
value that the read of `HPET_COUNTER_LOW` returns. -/
def hpet_get_low (low : Nat) : Nat := low % 2 ^ 32

/-- The local `total_ticks` that `uptime_seconds` (kernel.c:75-77) and
`uptime_microseconds` (kernel.c:87-89) compute by the same two statements, from the value
`low` of `hpet_get_low` and the timer variables as `hpet_poll_overflow` left them. -/
def total_ticks (low : Nat) (c : ClockState) : ℚ :=
  let high : Nat := (c.last_high + c.overflow_count * 0xFFFFFFFF) % 2 ^ 32
  (high : ℚ) * 4294967296 + (low : ℚ)

/-- Function `double uptime_seconds(void)` (kernel.c:71-79).  The arguments `high` and
`low` are the values that the two counter reads of this call return. -/
def uptime_seconds (high low : Nat) (c : ClockState) : ℚ × ClockState :=
  let c := hpet_poll_overflow high c
  let low := hpet_get_low low
  (total_ticks low c * c.hpet_tick_seconds, c)

/-- Function `double uptime_microseconds(void)` (kernel.c:83-91).  The arguments `high` and
`low` are the values that the two counter reads of this call return. -/
def uptime_microseconds (high low : Nat) (c : ClockState) : ℚ × ClockState :=
  let c := hpet_poll_overflow high c
  let low := hpet_get_low low
  (total_ticks low c * c.hpet_tick_microseconds, c)

/-- The conversion of a `double` to `uint32_t` in `uint32_t start = uptime_microseconds()`:
the fraction is discarded.  (C leaves the conversion undefined outside the range of
`uint32_t`; the model reduces modulo 2^32.) -/
def double_to_u32 (x : ℚ) : Nat := ⌊x⌋₊ % 2 ^ 32

/-- The conversion of the `int` operand `time` to `unsigned` in the comparison
`end - start < time`, whose left operand is a `uint32_t`. -/
def int_to_u32 (time : Int) : Nat := (time % 2 ^ 32).toNat

/-- The `uint32_t` difference `end - start`. -/
def u32_sub (endv start : Nat) : Nat := (2 ^ 32 + endv - start) % 2 ^ 32

/-- The loop `while (end - start < time) { end = uptime_microseconds(); }` of `time_delay`
(kernel.c:97-99).  `rd j` is the pair of counter readings of the `j`-th call of
`uptime_microseconds` in `time_delay`, `n` counts the executions of the loop body so far,
and the first numeric argument bounds the executions still allowed: the result is `none`
when the condition still holds after that many.  Otherwise the result is the number of
executions of the body, the final value of `end` and the final timer variables. -/
def time_delay_loop (time start : Nat) (rd : Nat → Nat × Nat) :
    Nat → Nat → Nat → ClockState → Option (Nat × Nat × ClockState)
  | 0, n, endv, c =>
    if u32_sub endv start < time then none else some (n, endv, c)
  | fuel + 1, n, endv, c =>
    if u32_sub endv start < time then
      let r := uptime_microseconds (rd (n + 2)).1 (rd (n + 2)).2 c
      time_delay_loop time start rd fuel (n + 1) (double_to_u32 r.1) r.2
    else some (n, endv, c)

/-- Function `void time_delay(int time)` (kernel.c:94-101).  The result is the number of
executions of the loop body, the final value of `end` and the timer variables at the
return, or `none` when the loop does not end within `fuel` executions. -/
def time_delay (time : Int) (rd : Nat → Nat × Nat) (fuel : Nat) (c : ClockState) :
    Option (Nat × Nat × ClockState) :=
  let r0 := uptime_microseconds (rd 0).1 (rd 0).2 c
  let start := double_to_u32 r0.1
  let r1 := uptime_microseconds (rd 1).1 (rd 1).2 r0.2
  let endv := double_to_u32 r1.1
  time_delay_loop (int_to_u32 time) start rd fuel 0 endv r1.2

/-- The timer variables after the `j+1` first calls of `uptime_microseconds` of a run of
`time_delay` that started with the variables `c`, and the value of the last of these
calls converted to `uint32_t`: the `j`-th microsecond sample. -/
def delay_sample (rd : Nat → Nat × Nat) (c : ClockState) : Nat → Nat × ClockState
  | 0 =>
    let r := uptime_microseconds (rd 0).1 (rd 0).2 c
    (double_to_u32 r.1, r.2)
  | j + 1 =>
    let r := uptime_microseconds (rd (j + 1)).1 (rd (j + 1)).2 (delay_sample rd c j).2
    (double_to_u32 r.1, r.2)

/-- A timer block with tick period `period_fs` whose counter reads `high`, `low`. -/
def sample_hpet (period_fs high low : Nat) : HpetRegs :=
  { cap_high := period_fs, config_low := 0, counter_low := low, counter_high := high }

/-- The timer variables before `hpet_init`: the static initializers of kernel.c:35-38. -/
def clock_zero : ClockState :=
  { hpet_tick_seconds := 0, hpet_tick_microseconds := 0, last_high := 0, overflow_count := 0 }

end Kernel

/-!
# LuxOS: string functions (`src/src/string.c`)

A C string argument is the list of the bytes that its memory object holds from the
pointer on.  A read past the end of that list is a read outside the object: the function
then has no result (`none`).
-/

namespace StringC

/-- Function `int strcmp(const char* a, const char* b)` (string.c:5-8).  The bytes are
compared as `unsigned char` values. -/
def strcmp : List Nat → List Nat → Option Int
  | a0 :: a, b0 :: b =>
    if a0 ≠ 0 ∧ a0 = b0 then strcmp a b
    else some (((a0 % 256 : Nat) : Int) - ((b0 % 256 : Nat) : Int))
  | _, _ => none

/-- The loop `while (*p == ' ') p++;` and the `return p;` of `cmd_args` (string.c:45-46).
The result is the memory from the returned pointer on. -/
def skip_spaces : List Nat → Option (List Nat)
  | [] => none
  | c :: p => if c = 32 then skip_spaces p else some (c :: p)

/-- The statements of `cmd_args` after its first loop (string.c:43-46), on the memory from
`p = input + i` on.  The inner `none` is the null pointer. -/
def cmd_args_rest : List Nat → Option (Option (List Nat))
  | [] => none
  | c :: p =>
    if c ≠ 32 ∧ c ≠ 0 ∧ c ≠ 10 ∧ c ≠ 13 then some none
    else (skip_spaces (c :: p)).map some

/-- Function `const char* cmd_args(const char* input, const char* command)`
(string.c:37-47).  The arguments are the memory from `input + i` and `command + i` on;
the inner `none` of the result is the null pointer, and a non-null result is the memory
from the returned pointer on. -/
def cmd_args : List Nat → List Nat → Option (Option (List Nat))
  | _, [] => none
  | input, c :: command =>
    if c = 0 then cmd_args_rest input
    else match input with
      | [] => none
      | d :: input => if d ≠ c then some none else cmd_args input command

end StringC

namespace Kernel

/-! ## Text output -/

/-- The text screen of kernel.c:6-8: the buffer `VGA` as a map from cell index to 16-bit
cell, the cursor, the colour, and in `out` the characters handed to `putchar` so far, in
order. -/
structure Term where
  VGA : Nat → Nat
  cursor_row : Nat
  cursor_col : Nat
  color : Nat
  out : List Nat

/-- Function `void scroll_if_needed()` (kernel.c:113-122). -/
def scroll_if_needed (t : Term) : Term :=
  if t.cursor_row ≥ 25 then
    let vga := (List.range' 1 24).foldl (fun vga r =>
      (List.range 80).foldl (fun vga c =>
        Function.update vga ((r - 1) * 80 + c) (vga (r * 80 + c))) vga) t.VGA
    let vga := (List.range 80).foldl (fun vga c =>
      Function.update vga (24 * 80 + c) ((32 ||| ((t.color % 2 ^ 16) <<< 8)) % 2 ^ 16)) vga
    { t with VGA := vga, cursor_row := 24, cursor_col := 0 }
  else t

/-- Function `void putchar(char ch)` (kernel.c:127-132). -/
def putchar (ch : Nat) (t : Term) : Term :=
  let t := { t with out := t.out ++ [ch] }
  if ch = 10 then
    let t := { t with cursor_col := 0 }
    let t := { t with cursor_row := (t.cursor_row + 1) % 2 ^ 16 }
    scroll_if_needed t
  else
    let t := { t with VGA := Function.update t.VGA (t.cursor_row * 80 + t.cursor_col)
                        ((Interrupts.char_to_u16 ch ||| ((t.color % 2 ^ 16) <<< 8)) % 2 ^ 16) }
    let t := { t with cursor_col := (t.cursor_col + 1) % 2 ^ 16 }
    if t.cursor_col ≥ 80 then
      let t := { t with cursor_col := 0 }
      let t := { t with cursor_row := (t.cursor_row + 1) % 2 ^ 16 }
      scroll_if_needed t
    else t

/-- Function `void puts(const char* s)` (kernel.c:135).  The argument is the memory that `s`
points to; reading stops at the first NUL. -/
def puts : List Nat → Term → Term
  | [], t => t
  | c :: s, t => if c = 0 then t else puts s (putchar c t)

/-- The loop `while (num > 0 && i > 0) { buf[--i] = '0' + (num % 10); num /= 10; }` of
`print_uint` (kernel.c:148-151); returns the final `i` and `buf`. -/
def print_uint_loop : Nat → Nat → List Nat → Nat × List Nat
  | 0, _, buf => (0, buf)
  | i + 1, num, buf =>
    if num > 0 then print_uint_loop i (num / 10) (buf.set i (48 + num % 10))
    else (i + 1, buf)

/-- Function `void print_uint(uint32_t num)` (kernel.c:138-154).  `buf0` is the
indeterminate initial content of the local array `char buf[11]`. -/
def print_uint (buf0 : List Nat) (num : Nat) (t : Term) : Term :=
  let num := num % 2 ^ 32
  let i := 10
  let buf := buf0.set i 0
  if num = 0 then putchar 48 t
  else
    let (i, buf) := print_uint_loop i num buf
    puts (buf.drop i) t

/-! ## The command `tail` -/

/-- The first loop of the `tail` branch of `run_command` (kernel.c:1102-1107): the number
of newline characters among the bytes `0 .. size-1` of the file, here `content`.  (The
counter is an `int`; a file holds at most 0x1000 bytes, so it does not overflow.) -/
def tail_count_lines (content : List Nat) : Int :=
  content.foldl (fun lines ch => if ch = 10 then lines + 1 else lines) 0

/-- The second loop of the `tail` branch (kernel.c:1111-1118), from the value
`current_line` on: a byte is printed when `current_line >= start_line`. -/
def tail_print (start_line : Int) : List Nat → Int → Term → Term
  | [], _, t => t
  | ch :: content, current_line, t =>
    let t := if current_line ≥ start_line then putchar ch t else t
    let current_line := if ch = 10 then current_line + 1 else current_line
    tail_print start_line content current_line t

/-- The `tail` branch of `run_command` once the file is found (kernel.c:1101-1119), for a
file whose bytes `0 .. size-1` are `content`. -/
def tail_file (content : List Nat) (t : Term) : Term :=
  let lines := tail_count_lines content
  let start_line := lines - 5
  let start_line := if start_line < 0 then 0 else start_line
  let current_line := 0
  tail_print start_line content current_line t

/-- The lines of a text, as the spec of `tail` counts them: each line ends with its
newline character, and a non-empty final piece without a newline is a line too.  The
first argument is the line read so far. -/
def split_lines : List Nat → List Nat → List (List Nat)
  | cur, [] => if cur = [] then [] else [cur]
  | cur, ch :: content =>
    if ch = 10 then (cur ++ [ch]) :: split_lines [] content
    else split_lines (cur ++ [ch]) content

/-- The last `n` lines of a text, concatenated: what the help text of `tail` promises for
`n = 5`. -/
def last_lines (n : Nat) (content : List Nat) : List Nat :=
  ((split_lines [] content).drop ((split_lines [] content).length - n)).flatten

/-- An empty screen with the cursor at the origin and no output yet. -/
def term_zero : Term :=
  { VGA := fun _ => 0, cursor_row := 0, cursor_col := 0, color := 5, out := [] }

end Kernel

namespace Kernel

/-! ## File store -/

/-- The constant `MAX_FILES` (kernel.c:314). -/
def MAX_FILES : Nat := 64
/-- The constant `MAX_NAME` (kernel.c:315). -/
def MAX_NAME : Nat := 16
/-- The constant `MAX_FILE_SIZE` (kernel.c:316). -/
def MAX_FILE_SIZE : Nat := 0x1000
/-- The constant `FS_START_ADDR` (kernel.c:317). -/
def FS_START_ADDR : Nat := 0x400000

/-- The record `file_t` (kernel.c:320-324): the array `name` as the list of its sixteen
bytes, the pointer `data` as an address (0 is the null pointer), and `size`. -/
structure file_t where
  name : List Nat
  data : Nat
  size : Nat
  deriving DecidableEq

/-- The state of the file store (kernel.c:325-327) and the memory it writes: the array
`files` by index, `file_count`, `next_alloc`, and memory as a map from address to byte. -/
structure Fs where
  files : Nat → file_t
  file_count : Nat
  next_alloc : Nat
  mem : Nat → Nat

/-- The loop `while (i<MAX_NAME-1 && name[i]) { f->name[i]=name[i]; i++; }` of `fs_create`
(kernel.c:343).  The first argument is `MAX_NAME - 1 - i`; `name` is the memory from
`name + i` on and `dst` the array `f->name`.  The result is the final `i` and the array, or
`none` when `name[i]` is read outside the memory given. -/
def copy_name : Nat → Nat → List Nat → List Nat → Option (Nat × List Nat)
  | 0, i, _, dst => some (i, dst)
  | _ + 1, _, [], _ => none
  | fuel + 1, i, c :: name, dst =>
    if c = 0 then some (i, dst) else copy_name fuel (i + 1) name (dst.set i c)

/-- The value of the expression `data ? data[j] : 0` of `fs_create` (kernel.c:351). -/
def data_byte (data : Option (List Nat)) (j : Nat) : Nat :=
  match data with
  | some d => d.getD j 0 % 256
  | none => 0

/-- Whether the reads `data[0] .. data[size-1]` leave the memory given for `data`. -/
def data_short (data : Option (List Nat)) (size : Nat) : Bool :=
  match data with
  | some d => decide (d.length < size)
  | none => false

/-- Function `void fs_create(const char* name, const uint8_t* data, uint32_t size)`
(kernel.c:336-356).  `name` is the memory from the pointer on, `data` is `none` for the
null pointer and otherwise the bytes from the pointer on; the result is `none` when the
function reads outside the memory given. -/
def fs_create (name : List Nat) (data : Option (List Nat)) (size : Nat) (s : Fs) :
    Option Fs :=
  if s.file_count ≥ MAX_FILES ∨ s.next_alloc ≥ MAX_FILES then some s
  else
    let size := size % 2 ^ 32
    let size := if size > MAX_FILE_SIZE then MAX_FILE_SIZE else size
    let fi := s.file_count
    let s := { s with file_count := s.file_count + 1 }
    match copy_name (MAX_NAME - 1) 0 name (s.files fi).name with
    | none => none
    | some (i, nm) =>
      let s := { s with files := Function.update s.files fi
                          { s.files fi with name := nm.set i 0 } }
      let mem := (FS_START_ADDR + s.next_alloc * MAX_FILE_SIZE) % 2 ^ 32
      let s := { s with next_alloc := (s.next_alloc + 1) % 2 ^ 32 }
      let s := { s with files := Function.update s.files fi { s.files fi with data := mem } }
      let s := { s with files := Function.update s.files fi { s.files fi with size := size } }
      if data_short data size then none
      else
        let s := { s with mem := (List.range size).foldl (fun m j =>
                    Function.update m (mem + j) (data_byte data j)) s.mem }
        some { s with mem := (List.range' size (MAX_FILE_SIZE - size)).foldl (fun m j =>
                    Function.update m (mem + j) 0) s.mem }

/-- Function `void fs_write(file_t* f, const uint8_t* data, uint32_t size)`
(kernel.c:359-368).  `f` is `none` for the null pointer and otherwise the index of the
record in `files`. -/
def fs_write (f : Option Nat) (data : Option (List Nat)) (size : Nat) (s : Fs) :
    Option Fs :=
  match f, data with
  | some fi, some d =>
    if (s.files fi).data = 0 then some s
    else
      let size := size % 2 ^ 32
      let size := if size > MAX_FILE_SIZE then MAX_FILE_SIZE else size
      if d.length < size then none
      else
        let s := { s with mem := (List.range size).foldl (fun m i =>
                    Function.update m ((s.files fi).data + i) (d.getD i 0 % 256)) s.mem }
        some { s with files := Function.update s.files fi { s.files fi with size := size } }
  | _, _ => some s

/-- The search loop of the `rm` branch of `run_command` (kernel.c:1134-1135), from index
`i` on; the first argument is `file_count - i`.  The result is the first index whose name
compares equal to `rm_args`, if there is one. -/
def rm_find (rm_args : List Nat) (files : Nat → file_t) : Nat → Nat → Option (Option Nat)
  | 0, _ => some none
  | fuel + 1, i =>
    match StringC.strcmp (files i).name rm_args with
    | none => none
    | some r => if r = 0 then some (some i) else rm_find rm_args files fuel (i + 1)

/-- The loop `for(int k=i;k<file_count-1;k++) files[k]=files[k+1];` (kernel.c:1136). -/
def rm_shift (files : Nat → file_t) (i file_count : Nat) : Nat → file_t :=
  (List.range' i (file_count - 1 - i)).foldl (fun fs k => Function.update fs k (fs (k + 1)))
    files

/-- The `rm` branch of `run_command` (kernel.c:1132-1143), for the argument string
`rm_args`. -/
def cmd_rm (rm_args : List Nat) (s : Fs) (t : Term) : Option (Fs × Term) :=
  match rm_args with
  | [] => none
  | c :: _ =>
    if c = 0 then some (s, puts (Interrupts.c_str "usage: rm <file>\n") t)
    else
      match rm_find rm_args s.files s.file_count 0 with
      | none => none
      | some none => some (s, puts (Interrupts.c_str "file not found\n") t)
      | some (some i) =>
        some ({ s with files := rm_shift s.files i s.file_count,
                       file_count := s.file_count - 1 }, t)

/-- The file store before any call: no file, nothing allocated, all records zero. -/
def fs_empty (mem : Nat → Nat) : Fs :=
  { files := fun _ => ⟨List.replicate 16 0, 0, 0⟩, file_count := 0, next_alloc := 0,
    mem := mem }

/-- One operation of the file store: a call of `fs_create` or of `fs_write`, or the
command `rm`. -/
def FsStep (s s' : Fs) : Prop :=
  (∃ name data size, fs_create name data size s = some s') ∨
  (∃ f data size, fs_write f data size s = some s') ∨
  (∃ rm_args t t', cmd_rm rm_args s t = some (s', t'))

/-- The allocation invariant of the file store. -/
def FsInv (s : Fs) : Prop :=
  s.file_count ≤ s.next_alloc ∧ s.next_alloc ≤ MAX_FILES ∧
  (∀ i, i < s.file_count → (s.files i).size ≤ MAX_FILE_SIZE ∧
    ∃ k, k < s.next_alloc ∧ (s.files i).data = FS_START_ADDR + k * MAX_FILE_SIZE) ∧
  (∀ i j, i < s.file_count → j < s.file_count → i ≠ j →
    (s.files i).data ≠ (s.files j).data)

end Kernel

/-! ## Lemmas -/

namespace Interrupts


/-- The five field stores of `idt_set_gate` amount to one store of a whole descriptor. -/
theorem idt_set_gate_idt (num base sel flags : Nat) (k : State) :
    (idt_set_gate num base sel flags k).idt =
      Function.update k.idt ⟨num % 2 ^ 8, Nat.mod_lt _ (by decide)⟩
        { base_lo := base % 2 ^ 32 % 2 ^ 16, sel := sel % 2 ^ 16, always0 := 0,
          flags := flags % 2 ^ 8, base_hi := base % 2 ^ 32 / 2 ^ 16 % 2 ^ 16 } := by
  have h1 : ∀ x : Nat, x &&& 0xFFFF = x % 2 ^ 16 := fun x => Nat.and_pow_two_sub_one_eq_mod x 16
  simp only [idt_set_gate, Function.update_same, Function.update_idem, h1, Nat.shiftRight_eq_div_pow]

/-- Effect of `idt_set_gate` on the log: one gate event. -/
theorem idt_set_gate_log (num base sel flags : Nat) (k : State) :
    (idt_set_gate num base sel flags k).log = k.log ++ [Event.gate (num % 2 ^ 8)] := by
  simp [idt_set_gate]

/-- Slots other than the addressed one keep their descriptor. -/
theorem idt_set_gate_other (num base sel flags : Nat) (k : State) (i : Fin 256)
    (h : i.val ≠ num % 2 ^ 8) : (idt_set_gate num base sel flags k).idt i = k.idt i := by
  rw [idt_set_gate_idt, Function.update_noteq]
  intro hi
  apply h
  rw [hi]

/-- The addressed slot receives the assembled descriptor. -/
theorem idt_set_gate_same (num base sel flags : Nat) (k : State) (i : Fin 256)
    (h : i.val = num % 2 ^ 8) : (idt_set_gate num base sel flags k).idt i =
        { base_lo := base % 2 ^ 32 % 2 ^ 16, sel := sel % 2 ^ 16, always0 := 0,
          flags := flags % 2 ^ 8, base_hi := base % 2 ^ 32 / 2 ^ 16 % 2 ^ 16 } := by
  rw [idt_set_gate_idt]
  have : i = ⟨num % 2 ^ 8, Nat.mod_lt _ (by decide)⟩ := Fin.ext h
  rw [this, Function.update_same]

/-- A run of gate installations leaves alone every slot that none of them addresses. -/
theorem foldl_gate_other (g a : Nat → Nat) (sel flags : Nat) (l : List Nat) (k : State) (i : Fin 256)
    (h : ∀ n ∈ l, i.val ≠ g n % 2 ^ 8) :
    (l.foldl (fun k n => idt_set_gate (g n) (a n) sel flags k) k).idt i = k.idt i := by
  induction l generalizing k with
  | nil => rfl
  | cons x l ih =>
    rw [List.foldl_cons, ih _ (fun n hn => h n (List.mem_cons_of_mem _ hn)),
      idt_set_gate_other _ _ _ _ _ _ (h x (List.mem_cons_self _ _))]

/-- A run of gate installations to distinct slots leaves in each slot the descriptor
assembled for it. -/
theorem foldl_gate_same (g a : Nat → Nat) (sel flags : Nat) (l : List Nat) (k : State) (i : Fin 256)
    (n : Nat) (hn : n ∈ l) (hi : i.val = g n % 2 ^ 8)
    (hinj : ∀ m ∈ l, g m % 2 ^ 8 = g n % 2 ^ 8 → m = n) :
    (l.foldl (fun k n => idt_set_gate (g n) (a n) sel flags k) k).idt i =
        { base_lo := a n % 2 ^ 32 % 2 ^ 16, sel := sel % 2 ^ 16, always0 := 0,
          flags := flags % 2 ^ 8, base_hi := a n % 2 ^ 32 / 2 ^ 16 % 2 ^ 16 } := by
  induction l generalizing k with
  | nil => simp at hn
  | cons x l ih =>
    rw [List.foldl_cons]
    by_cases hl : n ∈ l
    · exact ih _ hl (fun m hm => hinj m (List.mem_cons_of_mem _ hm))
    · have hx : x = n := by
        rcases List.mem_cons.1 hn with h | h
        · exact h.symm
        · exact absurd h hl
      subst hx
      rw [foldl_gate_other]
      · exact idt_set_gate_same _ _ _ _ _ _ hi
      · intro m hm hc
        have := hinj m (List.mem_cons_of_mem _ hm) (hi ▸ hc).symm
        exact hl (this ▸ hm)

/-- The 32 calls of `isrs_install`, as a fold over the vectors 0..31. -/
theorem isrs_install_eq_foldl (sym : Symbols) (k : State) :
    isrs_install sym k =
      (List.range 32).foldl (fun k n => idt_set_gate n (sym.isr n) 0x08 0x8E k) k := by
  simp [isrs_install, List.range_succ]

/-- The 16 calls of `irq_install`, as a fold over the lines 0..15, after `irq_remap`. -/
theorem irq_install_eq_foldl (sym : Symbols) (k : State) :
    irq_install sym k =
      (List.range 16).foldl (fun k n => idt_set_gate (32 + n) (sym.irq n) 0x08 0x8E k)
        (irq_remap k) := by
  simp [irq_install, List.range_succ]

/-- Port writes do not touch the table. -/
theorem outb_idt (port val : Nat) (k : State) : (outb port val k).idt = k.idt := rfl

/-- The remap does not touch the table. -/
theorem irq_remap_idt (k : State) : (irq_remap k).idt = k.idt := by
  simp [irq_remap, outb_idt]

/-- Slots visited by the clearing loop are zero, the others keep their descriptor. -/
theorem foldl_idt_clear (l : List (Fin 256)) (k : State) (i : Fin 256) :
    (l.foldl idt_clear k).idt i = if i ∈ l then ⟨0, 0, 0, 0, 0⟩ else k.idt i := by
  induction l generalizing k with
  | nil => simp
  | cons x l ih =>
    rw [List.foldl_cons, ih]
    by_cases h : i ∈ l
    · simp [h]
    · by_cases hx : i = x
      · subst hx
        simp [h, idt_clear]
      · simp [h, hx, idt_clear, Function.update_noteq hx]

/-- The clearing loop changes neither the log nor `idtp`. -/
theorem foldl_idt_clear_log (l : List (Fin 256)) (k : State) :
    (l.foldl idt_clear k).log = k.log ∧ (l.foldl idt_clear k).idtp = k.idtp := by
  induction l generalizing k with
  | nil => exact ⟨rfl, rfl⟩
  | cons x l ih =>
    rw [List.foldl_cons]
    exact ⟨(ih _).1.trans rfl, (ih _).2.trans rfl⟩

/-- After `idt_install` every slot is zero. -/
theorem idt_install_idt (sym : Symbols) (k : State) (i : Fin 256) :
    (idt_install sym k).idt i = ⟨0, 0, 0, 0, 0⟩ := by
  simp only [idt_install, idt_load]
  rw [foldl_idt_clear]
  simp [List.mem_finRange]

/-- Effect of `idt_install` on the log: one load, of limit 2047 and the table address. -/
theorem idt_install_log (sym : Symbols) (k : State) :
    (idt_install sym k).log = k.log ++ [Event.idt_load 2047 (sym.idt_addr % 2 ^ 32)] := by
  simp only [idt_install, idt_load]
  rw [(foldl_idt_clear_log _ _).1, (foldl_idt_clear_log _ _).2]
  rfl

/-- The call `isrs_install` leaves the slots from 32 on alone. -/
theorem isrs_install_other (sym : Symbols) (k : State) (i : Fin 256) (h : 32 ≤ i.val) :
    (isrs_install sym k).idt i = k.idt i := by
  rw [isrs_install_eq_foldl, foldl_gate_other]
  intro n hn
  have := List.mem_range.1 hn
  omega

/-- The call `irq_install` leaves the slots below 32 and from 48 on alone. -/
theorem irq_install_other (sym : Symbols) (k : State) (i : Fin 256)
    (h : i.val < 32 ∨ 48 ≤ i.val) : (irq_install sym k).idt i = k.idt i := by
  rw [irq_install_eq_foldl, foldl_gate_other, irq_remap_idt]
  intro n hn
  have := List.mem_range.1 hn
  omega

/-- Effect of a run of gate installations on the log. -/
theorem foldl_gate_log (g a : Nat → Nat) (sel flags : Nat) (l : List Nat) (k : State) :
    (l.foldl (fun k n => idt_set_gate (g n) (a n) sel flags k) k).log =
      k.log ++ l.map (fun n => Event.gate (g n % 2 ^ 8)) := by
  induction l generalizing k with
  | nil => simp
  | cons x l ih => rw [List.foldl_cons, ih, idt_set_gate_log]; simp

/-- Effect of `isrs_install` on the log: the gate events 0..31 in order. -/
theorem isrs_install_log (sym : Symbols) (k : State) :
    (isrs_install sym k).log = k.log ++ (List.range 32).map Event.gate := by
  have h : (List.range 32).map (fun n => Event.gate (n % 2 ^ 8)) =
      (List.range 32).map Event.gate :=
    List.map_congr_left fun n hn => by
      have := List.mem_range.1 hn
      rw [Nat.mod_eq_of_lt (by omega)]
  rw [isrs_install_eq_foldl, foldl_gate_log, h]

/-- The controller pair after `irq_remap`, whatever it was before. -/
theorem irq_remap_pic (k : State) :
    (irq_remap k).pic = ⟨⟨32, 0, 4, 1, 0⟩, ⟨40, 0, 2, 1, 0⟩⟩ := by
  simp [irq_remap, outb, ControllerState.write, Pic.command, Pic.data, PIC1_CMD, PIC2_CMD,
    PIC1_DATA, PIC2_DATA, PIC1, PIC2, ICW1_INIT, ICW4_8086]

/-- The ten port writes of `irq_remap`, in program order. -/
theorem irq_remap_log (k : State) :
    (irq_remap k).log = k.log ++
      [Event.outb 0x20 0x11, Event.outb 0xA0 0x11, Event.outb 0x21 0x20, Event.outb 0xA1 0x28,
       Event.outb 0x21 0x04, Event.outb 0xA1 0x02, Event.outb 0x21 0x01, Event.outb 0xA1 0x01,
       Event.outb 0x21 0x00, Event.outb 0xA1 0x00] := by
  simp [irq_remap, outb, PIC1_CMD, PIC2_CMD,
    PIC1_DATA, PIC2_DATA, PIC1, PIC2, ICW1_INIT, ICW4_8086]

/-- Effect of `irq_install` on the log: the ten port writes, then the gate events 32..47. -/
theorem irq_install_log (sym : Symbols) (k : State) :
    (irq_install sym k).log = k.log ++
      ([Event.outb 0x20 0x11, Event.outb 0xA0 0x11, Event.outb 0x21 0x20, Event.outb 0xA1 0x28,
       Event.outb 0x21 0x04, Event.outb 0xA1 0x02, Event.outb 0x21 0x01, Event.outb 0xA1 0x01,
       Event.outb 0x21 0x00, Event.outb 0xA1 0x00] ++
       (List.range 16).map (fun n => Event.gate (32 + n))) := by
  have h : (List.range 16).map (fun n => Event.gate ((32 + n) % 2 ^ 8)) =
      (List.range 16).map (fun n => Event.gate (32 + n)) :=
    List.map_congr_left fun n hn => by
      have := List.mem_range.1 hn
      rw [Nat.mod_eq_of_lt (by omega)]
  rw [irq_install_eq_foldl, foldl_gate_log, irq_remap_log, List.append_assoc, h]

/-- The port writes of `irq_handler`. -/
theorem irq_handler_log (r : regs) (k : State) :
    (irq_handler r k).2.log = k.log ++
      (if 40 ≤ r.int_no then [Event.outb 0xA0 0x20, Event.outb 0x20 0x20]
       else [Event.outb 0x20 0x20]) := by
  by_cases h : 40 ≤ r.int_no <;> simp [irq_handler, outb, h]

/-- The handler `irq_handler` does not write `timer_ticks`. -/
theorem irq_handler_ticks (r : regs) (k : State) :
    (irq_handler r k).2.timer_ticks = k.timer_ticks := by
  by_cases h : 40 ≤ r.int_no <;> simp [irq_handler, outb, h]

/-- The call `init_pit(100)` of `kernel_main`: the divisor is 11931 = 0x2E9B. -/
theorem init_pit_100 (k : State) :
    init_pit 100 k = some (outb 0x40 0x2E (outb 0x40 0x9B (outb 0x43 0x36 k))) := by
  have h1 : ∀ x : Nat, x &&& 0xFF = x % 2 ^ 8 := fun x => Nat.and_pow_two_sub_one_eq_mod x 8
  simp [init_pit, h1, Nat.shiftRight_eq_div_pow]

/-- Effect of `vga_putc` on the log: the character it was given. -/
theorem vga_putc_log (ch : Nat) (k : State) :
    (vga_putc ch k).log = k.log ++ [Event.putc ch] := by
  unfold vga_putc
  simp only []
  split_ifs <;> rfl

/-- Effect of `vga_puts` on the log: the characters before the first NUL. -/
theorem vga_puts_log (s : List Nat) (k : State) :
    (vga_puts s k).log = k.log ++ (s.takeWhile (fun c => c != 0)).map Event.putc := by
  induction s generalizing k with
  | nil => simp [vga_puts]
  | cons c s ih =>
    by_cases h : c = 0
    · simp [vga_puts, h]
    · simp [vga_puts, h, ih, vga_putc_log]

/-- Printing NUL-free bytes followed by a NUL emits exactly those bytes. -/
theorem vga_puts_bytes_log (ds : List Nat) (k : State) (hds : ∀ d ∈ ds, d ≠ 0) :
    (vga_puts (ds ++ [0]) k).log = k.log ++ ds.map Event.putc := by
  rw [vga_puts_log, List.takeWhile_append_of_pos (by simpa using hds)]
  simp

/-- The digit loop of `print_uint` stores the decimal digits of `num`, most significant
first, right before position `i` of the buffer, provided they fit. -/
theorem print_uint_loop_spec (i num : Nat) (buf : List Nat) (hi : i ≤ buf.length)
    (hd : (Nat.digits 10 num).length ≤ i) :
    (print_uint_loop i num buf).2.drop (print_uint_loop i num buf).1 =
      (Nat.digits 10 num).reverse.map (fun d => 48 + d) ++ buf.drop i := by
  induction i generalizing num buf with
  | zero =>
    have : Nat.digits 10 num = [] := List.eq_nil_of_length_eq_zero (Nat.le_zero.1 hd)
    simp [print_uint_loop, this]
  | succ i ih =>
    by_cases hn : num > 0
    · have hdig : Nat.digits 10 num = num % 10 :: Nat.digits 10 (num / 10) :=
        Nat.digits_def' (by decide) hn
      rw [hdig] at hd
      simp only [List.length_cons, Nat.add_le_add_iff_right] at hd
      simp only [print_uint_loop, if_pos hn]
      rw [ih (num / 10) _ (by rw [List.length_set]; omega) hd, hdig]
      have hlt : i < buf.length := hi
      simp [List.drop_set_of_lt, List.drop_eq_getElem_cons, List.length_set, hlt]
    · have : num = 0 := by omega
      subst this
      simp [print_uint_loop]

/-- The character of a decimal digit is `0` plus the digit. -/
theorem digitChar_toNat (d : Nat) (hd : d < 10) : (Nat.digitChar d).toNat = 48 + d := by
  interval_cases d <;> rfl

/-- The digit characters computed by `Nat.toDigitsCore`, in terms of `Nat.digits`. -/
theorem toDigitsCore_eq (fuel n : Nat) (acc : List Char) (h : n < fuel) :
    Nat.toDigitsCore 10 fuel n acc =
      (if n = 0 then [Nat.digitChar 0] else
        (Nat.digits 10 n).reverse.map Nat.digitChar) ++ acc := by
  induction fuel generalizing n acc with
  | zero => omega
  | succ fuel ih =>
    unfold Nat.toDigitsCore
    simp only []
    by_cases hq : n / 10 = 0
    · have hlt : n < 10 := by omega
      rw [if_pos hq, Nat.mod_eq_of_lt hlt]
      by_cases h0 : n = 0
      · simp [h0]
      · have hdig : Nat.digits 10 n = [n] := Nat.digits_of_lt 10 n h0 hlt
        simp [h0, hdig]
    · have hn : 0 < n := by omega
      rw [if_neg hq, ih (n / 10) _ (by omega), if_neg hq, if_neg (by omega),
        Nat.digits_def' (by decide) hn]
      simp

/-- The bytes of the decimal numeral `Nat.repr n`, in terms of `Nat.digits`. -/
theorem repr_bytes (n : Nat) :
    (Nat.repr n).toList.map Char.toNat =
      if n = 0 then [48] else (Nat.digits 10 n).reverse.map (fun d => 48 + d) := by
  have h : (Nat.repr n).toList = Nat.toDigits 10 n := rfl
  rw [h, Nat.toDigits, toDigitsCore_eq _ _ _ (Nat.lt_succ_self n)]
  by_cases h0 : n = 0
  · simp [h0]
    rfl
  · simp only [if_neg h0, List.append_nil, List.map_map]
    apply List.map_congr_left
    intro d hd
    exact digitChar_toNat d (Nat.digits_lt_base (by decide) (List.mem_reverse.1 hd))

/-- The call `print_uint(num)` emits the decimal numeral of `num`. -/
theorem print_uint_log (buf0 : List Nat) (num : Nat) (k : State) (hbuf : buf0.length = 11)
    (hnum : num < 2 ^ 32) :
    (print_uint buf0 num k).log =
      k.log ++ ((Nat.repr num).toList.map Char.toNat).map Event.putc := by
  rw [repr_bytes]
  unfold print_uint
  simp only [Nat.mod_eq_of_lt hnum]
  by_cases h0 : num = 0
  · simp [h0, vga_putc_log]
  · simp only [if_neg h0]
    have hd : (Nat.digits 10 num).length ≤ 10 := by
      have h1 := Nat.base_pow_length_digits_le 10 num (by decide) h0
      have h2 : 10 ^ (Nat.digits 10 num).length < 10 ^ 11 := by omega
      have := (Nat.pow_lt_pow_iff_right (by decide : 1 < 10)).1 h2
      omega
    have hspec := print_uint_loop_spec 10 num (buf0.set 10 0)
      (by rw [List.length_set, hbuf]; decide) hd
    have hdrop : (buf0.set 10 0).drop 10 = [0] := by
      apply List.ext_getElem
      · simp [hbuf]
      · intro i h1 h2
        have hi : i = 0 := by simpa using h2
        subst hi
        simp
    rw [hdrop] at hspec
    rw [hspec, vga_puts_bytes_log]
    intro d hd
    simp only [List.mem_map] at hd
    obtain ⟨a, _, rfl⟩ := hd
    omega

/-- The complete event sequence of the boot code, in program order. -/
theorem kernel_main_boot_log (sym : Symbols) (k : State) :
    ∃ s, kernel_main_boot sym k = some s ∧
      s.log = k.log ++ Event.idt_load 2047 (sym.idt_addr % 2 ^ 32) ::
        ((List.range 32).map Event.gate ++
          ([Event.outb 0x20 0x11, Event.outb 0xA0 0x11, Event.outb 0x21 0x20,
            Event.outb 0xA1 0x28, Event.outb 0x21 0x04, Event.outb 0xA1 0x02,
            Event.outb 0x21 0x01, Event.outb 0xA1 0x01, Event.outb 0x21 0x00,
            Event.outb 0xA1 0x00] ++
          ((List.range 16).map (fun n => Event.gate (32 + n)) ++
          ([Event.outb 0x43 0x36, Event.outb 0x40 0x9B, Event.outb 0x40 0x2E] ++
          (Event.sti ::
            ((c_str "Interrupts installed. Waiting for ticks...\n").takeWhile
              (fun c => c != 0)).map Event.putc))))) := by
  simp only [kernel_main_boot, init_pit_100]
  refine ⟨_, rfl, ?_⟩
  rw [vga_puts_log]
  simp only [sti, outb]
  rw [irq_install_log, isrs_install_log, idt_install_log]
  simp

/-! ## Claims -/

/-- Claim C1: after `idt_install`, `isrs_install` and `irq_install`, starting from any
state, every slot `v < 32` holds the gate of the exception stub `isr v` (selector 0x08,
reserved byte 0, flags 0x8E, the stub address split in two halves), every slot
`32 ≤ v < 48` holds the gate of the IRQ stub `irq (v - 32)`, and every slot `v ≥ 48` is
all-zero.  The stub addresses are 32-bit values. -/
theorem init_table_contents (sym : Symbols) (k : State)
    (hisr : ∀ n, n < 32 → sym.isr n < 2 ^ 32) (hirq : ∀ n, n < 16 → sym.irq n < 2 ^ 32)
    (v : Fin 256) :
    (v.val < 32 →
      (irq_install sym (isrs_install sym (idt_install sym k))).idt v =
        { base_lo := sym.isr v.val % 2 ^ 16, sel := 0x08, always0 := 0, flags := 0x8E,
          base_hi := sym.isr v.val / 2 ^ 16 }) ∧
    (32 ≤ v.val → v.val < 48 →
      (irq_install sym (isrs_install sym (idt_install sym k))).idt v =
        { base_lo := sym.irq (v.val - 32) % 2 ^ 16, sel := 0x08, always0 := 0, flags := 0x8E,
          base_hi := sym.irq (v.val - 32) / 2 ^ 16 }) ∧
    (48 ≤ v.val →
      (irq_install sym (isrs_install sym (idt_install sym k))).idt v =
        { base_lo := 0, sel := 0, always0 := 0, flags := 0, base_hi := 0 }) := by
  refine ⟨fun hv => ?_, fun hv1 hv2 => ?_, fun hv => ?_⟩
  · rw [irq_install_other _ _ _ (Or.inl hv), isrs_install_eq_foldl,
      foldl_gate_same (fun n => n) sym.isr 0x08 0x8E (List.range 32) _ v v.val
        (List.mem_range.2 hv) (by simp; omega)
        (fun m hm h => by have := List.mem_range.1 hm; simp at h; omega)]
    have hb := hisr v.val hv
    have h1 : sym.isr v.val % 2 ^ 32 = sym.isr v.val := Nat.mod_eq_of_lt hb
    have h2 : sym.isr v.val / 2 ^ 16 % 2 ^ 16 = sym.isr v.val / 2 ^ 16 :=
      Nat.mod_eq_of_lt (by omega)
    rw [h1, h2]
    norm_num
  · rw [irq_install_eq_foldl,
      foldl_gate_same (fun n => 32 + n) sym.irq 0x08 0x8E (List.range 16) _ v (v.val - 32)
        (List.mem_range.2 (by omega)) (by simp; omega)
        (fun m hm h => by have := List.mem_range.1 hm; simp at h; omega)]
    have hb := hirq (v.val - 32) (by omega)
    have h1 : sym.irq (v.val - 32) % 2 ^ 32 = sym.irq (v.val - 32) := Nat.mod_eq_of_lt hb
    have h2 : sym.irq (v.val - 32) / 2 ^ 16 % 2 ^ 16 = sym.irq (v.val - 32) / 2 ^ 16 :=
      Nat.mod_eq_of_lt (by omega)
    rw [h1, h2]
    norm_num
  · rw [irq_install_other _ _ _ (Or.inr hv), isrs_install_other _ _ _ (by omega),
      idt_install_idt]

/-- Claim C1 at a concrete input: with the sample link map and the junk-filled sample
table, slot 14 holds the gate of `isr14` at 0x1000E0, slot 40 the gate of `irq8` at
0x100480, and slot 200 is zero. -/
theorem init_table_contents_witness :
    ((∀ n, n < 32 → sample_symbols.isr n < 2 ^ 32) ∧
      (∀ n, n < 16 → sample_symbols.irq n < 2 ^ 32)) ∧
    (irq_install sample_symbols
        (isrs_install sample_symbols (idt_install sample_symbols sample_state))).idt 14 =
      { base_lo := 0x00E0, sel := 0x08, always0 := 0, flags := 0x8E, base_hi := 0x0010 } ∧
    (irq_install sample_symbols
        (isrs_install sample_symbols (idt_install sample_symbols sample_state))).idt 40 =
      { base_lo := 0x0480, sel := 0x08, always0 := 0, flags := 0x8E, base_hi := 0x0010 } ∧
    (irq_install sample_symbols
        (isrs_install sample_symbols (idt_install sample_symbols sample_state))).idt 200 =
      { base_lo := 0, sel := 0, always0 := 0, flags := 0, base_hi := 0 } :=
  ⟨⟨fun n hn => by simp only [sample_symbols]; omega,
    fun n hn => by simp only [sample_symbols]; omega⟩,
   (init_table_contents sample_symbols sample_state
      (fun n hn => by simp only [sample_symbols]; omega)
      (fun n hn => by simp only [sample_symbols]; omega) 14).1 (by decide),
   (init_table_contents sample_symbols sample_state
      (fun n hn => by simp only [sample_symbols]; omega)
      (fun n hn => by simp only [sample_symbols]; omega) 40).2.1 (by decide) (by decide),
   (init_table_contents sample_symbols sample_state
      (fun n hn => by simp only [sample_symbols]; omega)
      (fun n hn => by simp only [sample_symbols]; omega) 200).2.2 (by decide)⟩

/-- Claim C2: for an 8-bit vector `num`, a 32-bit address `base`, a 16-bit selector `sel`
and 8-bit `flags`, `idt_set_gate` leaves in slot `num` the descriptor with
`base_lo = base mod 2^16`, `sel`, `always0 = 0`, `flags` and `base_hi = base div 2^16`;
both halves fit in 16 bits and `base_lo + 2^16 * base_hi = base`, so the split loses no
bit of the handler address. -/
theorem idt_set_gate_slot (k : State) (num base sel flags : Nat)
    (hnum : num < 2 ^ 8) (hbase : base < 2 ^ 32) (hsel : sel < 2 ^ 16)
    (hflags : flags < 2 ^ 8) :
    (idt_set_gate num base sel flags k).idt ⟨num, hnum⟩ =
        { base_lo := base % 2 ^ 16, sel := sel, always0 := 0, flags := flags,
          base_hi := base / 2 ^ 16 } ∧
      ((idt_set_gate num base sel flags k).idt ⟨num, hnum⟩).base_lo +
        2 ^ 16 * ((idt_set_gate num base sel flags k).idt ⟨num, hnum⟩).base_hi = base ∧
      ((idt_set_gate num base sel flags k).idt ⟨num, hnum⟩).base_lo < 2 ^ 16 ∧
      ((idt_set_gate num base sel flags k).idt ⟨num, hnum⟩).base_hi < 2 ^ 16 := by
  have hslot : (idt_set_gate num base sel flags k).idt ⟨num, hnum⟩ =
      { base_lo := base % 2 ^ 16, sel := sel, always0 := 0, flags := flags,
        base_hi := base / 2 ^ 16 } := by
    rw [idt_set_gate_same num base sel flags k ⟨num, hnum⟩ (Nat.mod_eq_of_lt hnum).symm,
      Nat.mod_eq_of_lt hbase, Nat.mod_eq_of_lt hsel, Nat.mod_eq_of_lt hflags,
      Nat.mod_eq_of_lt (show base / 2 ^ 16 < 2 ^ 16 by omega)]
  rw [hslot]
  refine ⟨rfl, ?_, ?_, ?_⟩
  · exact Nat.mod_add_div base (2 ^ 16)
  · exact Nat.mod_lt _ (by decide)
  · show base / 2 ^ 16 < 2 ^ 16
    omega

/-- Claim C2 at a concrete input: the gate for vector 0x21 with handler 0xC0DE1234 has
the halves 0x1234 and 0xC0DE, which recombine to the handler address. -/
theorem idt_set_gate_slot_witness :
    (0x21 < 2 ^ 8 ∧ 0xC0DE1234 < 2 ^ 32 ∧ 0x08 < 2 ^ 16 ∧ 0x8E < 2 ^ 8) ∧
    (idt_set_gate 0x21 0xC0DE1234 0x08 0x8E sample_state).idt ⟨0x21, by decide⟩ =
        { base_lo := 0x1234, sel := 0x08, always0 := 0, flags := 0x8E, base_hi := 0xC0DE } ∧
    ((idt_set_gate 0x21 0xC0DE1234 0x08 0x8E sample_state).idt ⟨0x21, by decide⟩).base_lo +
        2 ^ 16 *
          ((idt_set_gate 0x21 0xC0DE1234 0x08 0x8E sample_state).idt ⟨0x21, by decide⟩).base_hi
      = 0xC0DE1234 :=
  ⟨by decide,
   (idt_set_gate_slot sample_state 0x21 0xC0DE1234 0x08 0x8E (by decide) (by decide)
      (by decide) (by decide)).1,
   (idt_set_gate_slot sample_state 0x21 0xC0DE1234 0x08 0x8E (by decide) (by decide)
      (by decide) (by decide)).2.1⟩

/-- Claim C3: gate installation never corrupts another table entry.  For every state and
every call `idt_set_gate(num, base, sel, flags)` with `num` an 8-bit value, `num` is below
the table size 256 and every slot `i ≠ num` of the table is unchanged by the call. -/
theorem idt_set_gate_frame (k : State) (num base sel flags : Nat) (hnum : num < 2 ^ 8) :
    num < IDT_ENTRIES ∧
      ∀ i : Fin 256, i.val ≠ num → (idt_set_gate num base sel flags k).idt i = k.idt i := by
  refine ⟨hnum, fun i hi => ?_⟩
  exact idt_set_gate_other num base sel flags k i (by rwa [Nat.mod_eq_of_lt hnum])

/-- Claim C3 at a concrete input: installing the last vector 0xFF with all-ones arguments
leaves slot 0 (the slot that follows it cyclically) with its previous descriptor. -/
theorem idt_set_gate_frame_witness :
    (0xFF < 2 ^ 8 ∧ (0 : Fin 256).val ≠ 0xFF) ∧
      (idt_set_gate 0xFF 0xFFFFFFFF 0xFFFF 0xFF sample_state).idt 0 = ⟨0, 1, 2, 3, 4⟩ :=
  ⟨by decide,
   (idt_set_gate_frame sample_state 0xFF 0xFFFFFFFF 0xFFFF 0xFF (by decide)).2 0 (by decide)⟩

/-- Claim C4 as stated fails: in the log of the boot code run from the sample state there
is no `idt_load` event that all 48 gate stores precede. -/
theorem boot_load_after_gates_counterexample :
    ∃ s, kernel_main_boot sample_symbols sample_state = some s ∧
      ¬ ∃ pre post l b, s.log = pre ++ Event.idt_load l b :: post ∧
          ∀ n, n < 48 → Event.gate n ∈ pre := by
  obtain ⟨s, hs, hlog⟩ := kernel_main_boot_log sample_symbols sample_state
  refine ⟨s, hs, ?_⟩
  rintro ⟨pre, post, l, b, heq, hg⟩
  rw [hlog] at heq
  cases pre with
  | nil => exact absurd (hg 0 (by decide)) (by simp)
  | cons e pre =>
    have h2 : Event.idt_load l b ∈ pre ++ Event.idt_load l b :: post := by simp
    simp only [sample_state, List.nil_append, List.cons_append, List.cons.injEq] at heq
    rw [← heq.2] at h2
    simp at h2

/-- Claim C4, amended: the boot code of `kernel_main` returns from its straight-line part
having performed `idt_load` exactly once, as the first logged step (the last statement of
`idt_install`, with register image limit 2047 and the table address), when all 256 slots
are zero; every one of the gate stores 0..47 occurs after the load. -/
theorem boot_load_once_before_gates (sym : Symbols) (k : State) :
    ∃ s rest, kernel_main_boot sym k = some s ∧
      s.log = k.log ++ Event.idt_load 2047 (sym.idt_addr % 2 ^ 32) :: rest ∧
      (∀ l b, Event.idt_load l b ∉ rest) ∧
      (∀ n, n < 48 → Event.gate n ∈ rest) ∧
      (∀ i, (idt_install sym k).idt i = ⟨0, 0, 0, 0, 0⟩) := by
  obtain ⟨s, hs, hlog⟩ := kernel_main_boot_log sym k
  refine ⟨s, _, hs, hlog, ?_, ?_, idt_install_idt sym k⟩
  · intro l b
    simp
  · intro n hn
    by_cases h : n < 32
    · simp [h]
    · have : ∃ a, a < 16 ∧ 32 + a = n := ⟨n - 32, by omega, by omega⟩
      simp [h, this]

/-- Claim C5: after `irq_remap`, whatever the controllers held before, the primary vector
offset is 32, the secondary vector offset is 40, and both masks are 0. -/
theorem irq_remap_controller_state (k : State) :
    (irq_remap k).pic.primary.offset = 32 ∧ (irq_remap k).pic.secondary.offset = 40 ∧
      (irq_remap k).pic.primary.mask = 0 ∧ (irq_remap k).pic.secondary.mask = 0 := by
  rw [irq_remap_pic]
  exact ⟨rfl, rfl, rfl, rfl⟩

/-- Claim C6: `irq_remap` is idempotent on controller state: calling it twice leaves the
controller pair in the same state as calling it once, from every initial state. -/
theorem irq_remap_idempotent (k : State) :
    (irq_remap (irq_remap k)).pic = (irq_remap k).pic := by
  rw [irq_remap_pic, irq_remap_pic]

/-- Claim C7: for every trap frame `r`, the port writes of `irq_handler` are the
end-of-interrupt byte 0x20 to the secondary command port 0xA0 when `r.int_no ≥ 40`,
followed in every case by the byte 0x20 to the primary command port 0x20.  So port 0x20
receives exactly one byte 0x20, port 0xA0 exactly one byte 0x20 if `r.int_no ≥ 40` and
none if `r.int_no < 40`, and nothing else is written. -/
theorem irq_handler_eoi (r : regs) (k : State) :
    ∃ ev, (irq_handler r k).2.log = k.log ++ ev ∧
      ev = (if 40 ≤ r.int_no then [Event.outb 0xA0 0x20, Event.outb 0x20 0x20]
            else [Event.outb 0x20 0x20]) ∧
      port_writes 0x20 ev = [0x20] ∧
      (40 ≤ r.int_no → port_writes 0xA0 ev = [0x20]) ∧
      (r.int_no < 40 → port_writes 0xA0 ev = []) ∧
      (∀ e ∈ ev, e = Event.outb 0x20 0x20 ∨ e = Event.outb 0xA0 0x20) := by
  refine ⟨_, irq_handler_log r k, rfl, ?_, ?_, ?_, ?_⟩
  · by_cases h : 40 ≤ r.int_no <;> simp [h, port_writes]
  · intro h
    simp [h, port_writes]
  · intro h
    simp [Nat.not_le.2 h, port_writes]
  · intro e he
    by_cases h : 40 ≤ r.int_no
    · simp [h] at he
      tauto
    · simp [h] at he
      tauto

/-- Claim C7 at concrete inputs: for vector 47 both controllers receive one byte 0x20; for
the spurious vector 7 the primary controller receives one and the secondary none. -/
theorem irq_handler_eoi_witness :
    (40 ≤ (sample_regs 47).int_no ∧ (sample_regs 7).int_no < 40) ∧
    (∃ ev, (irq_handler (sample_regs 47) sample_state).2.log = sample_state.log ++ ev ∧
      port_writes 0x20 ev = [0x20] ∧ port_writes 0xA0 ev = [0x20]) ∧
    (∃ ev, (irq_handler (sample_regs 7) sample_state).2.log = sample_state.log ++ ev ∧
      port_writes 0x20 ev = [0x20] ∧ port_writes 0xA0 ev = []) := by
  obtain ⟨ev, h1, _, h3, h4, _, _⟩ := irq_handler_eoi (sample_regs 47) sample_state
  obtain ⟨ev2, g1, _, g3, _, g5, _⟩ := irq_handler_eoi (sample_regs 7) sample_state
  exact ⟨by decide, ⟨ev, h1, h3, h4 (by decide)⟩, ⟨ev2, g1, g3, g5 (by decide)⟩⟩

/-- Claim C8 fails on the code: handling an IRQ on the timer line (`int_no = 32`) from a
state with `timer_ticks = 0` leaves `timer_ticks = 0`, whereas `timer_callback`, which the
handler never calls, would have made it 1. -/
theorem irq_handler_timer_line_no_tick :
    (sample_regs 32).int_no = 32 ∧ sample_state.timer_ticks = 0 ∧
    (irq_handler (sample_regs 32) sample_state).2.timer_ticks = 0 ∧
    (timer_callback sample_state).timer_ticks = 1 := by
  refine ⟨rfl, rfl, ?_, rfl⟩
  rw [irq_handler_ticks]
  rfl

/-- Claim C9: for every trap frame `r` (with a 32-bit `int_no`) and whatever the local
buffer of `print_uint` held, `isr_handler` hands to `vga_putc` exactly the characters of
"ISR: ", then the decimal numeral of `r.int_no`, then a newline, and the frame is
unchanged when the handler returns. -/
theorem isr_handler_output (buf0 : List Nat) (r : regs) (k : State)
    (hbuf : buf0.length = 11) (hno : r.int_no < 2 ^ 32) :
    (isr_handler buf0 r k).2.log =
        k.log ++ ("ISR: ".toList ++ (Nat.repr r.int_no).toList ++ "\n".toList).map
          (fun c => Event.putc c.toNat) ∧
      (isr_handler buf0 r k).1 = r := by
  refine ⟨?_, rfl⟩
  simp only [isr_handler]
  rw [vga_puts_log, print_uint_log _ _ _ hbuf hno, vga_puts_log]
  simp [c_str, List.takeWhile]

/-- Claim C9 at a concrete input: for vector 13 and a buffer full of 0xCC the handler
emits the seven characters of "ISR: 13" and a newline. -/
theorem isr_handler_output_witness :
    ((List.replicate 11 0xCC).length = 11 ∧ (sample_regs 13).int_no < 2 ^ 32) ∧
      (isr_handler (List.replicate 11 0xCC) (sample_regs 13) sample_state).2.log =
        [Event.putc 73, Event.putc 83, Event.putc 82, Event.putc 58, Event.putc 32,
         Event.putc 49, Event.putc 51, Event.putc 10] ∧
      (isr_handler (List.replicate 11 0xCC) (sample_regs 13) sample_state).1 =
        sample_regs 13 :=
  ⟨by decide, isr_handler_output (List.replicate 11 0xCC) (sample_regs 13) sample_state
      (by decide) (by decide)⟩

/-- Claim C10: for every nonzero 32-bit `frequency`, `init_pit` returns, and its port
writes are exactly three, in this order: 0x36 to port 0x43, then `divisor mod 256` to port
0x40, then `(divisor div 256) mod 256` to port 0x40, where
`divisor = 1193180 div frequency`. -/
theorem init_pit_writes (frequency : Nat) (k : State) (h0 : frequency ≠ 0)
    (h32 : frequency < 2 ^ 32) :
    ∃ s, init_pit frequency k = some s ∧
      s.log = k.log ++ [Event.outb 0x43 0x36, Event.outb 0x40 (1193180 / frequency % 256),
        Event.outb 0x40 (1193180 / frequency / 256 % 256)] := by
  have h1 : ∀ x : Nat, x &&& 0xFF = x % 2 ^ 8 := fun x => Nat.and_pow_two_sub_one_eq_mod x 8
  simp only [init_pit, Nat.mod_eq_of_lt h32, if_neg h0]
  refine ⟨_, rfl, ?_⟩
  simp [outb, h1, Nat.shiftRight_eq_div_pow]

/-- Claim C10 at a concrete input: at 100 Hz the divisor is 11931 = 0x2E9B, written as
0x9B then 0x2E after the mode byte. -/
theorem init_pit_writes_witness :
    ((100 : Nat) ≠ 0 ∧ 100 < 2 ^ 32) ∧
      ∃ s, init_pit 100 sample_state = some s ∧
        s.log = [Event.outb 0x43 0x36, Event.outb 0x40 0x9B, Event.outb 0x40 0x2E] :=
  ⟨by decide, init_pit_writes 100 sample_state (by decide) (by decide)⟩

end Interrupts

/-! ## Lemmas on the clock and the delay loop -/

namespace Kernel

/-- A loop whose condition is false returns at once. -/
theorem time_delay_loop_exit (time start : Nat) (rd : Nat → Nat × Nat) (fuel n endv : Nat)
    (c : ClockState) (h : ¬ u32_sub endv start < time) :
    time_delay_loop time start rd fuel n endv c = some (n, endv, c) := by
  cases fuel <;> simp only [time_delay_loop, if_neg h]

/-- A loop whose condition is true takes one more sample. -/
theorem time_delay_loop_step (time start : Nat) (rd : Nat → Nat × Nat) (fuel n endv : Nat)
    (c : ClockState) (h : u32_sub endv start < time) :
    time_delay_loop time start rd (fuel + 1) n endv c =
      time_delay_loop time start rd fuel (n + 1)
        (double_to_u32 (uptime_microseconds (rd (n + 2)).1 (rd (n + 2)).2 c).1)
        (uptime_microseconds (rd (n + 2)).1 (rd (n + 2)).2 c).2 := by
  simp only [time_delay_loop, if_pos h]

/-- A loop whose condition is true with no execution left does not return. -/
theorem time_delay_loop_none (time start : Nat) (rd : Nat → Nat × Nat) (n endv : Nat)
    (c : ClockState) (h : u32_sub endv start < time) :
    time_delay_loop time start rd 0 n endv c = none := by
  simp only [time_delay_loop, if_pos h]

/-- The two samples of `time_delay` before the loop are the samples 0 and 1. -/
theorem time_delay_eq (time : Int) (rd : Nat → Nat × Nat) (fuel : Nat) (c : ClockState) :
    time_delay time rd fuel c =
      time_delay_loop (int_to_u32 time) (delay_sample rd c 0).1 rd fuel 0
        (delay_sample rd c 1).1 (delay_sample rd c 1).2 := rfl

/-- Partial correctness of the delay loop, from an arbitrary iteration on. -/
theorem time_delay_loop_sound (time : Nat) (rd : Nat → Nat × Nat) (c0 : ClockState)
    (fuel n : Nat) (n1 e : Nat) (c1 : ClockState)
    (h : time_delay_loop time (delay_sample rd c0 0).1 rd fuel n
        (delay_sample rd c0 (n + 1)).1 (delay_sample rd c0 (n + 1)).2 = some (n1, e, c1)) :
    n ≤ n1 ∧ n1 ≤ n + fuel ∧ e = (delay_sample rd c0 (n1 + 1)).1 ∧
      c1 = (delay_sample rd c0 (n1 + 1)).2 ∧
      ¬ u32_sub e (delay_sample rd c0 0).1 < time ∧
      ∀ j, n ≤ j → j < n1 →
        u32_sub (delay_sample rd c0 (j + 1)).1 (delay_sample rd c0 0).1 < time := by
  induction fuel generalizing n with
  | zero =>
    by_cases hc : u32_sub (delay_sample rd c0 (n + 1)).1 (delay_sample rd c0 0).1 < time
    · rw [time_delay_loop_none _ _ _ _ _ _ hc] at h
      exact absurd h (by simp)
    · rw [time_delay_loop_exit _ _ _ _ _ _ _ hc] at h
      simp only [Option.some.injEq, Prod.mk.injEq] at h
      obtain ⟨rfl, rfl, rfl⟩ := h
      exact ⟨le_refl _, le_refl _, rfl, rfl, hc, fun j h1 h2 => absurd h2 (by omega)⟩
  | succ fuel ih =>
    by_cases hc : u32_sub (delay_sample rd c0 (n + 1)).1 (delay_sample rd c0 0).1 < time
    · rw [time_delay_loop_step _ _ _ _ _ _ _ hc] at h
      obtain ⟨h1, h2, h3, h4, h5, h6⟩ := ih (n + 1) h
      refine ⟨by omega, by omega, h3, h4, h5, fun j hj1 hj2 => ?_⟩
      by_cases hj : j = n
      · subst hj; exact hc
      · exact h6 j (by omega) hj2
    · rw [time_delay_loop_exit _ _ _ _ _ _ _ hc] at h
      simp only [Option.some.injEq, Prod.mk.injEq] at h
      obtain ⟨rfl, rfl, rfl⟩ := h
      exact ⟨le_refl _, by omega, rfl, rfl, hc, fun j h1 h2 => absurd h2 (by omega)⟩

/-- Termination of the loop once a sample ends the wait. -/
theorem time_delay_loop_returns (time : Nat) (rd : Nat → Nat × Nat) (c0 : ClockState)
    (fuel n m : Nat) (hnm : n ≤ m) (hm : m ≤ n + fuel)
    (hexit : ¬ u32_sub (delay_sample rd c0 (m + 1)).1 (delay_sample rd c0 0).1 < time) :
    ∃ r, time_delay_loop time (delay_sample rd c0 0).1 rd fuel n
        (delay_sample rd c0 (n + 1)).1 (delay_sample rd c0 (n + 1)).2 = some r := by
  induction fuel generalizing n with
  | zero =>
    have : m = n := by omega
    subst this
    exact ⟨_, time_delay_loop_exit _ _ _ _ _ _ _ hexit⟩
  | succ fuel ih =>
    by_cases hc : u32_sub (delay_sample rd c0 (n + 1)).1 (delay_sample rd c0 0).1 < time
    · rw [time_delay_loop_step _ _ _ _ _ _ _ hc]
      have hne : n ≠ m := fun h => hexit (h ▸ hc)
      exact ih (n + 1) (by omega) (by omega)
    · exact ⟨_, time_delay_loop_exit _ _ _ _ _ _ _ hc⟩

/-- The timer variables that `hpet_init` leaves for the sample timer block. -/
theorem hpet_init_sample (p h l : Nat) (hp : p < 2 ^ 32) (hh : h < 2 ^ 32) :
    (hpet_init (sample_hpet p h l) clock_zero).2 =
      ⟨(p : ℚ) / 1000000000000000, (p : ℚ) / 1000000000, h, 0⟩ := by
  simp only [hpet_init, sample_hpet, Nat.mod_eq_of_lt hp, Nat.mod_eq_of_lt hh]

/-- With a counter stuck at zero and a threshold of 2^32 - 1 the loop never ends. -/
theorem time_delay_loop_stuck (fuel n : Nat) :
    time_delay_loop 4294967295 0 (fun _ => (0, 0)) fuel n 0 ⟨1 / 1000000, 1, 0, 0⟩ = none := by
  have h0 : uptime_microseconds 0 0 ⟨1 / 1000000, 1, 0, 0⟩ = (0, ⟨1 / 1000000, 1, 0, 0⟩) := by
    norm_num [uptime_microseconds, hpet_poll_overflow, hpet_get_low, total_ticks]
  have hz : double_to_u32 0 = 0 := by simp [double_to_u32]
  induction fuel generalizing n with
  | zero => exact time_delay_loop_none _ _ _ _ _ _ (by decide)
  | succ fuel ih =>
    rw [time_delay_loop_step _ _ _ _ _ _ _ (by decide)]
    simp only [h0, hz]
    exact ih (n + 1)

/-- The model of the unsigned difference is subtraction modulo 2^32. -/
theorem u32_sub_int (endv start : Nat) (he : endv < 2 ^ 32) (hs : start < 2 ^ 32) :
    ((u32_sub endv start : Nat) : Int) = ((endv : Int) - (start : Int)) % 2 ^ 32 := by
  unfold u32_sub
  omega

/-- A converted value is a `uint32_t`. -/
theorem double_to_u32_lt (x : ℚ) : double_to_u32 x < 2 ^ 32 :=
  Nat.mod_lt _ (by norm_num)

/-- Every microsecond sample is a `uint32_t`. -/
theorem delay_sample_lt (rd : Nat → Nat × Nat) (c : ClockState) (j : Nat) :
    (delay_sample rd c j).1 < 2 ^ 32 := by
  cases j <;> exact double_to_u32_lt _

/-- With one microsecond per tick and readings `(0, j + a)`, the `j`-th sample is
`j + a`. -/
theorem delay_sample_ramp (a j : Nat) (hj : j + a < 2 ^ 32) :
    delay_sample (fun j => (0, j + a)) ⟨1 / 1000000, 1, 0, 0⟩ j =
      (j + a, ⟨1 / 1000000, 1, 0, 0⟩) := by
  have hu : ∀ i : Nat, i < 2 ^ 32 → uptime_microseconds 0 i ⟨1 / 1000000, 1, 0, 0⟩ =
      ((i : ℚ), ⟨1 / 1000000, 1, 0, 0⟩) := by
    intro i hi
    have hi2 : i % 4294967296 = i := Nat.mod_eq_of_lt hi
    simp [uptime_microseconds, hpet_poll_overflow, hpet_get_low, total_ticks, hi2]
  have hd : ∀ i : Nat, i < 2 ^ 32 → double_to_u32 (i : ℚ) = i := by
    intro i hi
    have hi2 : i % 4294967296 = i := Nat.mod_eq_of_lt hi
    simp [double_to_u32, hi2]
  induction j with
  | zero => simp only [delay_sample, hu (0 + a) hj, hd (0 + a) hj]
  | succ j ih =>
    simp only [delay_sample, ih (by omega), hu (j + 1 + a) hj, hd (j + 1 + a) hj]

end Kernel

/-! ## Further lemmas on the descriptor table -/

namespace Interrupts

/-- The clearing loop of `idt_install` and the load leave `idtp` as the two stores set it,
and the load commits it to the register. -/
theorem idt_install_idtr (sym : Symbols) (k : State) :
    (idt_install sym k).idtr = some ⟨2047, sym.idt_addr % 2 ^ 32⟩ ∧
    (idt_install sym k).idtp = ⟨2047, sym.idt_addr % 2 ^ 32⟩ := by
  simp only [idt_install, idt_load]
  rw [(foldl_idt_clear_log _ _).2]
  exact ⟨rfl, rfl⟩

end Interrupts

/-! ## Lemmas on the string functions -/

namespace StringC

/-- One step of the loop that skips spaces. -/
theorem skip_spaces_cons (c : Nat) (p : List Nat) :
    skip_spaces (c :: p) = if c = 32 then skip_spaces p else some (c :: p) := rfl

/-- At the NUL of `command` the first loop of `cmd_args` ends. -/
theorem cmd_args_zero (input command : List Nat) :
    cmd_args input (0 :: command) = cmd_args_rest input := by
  cases input <;> simp [cmd_args]

/-- One step of the first loop of `cmd_args`. -/
theorem cmd_args_cons (d c : Nat) (input command : List Nat) (hc : c ≠ 0) :
    cmd_args (d :: input) (c :: command) =
      if d ≠ c then some none else cmd_args input command := by
  simp [cmd_args, hc]

/-- The test of the character after the command word. -/
theorem cmd_args_rest_cons (c : Nat) (p : List Nat) :
    cmd_args_rest (c :: p) =
      if c ≠ 32 ∧ c ≠ 0 ∧ c ≠ 10 ∧ c ≠ 13 then some none
      else (skip_spaces (c :: p)).map some := rfl

/-- On a NUL-terminated string the loop that skips spaces returns the string without its
leading spaces. -/
theorem skip_spaces_spec (p : List Nat) (rest : List Nat) (h0 : ∀ c ∈ p, c ≠ 0) :
    skip_spaces (p ++ 0 :: rest) =
      some (p.dropWhile (fun c => c == 32) ++ 0 :: rest) := by
  induction p with
  | nil => simp [skip_spaces]
  | cons c p ih =>
    rw [List.cons_append, skip_spaces_cons, ih (fun c hc => h0 c (List.mem_cons_of_mem _ hc))]
    by_cases hc : c = 32
    · simp [hc]
    · simp [hc]

/-- The result of `cmd_args` on two NUL-terminated strings. -/
theorem cmd_args_spec (input command rest : List Nat)
    (hi : ∀ c ∈ input, c ≠ 0) (hc : ∀ c ∈ command, c ≠ 0) :
    cmd_args (input ++ [0]) (command ++ 0 :: rest) =
      some (if command <+: input ∧
              (((input ++ [0]).getD command.length 0 = 32 ∨
                (input ++ [0]).getD command.length 0 = 0) ∨
               (input ++ [0]).getD command.length 0 = 10 ∨
                (input ++ [0]).getD command.length 0 = 13)
            then some ((input.drop command.length).dropWhile (fun c => c == 32) ++ [0])
            else none) := by
  induction command generalizing input with
  | nil =>
    rw [List.nil_append, cmd_args_zero]
    cases input with
    | nil => simp [cmd_args_rest, skip_spaces]
    | cons d input =>
      rw [List.cons_append, cmd_args_rest_cons, ← List.cons_append,
        skip_spaces_spec (d :: input) [] hi]
      by_cases h : d ≠ 32 ∧ d ≠ 0 ∧ d ≠ 10 ∧ d ≠ 13
      · have : ¬ ((d = 32 ∨ d = 0) ∨ d = 10 ∨ d = 13) := by tauto
        simp [h, this]
      · have h2 : ((d = 32 ∨ d = 0) ∨ d = 10 ∨ d = 13) := by tauto
        simp [h, h2]
  | cons c command ih =>
    have hc0 : c ≠ 0 := hc c (List.mem_cons_self _ _)
    cases input with
    | nil =>
      rw [List.nil_append, List.cons_append, cmd_args_cons _ _ _ _ hc0, if_pos (Ne.symm hc0)]
      simp
    | cons d input =>
      rw [List.cons_append, List.cons_append, cmd_args_cons _ _ _ _ hc0]
      by_cases hdc : d = c
      · subst hdc
        rw [if_neg (by simp), ih input (fun x hx => hi x (List.mem_cons_of_mem _ hx))
          (fun x hx => hc x (List.mem_cons_of_mem _ hx))]
        simp [List.cons_prefix_cons]
      · rw [if_pos hdc]
        simp [List.cons_prefix_cons, hdc, Ne.symm hdc]

/-- One step of the loop of `strcmp`. -/
theorem strcmp_cons (a0 b0 : Nat) (a b : List Nat) :
    strcmp (a0 :: a) (b0 :: b) =
      if a0 ≠ 0 ∧ a0 = b0 then strcmp a b
      else some (((a0 % 256 : Nat) : Int) - ((b0 % 256 : Nat) : Int)) := rfl

/-- Lexicographic comparison of two lists with different heads. -/
theorem lex_cons_ne (x y : Nat) (a b : List Nat) (h : x ≠ y) :
    List.Lex (· < ·) (x :: a) (y :: b) ↔ x < y := by
  constructor
  · intro hl
    cases hl with
    | cons _ => exact absurd rfl h
    | rel hxy => exact hxy
  · intro hxy
    exact List.Lex.rel hxy

/-- The result of `strcmp` on two NUL-terminated strings. -/
theorem strcmp_spec (a b : List Nat)
    (ha : ∀ c ∈ a, c ≠ 0 ∧ c < 256) (hb : ∀ c ∈ b, c ≠ 0 ∧ c < 256) :
    ∃ r : Int, strcmp (a ++ [0]) (b ++ [0]) = some r ∧
      (r = 0 ↔ a = b) ∧
      (a ≠ b → ∃ i, i ≤ a.length ∧ i ≤ b.length ∧ a.take i = b.take i ∧
        (a ++ [0]).getD i 0 ≠ (b ++ [0]).getD i 0 ∧
        r = (((a ++ [0]).getD i 0 : Nat) : Int) - (((b ++ [0]).getD i 0 : Nat) : Int)) ∧
      (r < 0 ↔ List.Lex (· < ·) a b) ∧
      (0 < r ↔ List.Lex (· < ·) b a) := by
  induction a generalizing b with
  | nil =>
    cases b with
    | nil =>
      refine ⟨0, by simp [strcmp], by simp, by simp, ?_, ?_⟩ <;> simp
    | cons y b =>
      obtain ⟨hy0, hy⟩ := hb y (List.mem_cons_self _ _)
      refine ⟨-(y : Int), ?_, ?_, ?_, ?_, ?_⟩
      · simp [strcmp, Nat.mod_eq_of_lt hy]
      · simp; omega
      · intro _
        exact ⟨0, by simp, by simp, by simp, by simpa using Ne.symm hy0, by simp⟩
      · simp [List.Lex.nil]; omega
      · simp
  | cons x a ih =>
    obtain ⟨hx0, hx⟩ := ha x (List.mem_cons_self _ _)
    cases b with
    | nil =>
      refine ⟨(x : Int), ?_, ?_, ?_, ?_, ?_⟩
      · simp [strcmp, Nat.mod_eq_of_lt hx, hx0]
      · simp; omega
      · intro _
        exact ⟨0, by simp, by simp, by simp, by simpa using hx0, by simp⟩
      · simp
      · simp [List.Lex.nil]; omega
    | cons y b =>
      obtain ⟨hy0, hy⟩ := hb y (List.mem_cons_self _ _)
      rw [List.cons_append, List.cons_append, strcmp_cons]
      by_cases hxy : x = y
      · subst hxy
        rw [if_pos ⟨hx0, rfl⟩]
        obtain ⟨r, h1, h2, h3, h4, h5⟩ := ih b (fun c hc => ha c (List.mem_cons_of_mem _ hc))
          (fun c hc => hb c (List.mem_cons_of_mem _ hc))
        refine ⟨r, h1, ?_, ?_, ?_, ?_⟩
        · rw [h2]; simp
        · intro hne
          obtain ⟨i, i1, i2, i3, i4, i5⟩ := h3 (fun h => hne (by rw [h]))
          exact ⟨i + 1, by simpa using i1, by simpa using i2, by simpa using i3,
            by simpa using i4, by simpa using i5⟩
        · rw [h4, List.Lex.cons_iff]
        · rw [h5, List.Lex.cons_iff]
      · rw [if_neg (fun h => hxy h.2), Nat.mod_eq_of_lt hx, Nat.mod_eq_of_lt hy]
        refine ⟨(x : Int) - y, rfl, ?_, ?_, ?_, ?_⟩
        · constructor
          · intro h; exact absurd (by omega) hxy
          · intro h; exact absurd (List.cons.inj h).1 hxy
        · intro _
          exact ⟨0, by simp, by simp, by simp, by simpa using hxy, by simp⟩
        · rw [lex_cons_ne _ _ _ _ hxy]; omega
        · rw [lex_cons_ne _ _ _ _ (Ne.symm hxy)]; omega

/-- Swapping the arguments of `strcmp` negates the result. -/
theorem strcmp_swap (a b : List Nat) (r : Int) (h : strcmp a b = some r)
    (ha : ∀ c ∈ a, c < 256) (hb : ∀ c ∈ b, c < 256) :
    strcmp b a = some (-r) := by
  induction a generalizing b with
  | nil => simp [strcmp] at h
  | cons x a ih =>
    cases b with
    | nil => simp [strcmp] at h
    | cons y b =>
      rw [strcmp_cons] at h
      rw [strcmp_cons]
      by_cases hc : x ≠ 0 ∧ x = y
      · rw [if_pos hc] at h
        rw [if_pos ⟨hc.2 ▸ hc.1, hc.2.symm⟩]
        exact ih b h (fun c hc => ha c (List.mem_cons_of_mem _ hc))
          (fun c hc => hb c (List.mem_cons_of_mem _ hc))
      · rw [if_neg hc] at h
        have hx := ha x (List.mem_cons_self _ _)
        have hy := hb y (List.mem_cons_self _ _)
        by_cases hc2 : y ≠ 0 ∧ y = x
        · exfalso
          exact hc ⟨hc2.2 ▸ hc2.1, hc2.2.symm⟩
        · rw [if_neg hc2]
          simp only [Option.some.injEq] at h ⊢
          omega

end StringC

/-! ## Lemmas on text output -/

namespace Kernel

/-- Scrolling hands no character to `putchar`. -/
theorem scroll_if_needed_out (t : Term) : (scroll_if_needed t).out = t.out := by
  unfold scroll_if_needed
  split_ifs <;> rfl

/-- Effect of `putchar` on the output: the character it was given. -/
theorem putchar_out (ch : Nat) (t : Term) : (putchar ch t).out = t.out ++ [ch] := by
  unfold putchar
  simp only []
  split_ifs <;> simp only [scroll_if_needed_out]

/-- Effect of `puts` on the output: the characters before the first NUL. -/
theorem puts_out (s : List Nat) (t : Term) :
    (puts s t).out = t.out ++ s.takeWhile (fun c => c != 0) := by
  induction s generalizing t with
  | nil => simp [puts]
  | cons c s ih =>
    by_cases h : c = 0
    · simp [puts, h]
    · simp [puts, h, ih, putchar_out]

/-- The digit loops of the two `print_uint` functions are the same function. -/
theorem print_uint_loop_eq (i num : Nat) (buf : List Nat) :
    print_uint_loop i num buf = Interrupts.print_uint_loop i num buf := by
  induction i generalizing num buf with
  | zero => rfl
  | succ i ih => simp only [print_uint_loop, Interrupts.print_uint_loop, ih]

/-- A nonzero 32-bit number has at most ten decimal digits. -/
theorem decimal_length (num : Nat) (h0 : num ≠ 0) (hnum : num < 2 ^ 32) :
    (Nat.digits 10 num).length ≤ 10 := by
  have h1 := Nat.base_pow_length_digits_le 10 num (by decide) h0
  have h2 : 10 ^ (Nat.digits 10 num).length < 10 ^ 11 := by omega
  have := (Nat.pow_lt_pow_iff_right (by decide : 1 < 10)).1 h2
  omega

/-- The digit loop never moves `i` up and keeps the size of the buffer. -/
theorem print_uint_loop_bounds (i num : Nat) (buf : List Nat) :
    (Interrupts.print_uint_loop i num buf).1 ≤ i ∧
      (Interrupts.print_uint_loop i num buf).2.length = buf.length := by
  induction i generalizing num buf with
  | zero => simp [Interrupts.print_uint_loop]
  | succ i ih =>
    simp only [Interrupts.print_uint_loop]
    split_ifs
    · have := ih (num / 10) (buf.set i (48 + num % 10))
      rw [List.length_set] at this
      exact ⟨by omega, this.2⟩
    · simp

/-- The call `print_uint(num)` of kernel.c emits the decimal numeral of `num`. -/
theorem print_uint_out (buf0 : List Nat) (num : Nat) (t : Term) (hbuf : buf0.length = 11)
    (hnum : num < 2 ^ 32) :
    (print_uint buf0 num t).out = t.out ++ (Nat.repr num).toList.map Char.toNat := by
  rw [Interrupts.repr_bytes]
  unfold print_uint
  simp only [Nat.mod_eq_of_lt hnum, print_uint_loop_eq]
  by_cases h0 : num = 0
  · simp [h0, putchar_out]
  · simp only [if_neg h0]
    have hspec := Interrupts.print_uint_loop_spec 10 num (buf0.set 10 0)
      (by rw [List.length_set, hbuf]; decide) (decimal_length num h0 hnum)
    have hdrop : (buf0.set 10 0).drop 10 = [0] := by
      apply List.ext_getElem
      · simp [hbuf]
      · intro i h1 h2
        have hi : i = 0 := by simpa using h2
        subst hi
        simp
    rw [hdrop] at hspec
    rw [hspec, puts_out, List.takeWhile_append_of_pos]
    · simp
    · intro d hd
      simp only [List.mem_map] at hd
      obtain ⟨a, _, rfl⟩ := hd
      simp

/-- The condition of the claim on `tail` cannot be dropped: for the eleven-byte content
"1\n2\n3\n4\n5\n6" (five newline characters and a sixth line without one) the branch
prints the whole content, six lines. -/
theorem tail_six_lines_unterminated :
    (tail_file [49, 10, 50, 10, 51, 10, 52, 10, 53, 10, 54] term_zero).out =
      [49, 10, 50, 10, 51, 10, 52, 10, 53, 10, 54] ∧
    last_lines 5 [49, 10, 50, 10, 51, 10, 52, 10, 53, 10, 54] =
      [50, 10, 51, 10, 52, 10, 53, 10, 54] := by
  decide

end Kernel

/-! ## Lemmas on the file store -/

namespace Kernel

/-- A loop that stores `f j` at `base + j` for `j` from `s` to `s + n - 1`. -/
theorem foldl_write_range' (base : Nat) (f : Nat → Nat) (s n : Nat) (m0 : Nat → Nat) (a : Nat) :
    ((List.range' s n).foldl (fun m j => Function.update m (base + j) (f j)) m0) a =
      if base + s ≤ a ∧ a < base + s + n then f (a - base) else m0 a := by
  induction n generalizing s m0 with
  | zero =>
    simp only [List.range'_zero, List.foldl_nil]
    rw [if_neg (by omega)]
  | succ n ih =>
    rw [List.range'_succ, List.foldl_cons, ih]
    by_cases h1 : base + (s + 1) ≤ a ∧ a < base + (s + 1) + n
    · rw [if_pos h1, if_pos (by omega)]
    · rw [if_neg h1]
      by_cases h2 : a = base + s
      · subst h2
        rw [Function.update_same, if_pos (by omega)]
        congr 1
        omega
      · rw [Function.update_noteq h2, if_neg (by omega)]

/-- A loop that stores `f j` at `base + j` for `j` below `n`. -/
theorem foldl_write_range (base : Nat) (f : Nat → Nat) (n : Nat) (m0 : Nat → Nat) (a : Nat) :
    ((List.range n).foldl (fun m j => Function.update m (base + j) (f j)) m0) a =
      if base ≤ a ∧ a < base + n then f (a - base) else m0 a := by
  rw [List.range_eq_range', foldl_write_range']
  simp

/-- The records after the shift loop of `rm`. -/
theorem rm_shift_apply (files : Nat → file_t) (i fc j : Nat) :
    rm_shift files i fc j = if i ≤ j ∧ j + 1 < fc then files (j + 1) else files j := by
  unfold rm_shift
  generalize hn : fc - 1 - i = n
  induction n generalizing i files with
  | zero =>
    simp only [List.range'_zero, List.foldl_nil]
    rw [if_neg (by omega)]
  | succ n ih =>
    rw [List.range'_succ, List.foldl_cons, ih _ (i + 1) (by omega)]
    by_cases h1 : i + 1 ≤ j ∧ j + 1 < fc
    · rw [if_pos h1, if_pos (by omega), Function.update_noteq (by omega)]
    · rw [if_neg h1]
      by_cases h2 : j = i
      · subst h2
        rw [Function.update_same, if_pos (by omega)]
      · rw [Function.update_noteq h2, if_neg (by omega)]

/-- An index that the search loop of `rm` finds lies in the range searched. -/
theorem rm_find_bound (rm_args : List Nat) (files : Nat → file_t) (fuel i r : Nat)
    (h : rm_find rm_args files fuel i = some (some r)) : i ≤ r ∧ r < i + fuel := by
  induction fuel generalizing i with
  | zero => simp [rm_find] at h
  | succ fuel ih =>
    simp only [rm_find] at h
    cases hs : StringC.strcmp (files i).name rm_args with
    | none => simp [hs] at h
    | some v =>
      simp only [hs] at h
      by_cases hv : v = 0
      · simp only [hv, if_true, Option.some.injEq] at h
        omega
      · rw [if_neg hv] at h
        have := ih (i + 1) h
        omega

/-- One step of the name copy loop. -/
theorem copy_name_cons (fuel i c : Nat) (name dst : List Nat) :
    copy_name (fuel + 1) i (c :: name) dst =
      if c = 0 then some (i, dst) else copy_name fuel (i + 1) name (dst.set i c) := rfl

/-- The name copy loop on a NUL-terminated name: it copies the characters before the NUL,
at most as many as allowed, and leaves the rest of the array alone. -/
theorem copy_name_spec (fuel i : Nat) (nm rest dst : List Nat) (h0 : ∀ c ∈ nm, c ≠ 0)
    (hdst : i + fuel < dst.length) :
    ∃ dst', copy_name fuel i (nm ++ 0 :: rest) dst = some (i + min fuel nm.length, dst') ∧
      dst'.length = dst.length ∧
      (∀ j, j < min fuel nm.length → dst'.getD (i + j) 0 = nm.getD j 0) ∧
      (∀ j, j < i ∨ i + min fuel nm.length ≤ j → dst'.getD j 0 = dst.getD j 0) := by
  induction fuel generalizing i nm dst with
  | zero => exact ⟨dst, by simp [copy_name], rfl, by simp, by simp⟩
  | succ fuel ih =>
    cases nm with
    | nil => exact ⟨dst, by simp [copy_name], rfl, by simp, by simp⟩
    | cons c nm =>
      have hc : c ≠ 0 := h0 c (List.mem_cons_self _ _)
      obtain ⟨dst', h1, h2, h3, h4⟩ := ih (i + 1) nm (dst.set i c)
        (fun x hx => h0 x (List.mem_cons_of_mem _ hx)) (by rw [List.length_set]; omega)
      refine ⟨dst', ?_, ?_, ?_, ?_⟩
      · have he : i + 1 + min fuel nm.length = i + min (fuel + 1) (nm.length + 1) := by omega
        rw [List.cons_append, copy_name_cons, if_neg hc, h1, List.length_cons, he]
      · rw [h2, List.length_set]
      · intro j hj
        cases j with
        | zero =>
          rw [Nat.add_zero, h4 i (Or.inl (by omega))]
          simp [List.getD_eq_getElem?_getD, List.getElem?_set, (by omega : i < dst.length)]
        | succ j =>
          have := h3 j (by simp only [List.length_cons] at hj; omega)
          rw [show i + (j + 1) = i + 1 + j by omega, this]
          simp
      · intro j hj
        rw [h4 j (by simp only [List.length_cons] at hj; omega)]
        simp only [List.getD_eq_getElem?_getD, List.getElem?_set]
        have : i ≠ j := by
          simp only [List.length_cons] at hj
          omega
        simp [this]

/-- The clamped size of `fs_create` and `fs_write` is at most `MAX_FILE_SIZE`. -/
theorem clamp_le (size : Nat) :
    (if size % 2 ^ 32 > MAX_FILE_SIZE then MAX_FILE_SIZE else size % 2 ^ 32) ≤ MAX_FILE_SIZE := by
  split_ifs <;> omega

/-- The two ways in which `fs_create` returns: unchanged when the store is full, or with
one more record. -/
theorem fs_create_cases (name : List Nat) (data : Option (List Nat)) (size : Nat) (s s' : Fs)
    (h : fs_create name data size s = some s') :
    ((s.file_count ≥ MAX_FILES ∨ s.next_alloc ≥ MAX_FILES) ∧ s' = s) ∨
    (s.file_count < MAX_FILES ∧ s.next_alloc < MAX_FILES ∧
      ∃ i nm, copy_name (MAX_NAME - 1) 0 name (s.files s.file_count).name = some (i, nm) ∧
        data_short data
          (if size % 2 ^ 32 > MAX_FILE_SIZE then MAX_FILE_SIZE else size % 2 ^ 32) = false ∧
        s' = { files := Function.update s.files s.file_count
                 ⟨nm.set i 0, FS_START_ADDR + s.next_alloc * MAX_FILE_SIZE,
                  if size % 2 ^ 32 > MAX_FILE_SIZE then MAX_FILE_SIZE else size % 2 ^ 32⟩,
               file_count := s.file_count + 1,
               next_alloc := s.next_alloc + 1,
               mem := (List.range' (if size % 2 ^ 32 > MAX_FILE_SIZE then MAX_FILE_SIZE
                          else size % 2 ^ 32)
                        (MAX_FILE_SIZE - (if size % 2 ^ 32 > MAX_FILE_SIZE then MAX_FILE_SIZE
                          else size % 2 ^ 32))).foldl
                      (fun m j => Function.update m
                        (FS_START_ADDR + s.next_alloc * MAX_FILE_SIZE + j) 0)
                      ((List.range (if size % 2 ^ 32 > MAX_FILE_SIZE then MAX_FILE_SIZE
                          else size % 2 ^ 32)).foldl
                        (fun m j => Function.update m
                          (FS_START_ADDR + s.next_alloc * MAX_FILE_SIZE + j) (data_byte data j))
                        s.mem) }) := by
  unfold fs_create at h
  by_cases hg : s.file_count ≥ MAX_FILES ∨ s.next_alloc ≥ MAX_FILES
  · rw [if_pos hg] at h
    exact Or.inl ⟨hg, (Option.some.inj h).symm⟩
  · rw [if_neg hg] at h
    have hfc : s.file_count < MAX_FILES := by omega
    have hna : s.next_alloc < MAX_FILES := by omega
    refine Or.inr ⟨hfc, hna, ?_⟩
    simp only [] at h
    cases hcopy : copy_name (MAX_NAME - 1) 0 name (s.files s.file_count).name with
    | none => simp [hcopy] at h
    | some p =>
      obtain ⟨i, nm⟩ := p
      rw [hcopy] at h
      simp only [] at h
      have hmod1 : (FS_START_ADDR + s.next_alloc * MAX_FILE_SIZE) % 2 ^ 32 =
          FS_START_ADDR + s.next_alloc * MAX_FILE_SIZE := by
        unfold FS_START_ADDR MAX_FILE_SIZE
        unfold MAX_FILES at hna
        omega
      have hmod2 : (s.next_alloc + 1) % 2 ^ 32 = s.next_alloc + 1 := by
        unfold MAX_FILES at hna
        omega
      rw [hmod1, hmod2] at h
      simp only [Function.update_same, Function.update_idem] at h
      cases hd : data_short data
          (if size % 2 ^ 32 > MAX_FILE_SIZE then MAX_FILE_SIZE else size % 2 ^ 32) with
      | true =>
        rw [if_pos hd] at h
        exact absurd h (by simp)
      | false =>
        refine ⟨i, nm, rfl, rfl, ?_⟩
        rw [if_neg (by rw [hd]; simp)] at h
        simp only [Option.some.injEq, Function.update_same, Function.update_idem] at h
        exact h.symm

/-- A full store is left as it is by `fs_create`. -/
theorem fs_create_full (name : List Nat) (data : Option (List Nat)) (size : Nat) (s : Fs)
    (h : s.file_count ≥ MAX_FILES ∨ s.next_alloc ≥ MAX_FILES) :
    fs_create name data size s = some s := by
  unfold fs_create
  rw [if_pos h]

/-- When the store is not full, the name is readable and the data long enough,
`fs_create` returns. -/
theorem fs_create_returns (name : List Nat) (data : Option (List Nat)) (size : Nat) (s : Fs)
    (hfc : s.file_count < MAX_FILES) (hna : s.next_alloc < MAX_FILES) (i : Nat) (nm : List Nat)
    (hcopy : copy_name (MAX_NAME - 1) 0 name (s.files s.file_count).name = some (i, nm))
    (hd : data_short data
      (if size % 2 ^ 32 > MAX_FILE_SIZE then MAX_FILE_SIZE else size % 2 ^ 32) = false) :
    ∃ s', fs_create name data size s = some s' := by
  unfold fs_create
  rw [if_neg (by omega)]
  simp only []
  rw [hcopy]
  simp only []
  rw [if_neg (by rw [hd]; simp)]
  exact ⟨_, rfl⟩

/-- Every operation of the file store keeps the allocation invariant and does not lower
`next_alloc`. -/
theorem fs_invariant_step (s s' : Fs) (hinv : FsInv s) (hstep : FsStep s s') :
    FsInv s' ∧ s.next_alloc ≤ s'.next_alloc := by
  obtain ⟨h1, h2, h3, h4⟩ := hinv
  rcases hstep with ⟨name, data, size, h⟩ | ⟨f, data, size, h⟩ | ⟨args, t, t', h⟩
  · rcases fs_create_cases name data size s s' h with ⟨_, rfl⟩ | ⟨hfc, hna, i, nm, _, _, rfl⟩
    · exact ⟨⟨h1, h2, h3, h4⟩, le_refl _⟩
    · refine ⟨⟨?_, ?_, ?_, ?_⟩, ?_⟩
      · show s.file_count + 1 ≤ s.next_alloc + 1
        omega
      · show s.next_alloc + 1 ≤ MAX_FILES
        omega
      · intro j hj
        have hj' : j < s.file_count + 1 := hj
        by_cases hjf : j = s.file_count
        · subst hjf
          simp only [Function.update_same]
          exact ⟨clamp_le size, s.next_alloc, Nat.lt_succ_self _, rfl⟩
        · simp only [Function.update_noteq hjf]
          obtain ⟨hs, k, hk, hd⟩ := h3 j (by omega)
          exact ⟨hs, k, Nat.lt_succ_of_lt hk, hd⟩
      · intro a b ha hb hab
        have ha' : a < s.file_count + 1 := ha
        have hb' : b < s.file_count + 1 := hb
        simp only []
        by_cases haf : a = s.file_count
        · have hbf : b ≠ s.file_count := fun e => hab (haf.trans e.symm)
          rw [haf, Function.update_same, Function.update_noteq hbf]
          obtain ⟨_, k, hk, hd⟩ := h3 b (by omega)
          rw [hd]
          simp only [MAX_FILE_SIZE]
          omega
        · by_cases hbf : b = s.file_count
          · rw [hbf, Function.update_same, Function.update_noteq haf]
            obtain ⟨_, k, hk, hd⟩ := h3 a (by omega)
            rw [hd]
            simp only [MAX_FILE_SIZE]
            omega
          · rw [Function.update_noteq haf, Function.update_noteq hbf]
            exact h4 a b (by omega) (by omega) hab
      · show s.next_alloc ≤ s.next_alloc + 1
        omega
  · unfold fs_write at h
    cases f with
    | none =>
      simp only [Option.some.injEq] at h
      subst h
      exact ⟨⟨h1, h2, h3, h4⟩, le_refl _⟩
    | some fi =>
      cases data with
      | none =>
        simp only [Option.some.injEq] at h
        subst h
        exact ⟨⟨h1, h2, h3, h4⟩, le_refl _⟩
      | some d =>
        simp only [] at h
        have hcl := clamp_le size
        generalize (if size % 2 ^ 32 > MAX_FILE_SIZE then MAX_FILE_SIZE else size % 2 ^ 32) = sz
          at h hcl
        by_cases hz : (s.files fi).data = 0
        · rw [if_pos hz] at h
          simp only [Option.some.injEq] at h
          subst h
          exact ⟨⟨h1, h2, h3, h4⟩, le_refl _⟩
        · rw [if_neg hz] at h
          by_cases hshort : d.length < sz
          · rw [if_pos hshort] at h
            exact absurd h (by simp)
          · rw [if_neg hshort] at h
            simp only [Option.some.injEq] at h
            subst h
            refine ⟨⟨h1, h2, ?_, ?_⟩, le_refl _⟩
            · intro j hj
              by_cases hjf : j = fi
              · subst hjf
                simp only [Function.update_same]
                exact ⟨hcl, (h3 j hj).2⟩
              · simp only [Function.update_noteq hjf]
                exact h3 j hj
            · intro a b ha hb hab
              have e : ∀ x, (Function.update s.files fi
                  { s.files fi with size := sz } x).data = (s.files x).data := by
                intro x
                by_cases hx : x = fi
                · subst hx
                  simp only [Function.update_same]
                · simp only [Function.update_noteq hx]
              simp only [e]
              exact h4 a b ha hb hab
  · unfold cmd_rm at h
    cases args with
    | nil => simp at h
    | cons c args =>
      simp only [] at h
      split_ifs at h with hc
      · simp only [Option.some.injEq, Prod.mk.injEq] at h
        obtain ⟨rfl, _⟩ := h
        exact ⟨⟨h1, h2, h3, h4⟩, le_refl _⟩
      · cases hf : rm_find (c :: args) s.files s.file_count 0 with
        | none => simp [hf] at h
        | some r =>
          cases r with
          | none =>
            simp only [hf, Option.some.injEq, Prod.mk.injEq] at h
            obtain ⟨rfl, _⟩ := h
            exact ⟨⟨h1, h2, h3, h4⟩, le_refl _⟩
          | some i =>
            simp only [hf, Option.some.injEq, Prod.mk.injEq] at h
            obtain ⟨rfl, _⟩ := h
            have hi := rm_find_bound _ _ _ _ _ hf
            refine ⟨⟨?_, h2, ?_, ?_⟩, le_refl _⟩
            · show s.file_count - 1 ≤ s.next_alloc
              omega
            · intro j hj
              have hj' : j < s.file_count - 1 := hj
              simp only [rm_shift_apply]
              split_ifs
              · exact h3 (j + 1) (by omega)
              · exact h3 j (by omega)
            · intro a b ha hb hab
              have ha' : a < s.file_count - 1 := ha
              have hb' : b < s.file_count - 1 := hb
              simp only [rm_shift_apply]
              split_ifs with c1 c2 c2
              · exact h4 _ _ (by omega) (by omega) (by omega)
              · exact h4 _ _ (by omega) (by omega) (by omega)
              · exact h4 _ _ (by omega) (by omega) (by omega)
              · exact h4 _ _ (by omega) (by omega) hab

/-- A reachable state in which a file was removed: create "a", create "b", then `rm a`.
One file is left, in the second region, and two regions stay allocated. -/
theorem fs_rm_reachable :
    ∃ s1 s2 s3 t', fs_create [97, 0] none 0 (fs_empty (fun _ => 0)) = some s1 ∧
      fs_create [98, 0] none 0 s1 = some s2 ∧
      cmd_rm [97, 0] s2 term_zero = some (s3, t') ∧
      s3.file_count = 1 ∧ s3.next_alloc = 2 ∧
      (s3.files 0).data = FS_START_ADDR + 1 * 0x1000 := by
  obtain ⟨s1, h1⟩ := fs_create_returns [97, 0] none 0 (fs_empty (fun _ => 0)) (by decide)
    (by decide) 1 ((List.replicate 16 0).set 0 97) rfl rfl
  rcases fs_create_cases _ _ _ _ _ h1 with ⟨hg, _⟩ | ⟨_, _, i, nm, hc, _, hs1⟩
  · exact absurd hg (by decide)
  have hc' : copy_name (MAX_NAME - 1) 0 [97, 0] (List.replicate 16 0) =
      some (1, (List.replicate 16 0).set 0 97) := rfl
  have hc2 : (i, nm) = (1, (List.replicate 16 0).set 0 97) :=
    Option.some.inj (hc.symm.trans hc')
  simp only [Prod.mk.injEq] at hc2
  obtain ⟨rfl, rfl⟩ := hc2
  obtain ⟨s2, h2⟩ := fs_create_returns [98, 0] none 0 s1 (by rw [hs1]; decide)
    (by rw [hs1]; decide) 1 ((List.replicate 16 0).set 0 98) (by rw [hs1]; rfl) rfl
  rcases fs_create_cases _ _ _ _ _ h2 with ⟨hg, _⟩ | ⟨_, _, i, nm, hc, _, hs2⟩
  · exact absurd hg (by rw [hs1]; decide)
  have hc' : copy_name (MAX_NAME - 1) 0 [98, 0] (s1.files s1.file_count).name =
      some (1, (List.replicate 16 0).set 0 98) := by rw [hs1]; rfl
  have hc2 : (i, nm) = (1, (List.replicate 16 0).set 0 98) :=
    Option.some.inj (hc.symm.trans hc')
  simp only [Prod.mk.injEq] at hc2
  obtain ⟨rfl, rfl⟩ := hc2
  refine ⟨s1, s2, ⟨rm_shift s2.files 0 s2.file_count, s2.file_count - 1, s2.next_alloc,
    s2.mem⟩, term_zero, h1, h2, ?_, ?_, ?_, ?_⟩
  · rw [hs2, hs1]
    rfl
  · rw [hs2, hs1]
    rfl
  · rw [hs2, hs1]
    rfl
  · rw [hs2, hs1]
    rfl

end Kernel

namespace Interrupts

/-! ## Lemmas on the trap stubs -/

/-- The stack at the first instruction of the handler, for an entry stack pointer
`b + 56`: the stack pointer is `b`, and the fourteen words from `b` upwards are the
return address, the frame pointer `b + 8`, and the saved gs, fs, es, ds, edi, esi, ebp,
esp, ebx, edx, ecx, eax. -/
theorem stub_call_at (s : Cpu) (ret_addr b : Nat) (hb : s.esp = b + 56)
    (h32 : s.esp < 2 ^ 32) :
    ((stub_prolog s).push ret_addr).esp = b ∧
    ((stub_prolog s).push ret_addr).mem =
      Function.update (Function.update (Function.update (Function.update
      (Function.update (Function.update (Function.update (Function.update (Function.update
      (Function.update (Function.update (Function.update (Function.update (Function.update
      s.mem
      (b + 52) (s.eax % 2 ^ 32)) (b + 48) (s.ecx % 2 ^ 32)) (b + 44) (s.edx % 2 ^ 32))
      (b + 40) (s.ebx % 2 ^ 32)) (b + 36) ((b + 56) % 2 ^ 32)) (b + 32) (s.ebp % 2 ^ 32))
      (b + 28) (s.esi % 2 ^ 32)) (b + 24) (s.edi % 2 ^ 32)) (b + 20) (s.ds % 2 ^ 32))
      (b + 16) (s.es % 2 ^ 32)) (b + 12) (s.fs % 2 ^ 32)) (b + 8) (s.gs % 2 ^ 32))
      (b + 4) ((b + 8) % 2 ^ 32)) b (ret_addr % 2 ^ 32) := by
  rw [hb] at h32
  have e1 : (2 ^ 32 - 4 + (b + 56)) % 2 ^ 32 = b + 52 := by omega
  have e2 : (2 ^ 32 - 4 + (b + 52)) % 2 ^ 32 = b + 48 := by omega
  have e3 : (2 ^ 32 - 4 + (b + 48)) % 2 ^ 32 = b + 44 := by omega
  have e4 : (2 ^ 32 - 4 + (b + 44)) % 2 ^ 32 = b + 40 := by omega
  have e5 : (2 ^ 32 - 4 + (b + 40)) % 2 ^ 32 = b + 36 := by omega
  have e6 : (2 ^ 32 - 4 + (b + 36)) % 2 ^ 32 = b + 32 := by omega
  have e7 : (2 ^ 32 - 4 + (b + 32)) % 2 ^ 32 = b + 28 := by omega
  have e8 : (2 ^ 32 - 4 + (b + 28)) % 2 ^ 32 = b + 24 := by omega
  have e9 : (2 ^ 32 - 4 + (b + 24)) % 2 ^ 32 = b + 20 := by omega
  have e10 : (2 ^ 32 - 4 + (b + 20)) % 2 ^ 32 = b + 16 := by omega
  have e11 : (2 ^ 32 - 4 + (b + 16)) % 2 ^ 32 = b + 12 := by omega
  have e12 : (2 ^ 32 - 4 + (b + 12)) % 2 ^ 32 = b + 8 := by omega
  have e13 : (2 ^ 32 - 4 + (b + 8)) % 2 ^ 32 = b + 4 := by omega
  have e14 : (2 ^ 32 - 4 + (b + 4)) % 2 ^ 32 = b := by omega
  simp only [stub_prolog, Cpu.pusha, Cpu.push, hb, e1, e2, e3, e4, e5, e6, e7, e8, e9,
    e10, e11, e12, e13, e14, and_self]

/-- Reading the fourteen-word stack of `stub_call_at`: each address gives the word
stored there, and every address from `b + 56` upwards gives the word of the memory
below the stores. -/
theorem frame_lookup (m : Nat → Nat) (b : Nat)
    (v1 v2 v3 v4 v5 v6 v7 v8 v9 v10 v11 v12 v13 v14 : Nat) :
    let f := Function.update (Function.update (Function.update (Function.update
      (Function.update (Function.update (Function.update (Function.update (Function.update
      (Function.update (Function.update (Function.update (Function.update (Function.update m
      (b + 52) v1) (b + 48) v2) (b + 44) v3) (b + 40) v4) (b + 36) v5) (b + 32) v6)
      (b + 28) v7) (b + 24) v8) (b + 20) v9) (b + 16) v10) (b + 12) v11) (b + 8) v12)
      (b + 4) v13) b v14
    f (b + 52) = v1 ∧ f (b + 48) = v2 ∧ f (b + 44) = v3 ∧ f (b + 40) = v4 ∧
    f (b + 36) = v5 ∧ f (b + 32) = v6 ∧ f (b + 28) = v7 ∧ f (b + 24) = v8 ∧
    f (b + 20) = v9 ∧ f (b + 16) = v10 ∧ f (b + 12) = v11 ∧ f (b + 8) = v12 ∧
    f (b + 4) = v13 ∧ f b = v14 ∧ ∀ a, b + 56 ≤ a → f a = m a := by
  intro f
  refine ⟨?_, ?_, ?_, ?_, ?_, ?_, ?_, ?_, ?_, ?_, ?_, ?_, ?_, ?_, ?_⟩
  case refine_15 =>
    intro a ha
    have n1 : a ≠ b + 52 := by omega
    have n2 : a ≠ b + 48 := by omega
    have n3 : a ≠ b + 44 := by omega
    have n4 : a ≠ b + 40 := by omega
    have n5 : a ≠ b + 36 := by omega
    have n6 : a ≠ b + 32 := by omega
    have n7 : a ≠ b + 28 := by omega
    have n8 : a ≠ b + 24 := by omega
    have n9 : a ≠ b + 20 := by omega
    have n10 : a ≠ b + 16 := by omega
    have n11 : a ≠ b + 12 := by omega
    have n12 : a ≠ b + 8 := by omega
    have n13 : a ≠ b + 4 := by omega
    have n14 : a ≠ b := by omega
    simp only [f, Function.update_apply, n1, n2, n3, n4, n5, n6, n7, n8, n9, n10, n11, n12,
      n13, n14, if_false]
  all_goals simp [f, Function.update_apply]

/-- The epilog of a stub, entered with the stack pointer at `b + 4` (the argument of the
handler): the registers are loaded from the twelve words above, the stack pointer ends at
`b + 64`, and the interrupt flag is set. -/
theorem stub_epilog_at (h : Cpu) (b : Nat) (hb : h.esp = b + 4) (h32 : b + 64 < 2 ^ 32) :
    (stub_epilog h).esp = b + 64 ∧ (stub_epilog h).intr_flag = true ∧
    (stub_epilog h).gs = h.mem (b + 8) % 2 ^ 16 ∧
    (stub_epilog h).fs = h.mem (b + 12) % 2 ^ 16 ∧
    (stub_epilog h).es = h.mem (b + 16) % 2 ^ 16 ∧
    (stub_epilog h).ds = h.mem (b + 20) % 2 ^ 16 ∧
    (stub_epilog h).edi = h.mem (b + 24) ∧
    (stub_epilog h).esi = h.mem (b + 28) ∧
    (stub_epilog h).ebp = h.mem (b + 32) ∧
    (stub_epilog h).ebx = h.mem (b + 40) ∧
    (stub_epilog h).edx = h.mem (b + 44) ∧
    (stub_epilog h).ecx = h.mem (b + 48) ∧
    (stub_epilog h).eax = h.mem (b + 52) := by
  have e1 : (4 + (b + 4)) % 2 ^ 32 = b + 8 := by omega
  have e2 : (4 + (b + 8)) % 2 ^ 32 = b + 12 := by omega
  have e3 : (4 + (b + 12)) % 2 ^ 32 = b + 16 := by omega
  have e4 : (4 + (b + 16)) % 2 ^ 32 = b + 20 := by omega
  have e5 : (4 + (b + 20)) % 2 ^ 32 = b + 24 := by omega
  have e6 : (4 + (b + 24)) % 2 ^ 32 = b + 28 := by omega
  have e7 : (4 + (b + 28)) % 2 ^ 32 = b + 32 := by omega
  have e8 : (4 + (b + 32)) % 2 ^ 32 = b + 36 := by omega
  have e9 : (4 + (b + 36)) % 2 ^ 32 = b + 40 := by omega
  have e10 : (4 + (b + 40)) % 2 ^ 32 = b + 44 := by omega
  have e11 : (4 + (b + 44)) % 2 ^ 32 = b + 48 := by omega
  have e12 : (4 + (b + 48)) % 2 ^ 32 = b + 52 := by omega
  have e13 : (4 + (b + 52)) % 2 ^ 32 = b + 56 := by omega
  have e14 : (8 + (b + 56)) % 2 ^ 32 = b + 64 := by omega
  simp only [stub_epilog, Cpu.popa, Cpu.add_esp, Cpu.top, hb, e1, e2, e3, e4, e5, e6, e7,
    e8, e9, e10, e11, e12, e13, e14, and_self]

/-- The common part of both stubs: with the handler keeping the frame, the state after
the epilog has the entry values in the segment and general registers, the stack pointer
eight bytes up, and the interrupt flag set. -/
theorem stub_restores (handler : Cpu → Cpu) (ret_addr : Nat) (s : Cpu)
    (hwf : s.wf) (hlo : 56 ≤ s.esp) (hhi : s.esp + 8 < 2 ^ 32)
    (hk : keeps_frame handler ((stub_prolog s).push ret_addr)) :
    let r := stub_epilog ((stub_prolog s).call handler ret_addr)
    r.ds = s.ds ∧ r.es = s.es ∧ r.fs = s.fs ∧ r.gs = s.gs ∧
    r.eax = s.eax ∧ r.ecx = s.ecx ∧ r.edx = s.edx ∧ r.ebx = s.ebx ∧
    r.ebp = s.ebp ∧ r.esi = s.esi ∧ r.edi = s.edi ∧
    r.esp = s.esp + 8 ∧ r.intr_flag = true := by
  obtain ⟨b, hb0⟩ := Nat.exists_eq_add_of_le hlo
  have hb : s.esp = b + 56 := by omega
  have hb64 : b + 64 < 2 ^ 32 := by omega
  have hb4 : (4 + b) % 2 ^ 32 = b + 4 := by omega
  have hb8 : s.esp + 8 = b + 64 := by omega
  obtain ⟨w1, w2, w3, w4, w5, w6, w7, w8, w9, w10, w11, w12⟩ := hwf
  have m1 : s.eax % 2 ^ 32 = s.eax := Nat.mod_eq_of_lt w1
  have m2 : s.ecx % 2 ^ 32 = s.ecx := Nat.mod_eq_of_lt w2
  have m3 : s.edx % 2 ^ 32 = s.edx := Nat.mod_eq_of_lt w3
  have m4 : s.ebx % 2 ^ 32 = s.ebx := Nat.mod_eq_of_lt w4
  have m6 : s.ebp % 2 ^ 32 = s.ebp := Nat.mod_eq_of_lt w6
  have m7 : s.esi % 2 ^ 32 = s.esi := Nat.mod_eq_of_lt w7
  have m8 : s.edi % 2 ^ 32 = s.edi := Nat.mod_eq_of_lt w8
  have m9 : s.ds % 2 ^ 32 % 2 ^ 16 = s.ds := by omega
  have m10 : s.es % 2 ^ 32 % 2 ^ 16 = s.es := by omega
  have m11 : s.fs % 2 ^ 32 % 2 ^ 16 = s.fs := by omega
  have m12 : s.gs % 2 ^ 32 % 2 ^ 16 = s.gs := by omega
  obtain ⟨t1, t2⟩ := stub_call_at s ret_addr b hb w5
  obtain ⟨k1, k2⟩ := hk
  rw [t1] at k1 k2
  rw [hb4] at k1
  obtain ⟨p1, p2, p3, p4, p5, p6, p7, p8, p9, p10, p11, p12, p13⟩ :=
    stub_epilog_at (handler ((stub_prolog s).push ret_addr)) b k1 hb64
  obtain ⟨f1, f2, f3, f4, f5, f6, f7, f8, f9, f10, f11, f12, -, -, -⟩ :=
    frame_lookup s.mem b (s.eax % 2 ^ 32) (s.ecx % 2 ^ 32) (s.edx % 2 ^ 32)
      (s.ebx % 2 ^ 32) ((b + 56) % 2 ^ 32) (s.ebp % 2 ^ 32) (s.esi % 2 ^ 32)
      (s.edi % 2 ^ 32) (s.ds % 2 ^ 32) (s.es % 2 ^ 32) (s.fs % 2 ^ 32) (s.gs % 2 ^ 32)
      ((b + 8) % 2 ^ 32) (ret_addr % 2 ^ 32)
  rw [← t2] at f1 f2 f3 f4 f5 f6 f7 f8 f9 f10 f11 f12
  intro r
  simp only [r, Cpu.call]
  refine ⟨?_, ?_, ?_, ?_, ?_, ?_, ?_, ?_, ?_, ?_, ?_, ?_, ?_⟩
  · rw [p6, (k2 3 (by decide) : _ = _), f9, m9]
  · rw [p5, (k2 2 (by decide) : _ = _), f10, m10]
  · rw [p4, (k2 1 (by decide) : _ = _), f11, m11]
  · rw [p3, (k2 0 (by decide) : _ = _), f12, m12]
  · rw [p13, (k2 11 (by decide) : _ = _), f1, m1]
  · rw [p12, (k2 10 (by decide) : _ = _), f2, m2]
  · rw [p11, (k2 9 (by decide) : _ = _), f3, m3]
  · rw [p10, (k2 8 (by decide) : _ = _), f4, m4]
  · rw [p9, (k2 6 (by decide) : _ = _), f6, m6]
  · rw [p8, (k2 5 (by decide) : _ = _), f7, m7]
  · rw [p7, (k2 4 (by decide) : _ = _), f8, m8]
  · rw [p1, hb8]
  · exact p2

/-- The sample handler returns and keeps every word at and above its stack pointer. -/
theorem sample_handler_keeps (t : Cpu) : keeps_frame sample_handler t := by
  refine ⟨rfl, fun k _ => ?_⟩
  show (if t.esp + 8 + 4 * k < t.esp then 0xDEAD else t.mem (t.esp + 8 + 4 * k)) = _
  rw [if_neg (by omega)]

/-- The sample state has registers of their widths. -/
theorem sample_cpu_wf : sample_cpu.wf := by
  simp [Cpu.wf, sample_cpu]

end Interrupts

/-! ## Claims on the clock and the delay -/

namespace Kernel

/-- Claim C11 fails on the code: after `hpet_init` with the counter high word at 1, a query
that reads the high word 0 (a wrap, tally 1) and the low word 10 computes the tick total
`0xFFFFFFFF * 2^32 + 10`, not `(0 + 1 * 2^32) * 2^32 + 10`: the tally is folded in with
the multiplier `0xFFFFFFFF` in 32-bit arithmetic. -/
theorem total_ticks_wrong_multiplier :
    (hpet_poll_overflow 0 (hpet_init (sample_hpet 1000000000 1 0) clock_zero).2).overflow_count
        = 1 ∧
    total_ticks (hpet_get_low 10)
        (hpet_poll_overflow 0 (hpet_init (sample_hpet 1000000000 1 0) clock_zero).2)
      = 18446744069414584330 ∧
    total_ticks (hpet_get_low 10)
        (hpet_poll_overflow 0 (hpet_init (sample_hpet 1000000000 1 0) clock_zero).2)
      ≠ (((0 + 1 * 2 ^ 32) * 2 ^ 32 + 10 : Nat) : ℚ) := by
  rw [hpet_init_sample _ _ _ (by norm_num) (by norm_num)]
  norm_num [hpet_poll_overflow, hpet_get_low, total_ticks]

/-- Claim C12 fails on the code: after `hpet_init` with the counter high word at 5 and one
microsecond per tick, a query reading `(5, 0)` returns 21474836480 and the next query,
reading `(3, 0)` (the high word decreased: a wrap), returns 8589934592, which is less. -/
theorem uptime_decreases_at_wrap :
    (uptime_microseconds 5 0 (hpet_init (sample_hpet 1000000000 5 0) clock_zero).2).1
        = 21474836480 ∧
    (uptime_microseconds 3 0
        (uptime_microseconds 5 0 (hpet_init (sample_hpet 1000000000 5 0) clock_zero).2).2).1
        = 8589934592 ∧
    (uptime_microseconds 3 0
        (uptime_microseconds 5 0 (hpet_init (sample_hpet 1000000000 5 0) clock_zero).2).2).1
      < (uptime_microseconds 5 0 (hpet_init (sample_hpet 1000000000 5 0) clock_zero).2).1 := by
  rw [hpet_init_sample _ _ _ (by norm_num) (by norm_num)]
  norm_num [uptime_microseconds, hpet_poll_overflow, hpet_get_low, total_ticks]

/-- Claim C13 as stated fails at a full tally: from `overflow_count = 2^32 - 1` a detected
wrap leaves `overflow_count = 0`, not `2^32`. -/
theorem overflow_count_wraps_counterexample :
    (hpet_poll_overflow 0 ⟨0, 0, 1, 4294967295⟩).overflow_count = 0 ∧
      (hpet_poll_overflow 0 ⟨0, 0, 1, 4294967295⟩).overflow_count ≠ 4294967295 + 1 := by
  norm_num [hpet_poll_overflow]

/-- Claim C13, amended: for every clock state and every newly read 32-bit high word `high`,
`hpet_poll_overflow` increases `overflow_count` by one modulo 2^32 (by exactly one whenever
`overflow_count + 1 < 2^32`) when `high < last_high`, leaves it unchanged when
`high ≥ last_high`, and in both cases sets `last_high` to `high`. -/
theorem hpet_poll_overflow_tally (high : Nat) (c : ClockState) (hh : high < 2 ^ 32) :
    (high < c.last_high →
        (hpet_poll_overflow high c).overflow_count = (c.overflow_count + 1) % 2 ^ 32 ∧
        (c.overflow_count + 1 < 2 ^ 32 →
          (hpet_poll_overflow high c).overflow_count = c.overflow_count + 1)) ∧
    (c.last_high ≤ high → (hpet_poll_overflow high c).overflow_count = c.overflow_count) ∧
    (hpet_poll_overflow high c).last_high = high := by
  simp only [hpet_poll_overflow, Nat.mod_eq_of_lt hh]
  refine ⟨fun h => ?_, fun h => ?_, ?_⟩
  · rw [if_pos h]
    exact ⟨rfl, fun h2 => Nat.mod_eq_of_lt h2⟩
  · rw [if_neg (by omega)]
  · trivial

/-- Claim C13 (amended) at a concrete input: from tally 2 and `last_high = 7`, reading the
high word 0 gives tally 3 and `last_high = 0`. -/
theorem hpet_poll_overflow_tally_witness :
    ((0 : Nat) < 2 ^ 32 ∧ 0 < (⟨0, 0, 7, 2⟩ : ClockState).last_high) ∧
      (hpet_poll_overflow 0 ⟨0, 0, 7, 2⟩).overflow_count = 2 + 1 ∧
      (hpet_poll_overflow 0 ⟨0, 0, 7, 2⟩).last_high = 0 :=
  ⟨by decide,
    ((hpet_poll_overflow_tally 0 ⟨0, 0, 7, 2⟩ (by decide)).1 (by decide)).2 (by decide),
    (hpet_poll_overflow_tally 0 ⟨0, 0, 7, 2⟩ (by decide)).2.2⟩

/-- Claim C14: after `hpet_init` with tick period 1,000,000 fs and counter high word 0, the
query that reads high word 1 and low word 705032704 detects no wrap, computes the tick
total 5,000,000,000, and `uptime_seconds` returns 5 (so within 1e-6 of 5.0), in exact
rational arithmetic. -/
theorem uptime_scenario_five_seconds :
    (hpet_poll_overflow 1 (hpet_init (sample_hpet 1000000 0 0) clock_zero).2).overflow_count
        = 0 ∧
    total_ticks (hpet_get_low 705032704)
        (hpet_poll_overflow 1 (hpet_init (sample_hpet 1000000 0 0) clock_zero).2)
      = 5000000000 ∧
    (uptime_seconds 1 705032704 (hpet_init (sample_hpet 1000000 0 0) clock_zero).2).1 = 5 ∧
    |(uptime_seconds 1 705032704 (hpet_init (sample_hpet 1000000 0 0) clock_zero).2).1 - 5|
      ≤ 1 / 1000000 := by
  rw [hpet_init_sample _ _ _ (by norm_num) (by norm_num)]
  norm_num [uptime_seconds, hpet_poll_overflow, hpet_get_low, total_ticks]

/-- Claim C15: after `hpet_init` with tick period 1,000,000,000 fs and the counter at 0, the
query that reads high word 1 and low word 10 returns `uptime_seconds = (2^32 + 10) * 10^-6`
and not `(2^32 - 1 + 10) * 10^-6`, in exact rational arithmetic. -/
theorem uptime_scenario_one_wrap :
    (uptime_seconds 1 10 (hpet_init (sample_hpet 1000000000 0 0) clock_zero).2).1
        = ((2 ^ 32 + 10 : ℚ)) * (1 / 1000000) ∧
    (uptime_seconds 1 10 (hpet_init (sample_hpet 1000000000 0 0) clock_zero).2).1
        ≠ ((2 ^ 32 - 1 + 10 : ℚ)) * (1 / 1000000) := by
  rw [hpet_init_sample _ _ _ (by norm_num) (by norm_num)]
  norm_num [uptime_seconds, hpet_poll_overflow, hpet_get_low, total_ticks]

/-- Claim C16: `time_delay(0)` returns, for every clock state, every sequence of counter
readings and every bound on the loop, and its loop body has executed zero times (the
function has taken its two samples before the loop and no more). -/
theorem time_delay_zero (rd : Nat → Nat × Nat) (fuel : Nat) (c : ClockState) :
    time_delay 0 rd fuel c =
      some (0, (delay_sample rd c 1).1, (delay_sample rd c 1).2) := by
  rw [time_delay_eq]
  exact time_delay_loop_exit _ _ _ _ _ _ _ (by simp [int_to_u32])

/-- Claim C17 fails on the code: `time_delay(-1)` compares the unsigned difference with
`(unsigned)-1 = 0xFFFFFFFF`.  With one microsecond per tick and the counter reading
0, 0, 4294967295 the loop body executes once before the function returns; with a counter
stuck at 0 the loop never ends. -/
theorem time_delay_negative_loops :
    time_delay (-1) (fun j => if j = 2 then (0, 4294967295) else (0, 0)) 5
        (hpet_init (sample_hpet 1000000000 0 0) clock_zero).2
      = some (1, 4294967295, ⟨1 / 1000000, 1, 0, 0⟩) ∧
    (∀ fuel, time_delay (-1) (fun _ => (0, 0)) fuel
        (hpet_init (sample_hpet 1000000000 0 0) clock_zero).2 = none) := by
  have hc : (hpet_init (sample_hpet 1000000000 0 0) clock_zero).2 = ⟨1 / 1000000, 1, 0, 0⟩ := by
    rw [hpet_init_sample _ _ _ (by norm_num) (by norm_num)]
    norm_num
  rw [hc]
  have hi : int_to_u32 (-1) = 4294967295 := by rfl
  have h0 : uptime_microseconds 0 0 ⟨1 / 1000000, 1, 0, 0⟩ = (0, ⟨1 / 1000000, 1, 0, 0⟩) := by
    norm_num [uptime_microseconds, hpet_poll_overflow, hpet_get_low, total_ticks]
  have h1 : uptime_microseconds 0 4294967295 ⟨1 / 1000000, 1, 0, 0⟩ =
      (4294967295, ⟨1 / 1000000, 1, 0, 0⟩) := by
    norm_num [uptime_microseconds, hpet_poll_overflow, hpet_get_low, total_ticks]
  have hz : double_to_u32 0 = 0 := by simp [double_to_u32]
  have hm : double_to_u32 4294967295 = 4294967295 := by simp [double_to_u32]
  constructor
  · unfold time_delay
    simp only [hi, if_true, if_false, h0, hz, (by decide : (1:Nat) ≠ 2),
      (by decide : (0:Nat) ≠ 2)]
    rw [time_delay_loop_step _ _ _ 4 0 0 _ (by decide)]
    simp only [if_true, h1, hm, zero_add]
    rw [time_delay_loop_exit _ _ _ _ _ _ _ (by decide)]
  · intro fuel
    unfold time_delay
    simp only [hi, h0, hz]
    exact time_delay_loop_stuck fuel 0

end Kernel

namespace Interrupts

/-- Claim C18: save/restore symmetry of the trap stubs.  For every entry state `s` of
`isr_common_stub`, and likewise of `irq_common_stub`, whose registers have their widths
and whose stack does not wrap around the address space (56 bytes of room below the stack
pointer, the two words of the vector stub above it), and for every handler that returns
and leaves the twelve saved register words unmodified: in the state in which `iret`
executes the segment registers ds, es, fs, gs and the general registers eax, ecx, edx,
ebx, ebp, esi, edi hold their entry values, the stack pointer is the entry value plus 8,
and the interrupt flag is set. -/
theorem stub_save_restore (handler : Cpu → Cpu) (ret_addr : Nat) (s : Cpu)
    (hwf : s.wf) (hlo : 56 ≤ s.esp) (hhi : s.esp + 8 < 2 ^ 32)
    (hk : keeps_frame handler ((stub_prolog s).push ret_addr)) :
    ((isr_common_stub handler ret_addr s).ds = s.ds ∧
      (isr_common_stub handler ret_addr s).es = s.es ∧
      (isr_common_stub handler ret_addr s).fs = s.fs ∧
      (isr_common_stub handler ret_addr s).gs = s.gs ∧
      (isr_common_stub handler ret_addr s).eax = s.eax ∧
      (isr_common_stub handler ret_addr s).ecx = s.ecx ∧
      (isr_common_stub handler ret_addr s).edx = s.edx ∧
      (isr_common_stub handler ret_addr s).ebx = s.ebx ∧
      (isr_common_stub handler ret_addr s).ebp = s.ebp ∧
      (isr_common_stub handler ret_addr s).esi = s.esi ∧
      (isr_common_stub handler ret_addr s).edi = s.edi ∧
      (isr_common_stub handler ret_addr s).esp = s.esp + 8 ∧
      (isr_common_stub handler ret_addr s).intr_flag = true) ∧
    ((irq_common_stub handler ret_addr s).ds = s.ds ∧
      (irq_common_stub handler ret_addr s).es = s.es ∧
      (irq_common_stub handler ret_addr s).fs = s.fs ∧
      (irq_common_stub handler ret_addr s).gs = s.gs ∧
      (irq_common_stub handler ret_addr s).eax = s.eax ∧
      (irq_common_stub handler ret_addr s).ecx = s.ecx ∧
      (irq_common_stub handler ret_addr s).edx = s.edx ∧
      (irq_common_stub handler ret_addr s).ebx = s.ebx ∧
      (irq_common_stub handler ret_addr s).ebp = s.ebp ∧
      (irq_common_stub handler ret_addr s).esi = s.esi ∧
      (irq_common_stub handler ret_addr s).edi = s.edi ∧
      (irq_common_stub handler ret_addr s).esp = s.esp + 8 ∧
      (irq_common_stub handler ret_addr s).intr_flag = true) :=
  ⟨stub_restores handler ret_addr s hwf hlo hhi hk,
    stub_restores handler ret_addr s hwf hlo hhi hk⟩

/-- Witness for C18: the sample state with a handler that overwrites eax, ecx, edx, ds and
the stack below its frame; the stub returns with eax = 0xA1, ds = 0x23 and the stack
pointer at 0x9008. -/
theorem stub_save_restore_witness :
    sample_cpu.wf ∧ keeps_frame sample_handler ((stub_prolog sample_cpu).push 0x100123) ∧
    (isr_common_stub sample_handler 0x100123 sample_cpu).eax = 0xA1 ∧
    (isr_common_stub sample_handler 0x100123 sample_cpu).ds = 0x23 ∧
    (isr_common_stub sample_handler 0x100123 sample_cpu).esp = 0x9008 ∧
    (irq_common_stub sample_handler 0x100123 sample_cpu).intr_flag = true :=
  have h := stub_save_restore sample_handler 0x100123 sample_cpu sample_cpu_wf
    (by decide) (by decide) (sample_handler_keeps _)
  ⟨sample_cpu_wf, sample_handler_keeps _, h.1.2.2.2.2.1, h.1.1, h.1.2.2.2.2.2.2.2.2.2.2.2.1,
    h.2.2.2.2.2.2.2.2.2.2.2.2.2⟩

/-- Claim C19: the trap-frame field order matches the push order.  For every entry state
`s` of a common stub (registers of their widths, 56 bytes of stack room), the first
argument that the handler finds on its stack is a pointer at which memory reads, as a
`struct regs`, field by field: the entry values of gs, fs, es, ds, edi, esi, ebp, esp,
ebx, edx, ecx, eax, then the seven words that were on the stack at entry in ascending
order (vector number, error code, eip, cs, eflags, useresp, ss).  Both declarations of
`struct regs` list the same fields in the same order. -/
theorem trap_frame_layout (ret_addr : Nat) (s : Cpu) (hwf : s.wf) (hlo : 56 ≤ s.esp) :
    read_regs ((stub_prolog s).push ret_addr).mem
        (((stub_prolog s).push ret_addr).mem (((stub_prolog s).push ret_addr).esp + 4)) =
      { gs := s.gs, fs := s.fs, es := s.es, ds := s.ds,
        edi := s.edi, esi := s.esi, ebp := s.ebp, esp := s.esp,
        ebx := s.ebx, edx := s.edx, ecx := s.ecx, eax := s.eax,
        int_no := s.mem s.esp, err_code := s.mem (s.esp + 4),
        eip := s.mem (s.esp + 8), cs := s.mem (s.esp + 12), eflags := s.mem (s.esp + 16),
        useresp := s.mem (s.esp + 20), ss := s.mem (s.esp + 24) } ∧
    regs_fields_first = regs_fields_second := by
  refine ⟨?_, rfl⟩
  obtain ⟨b, hb0⟩ := Nat.exists_eq_add_of_le hlo
  have hb : s.esp = b + 56 := by omega
  obtain ⟨w1, w2, w3, w4, w5, w6, w7, w8, w9, w10, w11, w12⟩ := hwf
  have hb8 : (b + 8) % 2 ^ 32 = b + 8 := by omega
  have hb56 : (b + 56) % 2 ^ 32 = b + 56 := by omega
  have m1 : s.eax % 2 ^ 32 = s.eax := Nat.mod_eq_of_lt w1
  have m2 : s.ecx % 2 ^ 32 = s.ecx := Nat.mod_eq_of_lt w2
  have m3 : s.edx % 2 ^ 32 = s.edx := Nat.mod_eq_of_lt w3
  have m4 : s.ebx % 2 ^ 32 = s.ebx := Nat.mod_eq_of_lt w4
  have m6 : s.ebp % 2 ^ 32 = s.ebp := Nat.mod_eq_of_lt w6
  have m7 : s.esi % 2 ^ 32 = s.esi := Nat.mod_eq_of_lt w7
  have m8 : s.edi % 2 ^ 32 = s.edi := Nat.mod_eq_of_lt w8
  have m9 : s.ds % 2 ^ 32 = s.ds := by omega
  have m10 : s.es % 2 ^ 32 = s.es := by omega
  have m11 : s.fs % 2 ^ 32 = s.fs := by omega
  have m12 : s.gs % 2 ^ 32 = s.gs := by omega
  obtain ⟨t1, t2⟩ := stub_call_at s ret_addr b hb w5
  obtain ⟨f1, f2, f3, f4, f5, f6, f7, f8, f9, f10, f11, f12, f13, -, f15⟩ :=
    frame_lookup s.mem b (s.eax % 2 ^ 32) (s.ecx % 2 ^ 32) (s.edx % 2 ^ 32)
      (s.ebx % 2 ^ 32) ((b + 56) % 2 ^ 32) (s.ebp % 2 ^ 32) (s.esi % 2 ^ 32)
      (s.edi % 2 ^ 32) (s.ds % 2 ^ 32) (s.es % 2 ^ 32) (s.fs % 2 ^ 32) (s.gs % 2 ^ 32)
      ((b + 8) % 2 ^ 32) (ret_addr % 2 ^ 32)
  rw [← t2] at f1 f2 f3 f4 f5 f6 f7 f8 f9 f10 f11 f12 f13 f15
  rw [m1] at f1
  rw [m2] at f2
  rw [m3] at f3
  rw [m4] at f4
  rw [hb56] at f5
  rw [m6] at f6
  rw [m7] at f7
  rw [m8] at f8
  rw [m9] at f9
  rw [m10] at f10
  rw [m11] at f11
  rw [m12] at f12
  rw [hb8] at f13
  rw [t1, f13, hb]
  simp only [read_regs, Nat.add_assoc, Nat.reduceAdd, f1, f2, f3, f4, f5, f6, f7, f8, f9, f10,
    f11, f12, f15 (b + 56) (Nat.le_refl _), f15 (b + 60) (by omega), f15 (b + 64) (by omega),
    f15 (b + 68) (by omega), f15 (b + 72) (by omega), f15 (b + 76) (by omega),
    f15 (b + 80) (by omega)]

/-- Witness for C19: the sample state (vector 33, error code 0 on the stack at 0x9000);
the frame reads gs = 0x3B, esp = 0x9000, eax = 0xA1, int_no = 33, eip = 0x100abc,
ss = 0x10. -/
theorem trap_frame_layout_witness :
    sample_cpu.wf ∧
    read_regs ((stub_prolog sample_cpu).push 0x100123).mem
        (((stub_prolog sample_cpu).push 0x100123).mem
          (((stub_prolog sample_cpu).push 0x100123).esp + 4)) =
      ⟨0x3B, 0x33, 0x2B, 0x23, 0xD2, 0x51, 0xB2, 0x9000, 0xB1, 0xD1, 0xC1, 0xA1,
        33, 0, 0x100abc, 0x08, 0x202, 0x8ff0, 0x10⟩ :=
  ⟨sample_cpu_wf, (trap_frame_layout 0x100123 sample_cpu sample_cpu_wf (by decide)).1⟩

end Interrupts

/-! ## Claim on the command `tail` -/

namespace Kernel

end Kernel

/-! ## Claims on the clock and the delay, continued -/

namespace Kernel

/-- Claim C21: for every prior clock state and every 32-bit high word `h` read in a call of
`uptime_seconds` or `uptime_microseconds`, the `last_high` operand of the tick computation
of that call is `h`; the value returned is a function of `h`, the low word, the tally
after the overflow check, and the scale factor, so two prior states with the same scale
factors that lead to the same tally give the same result whatever their cached high
word was. -/
theorem uptime_uses_fresh_high (h low : Nat) (c : ClockState) (hh : h < 2 ^ 32)
    (hl : low < 2 ^ 32) :
    (hpet_poll_overflow h c).last_high = h ∧
    (uptime_seconds h low c).1 =
      ((((h + (hpet_poll_overflow h c).overflow_count * 0xFFFFFFFF) % 2 ^ 32 : Nat) : ℚ)
          * 4294967296 + low) * c.hpet_tick_seconds ∧
    (uptime_microseconds h low c).1 =
      ((((h + (hpet_poll_overflow h c).overflow_count * 0xFFFFFFFF) % 2 ^ 32 : Nat) : ℚ)
          * 4294967296 + low) * c.hpet_tick_microseconds ∧
    (∀ c2 : ClockState, c2.hpet_tick_seconds = c.hpet_tick_seconds →
      c2.hpet_tick_microseconds = c.hpet_tick_microseconds →
      (hpet_poll_overflow h c2).overflow_count = (hpet_poll_overflow h c).overflow_count →
      (uptime_seconds h low c2).1 = (uptime_seconds h low c).1 ∧
      (uptime_microseconds h low c2).1 = (uptime_microseconds h low c).1) := by
  have hlast : ∀ d : ClockState, (hpet_poll_overflow h d).last_high = h := by
    intro d
    simp only [hpet_poll_overflow, Nat.mod_eq_of_lt hh]
  have hs : ∀ d : ClockState, (hpet_poll_overflow h d).hpet_tick_seconds = d.hpet_tick_seconds := by
    intro d
    simp only [hpet_poll_overflow]
    split_ifs <;> rfl
  have hm : ∀ d : ClockState,
      (hpet_poll_overflow h d).hpet_tick_microseconds = d.hpet_tick_microseconds := by
    intro d
    simp only [hpet_poll_overflow]
    split_ifs <;> rfl
  have e1 : ∀ d : ClockState, (uptime_seconds h low d).1 =
      ((((h + (hpet_poll_overflow h d).overflow_count * 0xFFFFFFFF) % 2 ^ 32 : Nat) : ℚ)
          * 4294967296 + low) * d.hpet_tick_seconds := by
    intro d
    simp only [uptime_seconds, total_ticks, hlast, hs, hpet_get_low, Nat.mod_eq_of_lt hl]
  have e2 : ∀ d : ClockState, (uptime_microseconds h low d).1 =
      ((((h + (hpet_poll_overflow h d).overflow_count * 0xFFFFFFFF) % 2 ^ 32 : Nat) : ℚ)
          * 4294967296 + low) * d.hpet_tick_microseconds := by
    intro d
    simp only [uptime_microseconds, total_ticks, hlast, hm, hpet_get_low, Nat.mod_eq_of_lt hl]
  refine ⟨hlast c, e1 c, e2 c, fun c2 h1 h2 h3 => ?_⟩
  rw [e1, e1, e2, e2, h1, h2, h3]
  exact ⟨rfl, rfl⟩

/-- Claim C21 at a concrete input: with cached high word 3, a call that reads 7 computes
with 7. -/
theorem uptime_uses_fresh_high_witness :
    ((7 : Nat) < 2 ^ 32 ∧ (9 : Nat) < 2 ^ 32) ∧
      (hpet_poll_overflow 7 ⟨1 / 1000000, 1, 3, 0⟩).last_high = 7 :=
  ⟨by decide, (uptime_uses_fresh_high 7 9 ⟨1 / 1000000, 1, 3, 0⟩ (by decide) (by decide)).1⟩

/-- Claim C22: for every prior state and 32-bit register contents, `hpet_init` leaves the
configuration register equal to its old value with bit 0 set and every other bit
unchanged, seconds-per-tick `period_fs / 10^15` and microseconds-per-tick
`period_fs / 10^9` as exact rationals, `last_high` equal to the current high word of the
counter, and `overflow_count = 0`. -/
theorem hpet_init_post (hw : HpetRegs) (c : ClockState) (hcfg : hw.config_low < 2 ^ 32)
    (hcap : hw.cap_high < 2 ^ 32) (hcnt : hw.counter_high < 2 ^ 32) :
    (hpet_init hw c).1.config_low = hw.config_low ||| 1 ∧
    (hpet_init hw c).1.config_low.testBit 0 = true ∧
    (∀ i, 0 < i → (hpet_init hw c).1.config_low.testBit i = hw.config_low.testBit i) ∧
    (hpet_init hw c).2.hpet_tick_seconds = (hw.cap_high : ℚ) / 10 ^ 15 ∧
    (hpet_init hw c).2.hpet_tick_microseconds = (hw.cap_high : ℚ) / 10 ^ 9 ∧
    (hpet_init hw c).2.last_high = hw.counter_high ∧
    (hpet_init hw c).2.overflow_count = 0 := by
  simp only [hpet_init, Nat.mod_eq_of_lt hcfg, Nat.mod_eq_of_lt hcap, Nat.mod_eq_of_lt hcnt]
  refine ⟨trivial, ?_, ?_, ?_, ?_, trivial, trivial⟩
  · simp [Nat.testBit_or]
  · intro i hi
    rw [Nat.testBit_or]
    have : Nat.testBit 1 i = false := by
      have h := Nat.testBit_two_pow_of_ne (n := 0) (m := i) (by omega)
      simpa using h
    simp [this]
  · norm_num
  · norm_num

/-- Claim C22 at a concrete input: period 1,000,000 fs, counter high word 5, configuration
register 0, and arbitrary prior timer variables. -/
theorem hpet_init_post_witness :
    ((sample_hpet 1000000 5 77).config_low < 2 ^ 32 ∧ (sample_hpet 1000000 5 77).cap_high < 2 ^ 32
        ∧ (sample_hpet 1000000 5 77).counter_high < 2 ^ 32) ∧
      (hpet_init (sample_hpet 1000000 5 77) ⟨3, 4, 9, 9⟩).1.config_low = 0 ||| 1 ∧
      (hpet_init (sample_hpet 1000000 5 77) ⟨3, 4, 9, 9⟩).2.last_high = 5 ∧
      (hpet_init (sample_hpet 1000000 5 77) ⟨3, 4, 9, 9⟩).2.overflow_count = 0 :=
  ⟨by decide,
    (hpet_init_post (sample_hpet 1000000 5 77) ⟨3, 4, 9, 9⟩ (by decide) (by decide)
      (by decide)).1,
    (hpet_init_post (sample_hpet 1000000 5 77) ⟨3, 4, 9, 9⟩ (by decide) (by decide)
      (by decide)).2.2.2.2.2.1,
    (hpet_init_post (sample_hpet 1000000 5 77) ⟨3, 4, 9, 9⟩ (by decide) (by decide)
      (by decide)).2.2.2.2.2.2⟩

/-- Claim C23: for every duration `0 < time < 2^31`, every sequence of counter readings and
every bound on the loop, when `time_delay` returns after `n` executions of its loop body
the final value of `end` is the sample `n + 1`, the first sample `start` (sample 0) and
`end` satisfy `(end - start) mod 2^32 ≥ time` (integer subtraction, reduced modulo 2^32),
and every earlier sample `1 .. n` satisfies `(sample - start) mod 2^32 < time`; and the
function does return when some sample within the bound satisfies the exit condition. -/
theorem time_delay_partial_correctness (time : Int) (rd : Nat → Nat × Nat) (fuel : Nat)
    (c : ClockState) (hpos : 0 < time) (hint : time < 2 ^ 31) :
    (∀ n e c1, time_delay time rd fuel c = some (n, e, c1) →
      e = (delay_sample rd c (n + 1)).1 ∧
      time ≤ ((e : Int) - ((delay_sample rd c 0).1 : Int)) % 2 ^ 32 ∧
      ∀ j, j < n →
        (((delay_sample rd c (j + 1)).1 : Int) - ((delay_sample rd c 0).1 : Int)) % 2 ^ 32
          < time) ∧
    (∀ m, m ≤ fuel →
      time ≤ (((delay_sample rd c (m + 1)).1 : Int) - ((delay_sample rd c 0).1 : Int))
        % 2 ^ 32 →
      ∃ r, time_delay time rd fuel c = some r) := by
  have hu : ((int_to_u32 time : Nat) : Int) = time := by
    unfold int_to_u32
    rw [Int.emod_eq_of_lt (le_of_lt hpos) (by omega)]
    exact Int.toNat_of_nonneg (le_of_lt hpos)
  have hs : ∀ j, ((u32_sub (delay_sample rd c j).1 (delay_sample rd c 0).1 : Nat) : Int) =
      (((delay_sample rd c j).1 : Int) - ((delay_sample rd c 0).1 : Int)) % 2 ^ 32 :=
    fun j => u32_sub_int _ _ (delay_sample_lt rd c j) (delay_sample_lt rd c 0)
  constructor
  · intro n e c1 h
    rw [time_delay_eq] at h
    obtain ⟨_, _, h3, _, h5, h6⟩ := time_delay_loop_sound _ rd c fuel 0 n e c1 h
    refine ⟨h3, ?_, fun j hj => ?_⟩
    · rw [h3, ← hs, ← hu]
      rw [h3] at h5
      exact_mod_cast Nat.le_of_not_lt h5
    · rw [← hs, ← hu]
      exact_mod_cast h6 j (Nat.zero_le _) hj
  · intro m hm hexit
    rw [time_delay_eq]
    refine time_delay_loop_returns _ rd c fuel 0 m (Nat.zero_le _) (by omega) ?_
    rw [← hs, ← hu] at hexit
    exact Nat.not_lt.2 (by exact_mod_cast hexit)


/-- Claim C23 at a concrete input: duration 3 with one microsecond per tick and samples
5, 6, 7, 8, ...: `start` is 5, the samples 6 and 7 keep the loop going ((6 - 5) and
(7 - 5) are below 3), and the sample 8 ends the wait, so the function returns after two
executions of the loop body with `end = 8`. -/
theorem time_delay_partial_correctness_witness :
    ((0 : Int) < 3 ∧ (3 : Int) < 2 ^ 31) ∧
      (delay_sample (fun j => (0, j + 5)) ⟨1 / 1000000, 1, 0, 0⟩ 0).1 = 5 ∧
      ∃ c1, time_delay 3 (fun j => (0, j + 5)) 5 ⟨1 / 1000000, 1, 0, 0⟩ = some (2, 8, c1) := by
  have T := time_delay_partial_correctness 3 (fun j => (0, j + 5)) 5 ⟨1 / 1000000, 1, 0, 0⟩
    (by decide) (by decide)
  have r0 := delay_sample_ramp 5 0 (by decide)
  have r3 := delay_sample_ramp 5 3 (by decide)
  obtain ⟨⟨n, e, c1⟩, hr⟩ := T.2 2 (by decide) (by rw [r3, r0]; decide)
  obtain ⟨h1, h2, h3⟩ := T.1 n e c1 hr
  have hn2 : n ≤ 2 := by
    by_contra hlt
    have := h3 2 (by omega)
    rw [r3, r0] at this
    exact absurd this (by decide)
  have hn : n = 2 := by
    rw [h1, r0, delay_sample_ramp 5 (n + 1) (by omega)] at h2
    simp only at h2
    omega
  subst hn
  rw [h1, r3] at hr
  exact ⟨by decide, by rw [r0], c1, hr⟩

end Kernel

/-! ## Claims on the remap sequence and the table installation -/

namespace Interrupts

/-- Claim C24: `irq_remap` performs exactly ten port writes.  Projected on the primary
controller they are, in order, 0x11 on command port 0x20, then 0x20 (offset 32), 0x04, 0x01
and the mask 0x00 on data port 0x21; projected on the secondary controller, 0x11 on command
port 0xA0, then 0x28 (offset 40), 0x02, 0x01 and the mask 0x00 on data port 0xA1.  In
`irq_install` all ten writes precede the stores of the gates 32..47. -/
theorem irq_remap_writes (sym : Symbols) (k : State) :
    ∃ ev, (irq_remap k).log = k.log ++ ev ∧ ev.length = 10 ∧
      controller_writes 0x20 0x21 ev =
        [(0x20, 0x11), (0x21, 0x20), (0x21, 0x04), (0x21, 0x01), (0x21, 0x00)] ∧
      controller_writes 0xA0 0xA1 ev =
        [(0xA0, 0x11), (0xA1, 0x28), (0xA1, 0x02), (0xA1, 0x01), (0xA1, 0x00)] ∧
      (∀ e ∈ ev, ∃ p v, e = Event.outb p v) ∧
      (irq_install sym k).log =
        k.log ++ ev ++ (List.range 16).map (fun n => Event.gate (32 + n)) := by
  refine ⟨_, irq_remap_log k, rfl, ?_, ?_, ?_, ?_⟩
  · simp [controller_writes]
  · simp [controller_writes]
  · intro e he
    simp only [List.mem_cons, List.mem_singleton, List.not_mem_nil, or_false] at he
    rcases he with h | h | h | h | h | h | h | h | h | h <;> exact ⟨_, _, h⟩
  · rw [irq_install_log, List.append_assoc]

/-- Claim C25: for every prior state, `idt_install` leaves all 256 slots all-zero and sets
the register image `idtp` to limit 2047 (256 entries of 8 bytes, minus one, which fits in
16 bits) and base the address of the table, and loads it. -/
theorem idt_install_post (sym : Symbols) (k : State) (haddr : sym.idt_addr < 2 ^ 32) :
    (∀ i, (idt_install sym k).idt i =
      { base_lo := 0, sel := 0, always0 := 0, flags := 0, base_hi := 0 }) ∧
    (idt_install sym k).idtp = { limit := 2047, base := sym.idt_addr } ∧
    (idt_install sym k).idtr = some { limit := 2047, base := sym.idt_addr } ∧
    (2047 = IDT_ENTRIES * sizeof_idt_entry - 1 ∧ 2047 < 2 ^ 16) := by
  have h := idt_install_idtr sym k
  rw [Nat.mod_eq_of_lt haddr] at h
  exact ⟨idt_install_idt sym k, h.2, h.1, by decide⟩

/-- Claim C25 at a concrete input: the junk-filled sample table, with the table at
0x105000. -/
theorem idt_install_post_witness :
    sample_symbols.idt_addr < 2 ^ 32 ∧
    (idt_install sample_symbols sample_state).idt 33 =
      { base_lo := 0, sel := 0, always0 := 0, flags := 0, base_hi := 0 } ∧
    (idt_install sample_symbols sample_state).idtp = { limit := 2047, base := 0x105000 } :=
  ⟨by decide, (idt_install_post sample_symbols sample_state (by decide)).1 33,
    (idt_install_post sample_symbols sample_state (by decide)).2.1⟩

end Interrupts

/-! ## Claim on `print_uint` -/

namespace Kernel

/-- Claim C26: for every 32-bit `num` and whatever the local buffer held, both `print_uint`
functions (kernel.c and interrupts.c) hand to the output primitive exactly the decimal
numeral of `num`: between one and ten characters, all of them digits, the single
character `0` for `num = 0` and no leading zero otherwise, whose value read back in base
ten is `num`; the digit loop stops with `i` equal to ten minus the number of digits, so the
guard `i > 0` never cuts a digit off. -/
theorem print_uint_decimal (buf0 : List Nat) (num : Nat) (t : Term) (k : Interrupts.State)
    (hbuf : buf0.length = 11) (hnum : num < 2 ^ 32) :
    (print_uint buf0 num t).out = t.out ++ (Nat.repr num).toList.map Char.toNat ∧
    (Interrupts.print_uint buf0 num k).log =
      k.log ++ ((Nat.repr num).toList.map Char.toNat).map Interrupts.Event.putc ∧
    1 ≤ ((Nat.repr num).toList.map Char.toNat).length ∧
    ((Nat.repr num).toList.map Char.toNat).length ≤ 10 ∧
    (∀ d ∈ (Nat.repr num).toList.map Char.toNat, 48 ≤ d ∧ d ≤ 57) ∧
    (num = 0 → (Nat.repr num).toList.map Char.toNat = [48]) ∧
    (num ≠ 0 → ((Nat.repr num).toList.map Char.toNat).head? ≠ some 48) ∧
    Nat.ofDigits 10 ((((Nat.repr num).toList.map Char.toNat).map (fun d => d - 48)).reverse)
      = num ∧
    (num ≠ 0 → (print_uint_loop 10 num (buf0.set 10 0)).1 =
      10 - ((Nat.repr num).toList.map Char.toNat).length) := by
  refine ⟨print_uint_out buf0 num t hbuf hnum, Interrupts.print_uint_log buf0 num k hbuf hnum,
    ?_⟩
  rw [Interrupts.repr_bytes]
  by_cases h0 : num = 0
  · subst h0
    simp
  · simp only [if_neg h0]
    have hlen := decimal_length num h0 hnum
    have hne : Nat.digits 10 num ≠ [] := Nat.digits_ne_nil_iff_ne_zero.2 h0
    refine ⟨?_, ?_, ?_, fun h => absurd h h0, fun _ => ?_, ?_, fun _ => ?_⟩
    · have := List.length_pos.2 hne
      simpa using this
    · simpa using hlen
    · intro d hd
      simp only [List.mem_map, List.mem_reverse] at hd
      obtain ⟨a, ha, rfl⟩ := hd
      have := Nat.digits_lt_base (by decide : 1 < 10) ha
      omega
    · have hlast := Nat.getLast_digit_ne_zero 10 h0
      rw [← List.head_reverse (by simpa using hne)] at hlast
      cases hr : (Nat.digits 10 num).reverse with
      | nil => simp at hr; exact absurd hr hne
      | cons x l =>
        simp only [hr, List.head_cons] at hlast
        simp only [List.map_cons, List.head?_cons, ne_eq, Option.some.injEq]
        omega
    · have : (fun d => d - 48) ∘ (fun d => 48 + d) = (id : Nat → Nat) := by
        funext d
        simp
      rw [List.map_map, this, List.map_id, List.reverse_reverse, Nat.ofDigits_digits]
    · have hspec := Interrupts.print_uint_loop_spec 10 num (buf0.set 10 0)
        (by rw [List.length_set, hbuf]; decide) hlen
      have hb := print_uint_loop_bounds 10 num (buf0.set 10 0)
      rw [List.length_set, hbuf] at hb
      have hl := congrArg List.length hspec
      simp only [List.length_drop, List.length_append, List.length_map, List.length_reverse,
        hb.2, List.length_set, hbuf] at hl
      rw [print_uint_loop_eq]
      simp only [List.length_map, List.length_reverse]
      omega

/-- Claim C26 at a concrete input: the largest 32-bit number, ten digits, with a buffer
full of 0xCC. -/
theorem print_uint_decimal_witness :
    ((List.replicate 11 0xCC).length = 11 ∧ 4294967295 < 2 ^ 32) ∧
    (print_uint (List.replicate 11 0xCC) 4294967295 term_zero).out =
      term_zero.out ++ (Nat.repr 4294967295).toList.map Char.toNat ∧
    ((Nat.repr 4294967295).toList.map Char.toNat).length ≤ 10 :=
  ⟨by decide,
    (print_uint_decimal (List.replicate 11 0xCC) 4294967295 term_zero Interrupts.sample_state
      (by decide) (by decide)).1,
    (print_uint_decimal (List.replicate 11 0xCC) 4294967295 term_zero Interrupts.sample_state
      (by decide) (by decide)).2.2.2.1⟩

end Kernel

/-! ## Claims on the string functions -/

namespace StringC

/-- Claim C27: for all NUL-terminated strings `input` and `command`, `cmd_args` returns
without reading past the NUL of `input`; the result is non-null if and only if `command`
is a prefix of `input` and the character of `input` right after that prefix is a space, the
NUL, a newline or a carriage return; and a non-null result is the suffix of `input` that
starts after the prefix and after every space that directly follows it, so its first
character is not a space. -/
theorem cmd_args_recognises (input command : List Nat)
    (hi : ∀ c ∈ input, c ≠ 0) (hc : ∀ c ∈ command, c ≠ 0) :
    ∃ r, cmd_args (input ++ [0]) (command ++ [0]) = some r ∧
      (r ≠ none ↔ command <+: input ∧
        (((input ++ [0]).getD command.length 0 = 32 ∨
          (input ++ [0]).getD command.length 0 = 0) ∨
         (input ++ [0]).getD command.length 0 = 10 ∨
          (input ++ [0]).getD command.length 0 = 13)) ∧
      (∀ p, r = some p →
        p = (input.drop command.length).dropWhile (fun c => c == 32) ++ [0] ∧
        p.head? ≠ some 32) := by
  refine ⟨_, cmd_args_spec input command [] hi hc, ?_, ?_⟩
  · split_ifs with h
    · exact ⟨fun _ => h, fun _ => Option.some_ne_none _⟩
    · exact ⟨fun hne => absurd rfl hne, fun hh => absurd hh h⟩
  · intro p hp
    split_ifs at hp with h
    · simp only [Option.some.injEq] at hp
      subst hp
      refine ⟨rfl, ?_⟩
      cases hd : (input.drop command.length).dropWhile (fun c => c == 32) with
      | nil => simp
      | cons x l =>
        have := List.head_dropWhile_not (fun c => c == 32) (input.drop command.length)
          (by rw [hd]; simp)
        simp only [hd, List.head_cons, beq_iff_eq] at this
        simp only [List.cons_append, List.head?_cons, ne_eq, Option.some.injEq]
        exact fun hx => absurd (beq_iff_eq.2 hx) (by rw [this]; simp)

/-- Claim C27 at a concrete input: `cmd_args("cat  a.txt", "cat")` points to "a.txt". -/
theorem cmd_args_recognises_witness :
    ((∀ c ∈ [99, 97, 116, 32, 32, 97, 46, 116, 120, 116], c ≠ 0) ∧
      (∀ c ∈ [99, 97, 116], c ≠ 0)) ∧
    ∃ r, cmd_args ([99, 97, 116, 32, 32, 97, 46, 116, 120, 116] ++ [0]) ([99, 97, 116] ++ [0])
        = some r ∧
      (∀ p, r = some p →
        p = (([99, 97, 116, 32, 32, 97, 46, 116, 120, 116] : List Nat).drop
              ([99, 97, 116] : List Nat).length).dropWhile (fun c => c == 32) ++ [0] ∧
        p.head? ≠ some 32) := by
  obtain ⟨r, h1, _, h3⟩ := cmd_args_recognises
    [99, 97, 116, 32, 32, 97, 46, 116, 120, 116] [99, 97, 116] (by decide) (by decide)
  exact ⟨by decide, r, h1, h3⟩

/-- Claim C28: for all NUL-terminated byte strings `a` and `b`, `strcmp` returns; the result
is 0 if and only if `a = b`; otherwise it is the difference of the bytes at the first
position where the strings (with their terminators) differ; it is negative exactly when
`a` is lexicographically less than `b` and positive exactly when `b` is less than `a`; and
`strcmp(b, a) = -strcmp(a, b)`. -/
theorem strcmp_order (a b : List Nat)
    (ha : ∀ c ∈ a, c ≠ 0 ∧ c < 256) (hb : ∀ c ∈ b, c ≠ 0 ∧ c < 256) :
    ∃ r : Int, strcmp (a ++ [0]) (b ++ [0]) = some r ∧
      (r = 0 ↔ a = b) ∧
      (a ≠ b → ∃ i, i ≤ a.length ∧ i ≤ b.length ∧ a.take i = b.take i ∧
        (a ++ [0]).getD i 0 ≠ (b ++ [0]).getD i 0 ∧
        r = (((a ++ [0]).getD i 0 : Nat) : Int) - (((b ++ [0]).getD i 0 : Nat) : Int)) ∧
      (r < 0 ↔ List.Lex (· < ·) a b) ∧
      (0 < r ↔ List.Lex (· < ·) b a) ∧
      strcmp (b ++ [0]) (a ++ [0]) = some (-r) := by
  obtain ⟨r, h1, h2, h3, h4, h5⟩ := strcmp_spec a b ha hb
  refine ⟨r, h1, h2, h3, h4, h5, strcmp_swap _ _ r h1 ?_ ?_⟩
  · intro c hc
    rcases List.mem_append.1 hc with h | h
    · exact (ha c h).2
    · simp only [List.mem_singleton] at h
      omega
  · intro c hc
    rcases List.mem_append.1 hc with h | h
    · exact (hb c h).2
    · simp only [List.mem_singleton] at h
      omega

/-- Claim C28 at a concrete input: `strcmp("ab", "ac")` is defined and `strcmp("ac", "ab")`
is its negation. -/
theorem strcmp_order_witness :
    ((∀ c ∈ [97, 98], c ≠ 0 ∧ c < 256) ∧ (∀ c ∈ [97, 99], c ≠ 0 ∧ c < 256)) ∧
    ∃ r : Int, strcmp ([97, 98] ++ [0]) ([97, 99] ++ [0]) = some r ∧
      (r < 0 ↔ List.Lex (· < ·) [97, 98] [97, 99]) ∧
      strcmp ([97, 99] ++ [0]) ([97, 98] ++ [0]) = some (-r) := by
  obtain ⟨r, h1, _, _, h4, _, h6⟩ := strcmp_order [97, 98] [97, 99] (by decide) (by decide)
  exact ⟨by decide, r, h1, h4, h6⟩

end StringC

/-! ## Claims on the file store -/

namespace Kernel

/-- Claim C29: in every state reachable from the empty store by calls of `fs_create` and
`fs_write` and by the command `rm`, `file_count ≤ next_alloc ≤ 64`; every live file has
`size ≤ 0x1000` and its data region is `FS_START_ADDR + k * 0x1000` for some
`k < next_alloc`; two distinct live files never share a data region; and no operation
lowers `next_alloc`. -/
theorem fs_allocation_invariant (mem : Nat → Nat) :
    (∀ s, Relation.ReflTransGen FsStep (fs_empty mem) s →
      s.file_count ≤ s.next_alloc ∧ s.next_alloc ≤ 64 ∧
      (∀ i, i < s.file_count → (s.files i).size ≤ 0x1000 ∧
        ∃ k, k < s.next_alloc ∧ (s.files i).data = FS_START_ADDR + k * 0x1000) ∧
      (∀ i j, i < s.file_count → j < s.file_count → i ≠ j →
        (s.files i).data ≠ (s.files j).data)) ∧
    (∀ s s', Relation.ReflTransGen FsStep (fs_empty mem) s →
      Relation.ReflTransGen FsStep s s' → s.next_alloc ≤ s'.next_alloc) := by
  have hreach : ∀ s, Relation.ReflTransGen FsStep (fs_empty mem) s → FsInv s := by
    intro s hs
    induction hs with
    | refl =>
      exact ⟨le_refl _, Nat.zero_le _, fun i hi => absurd hi (Nat.not_lt_zero _),
        fun i j hi => absurd hi (Nat.not_lt_zero _)⟩
    | tail _ hstep ih => exact (fs_invariant_step _ _ ih hstep).1
  refine ⟨fun s hs => hreach s hs, fun s s' hs hss' => ?_⟩
  induction hss' with
  | refl => exact le_refl _
  | tail hmid hstep ih =>
    exact le_trans ih (fs_invariant_step _ _ (hreach _ (hs.trans hmid)) hstep).2

/-- Claim C29 at a concrete input: the state after `fs_create("a", 0, 0)`,
`fs_create("b", 0, 0)` and `rm a` on the empty store is reachable, has one file and two
allocated regions, and satisfies the invariant. -/
theorem fs_allocation_invariant_witness :
    ∃ s3, Relation.ReflTransGen FsStep (fs_empty (fun _ => 0)) s3 ∧
      s3.file_count = 1 ∧ s3.next_alloc = 2 ∧
      (s3.files 0).data = FS_START_ADDR + 1 * 0x1000 ∧
      s3.file_count ≤ s3.next_alloc ∧ s3.next_alloc ≤ 64 ∧
      (∀ i, i < s3.file_count → (s3.files i).size ≤ 0x1000 ∧
        ∃ k, k < s3.next_alloc ∧ (s3.files i).data = FS_START_ADDR + k * 0x1000) := by
  obtain ⟨s1, s2, s3, t', h1, h2, h3, c1, c2, c3⟩ := fs_rm_reachable
  have st1 : FsStep (fs_empty (fun _ => 0)) s1 := Or.inl ⟨_, _, _, h1⟩
  have st2 : FsStep s1 s2 := Or.inl ⟨_, _, _, h2⟩
  have st3 : FsStep s2 s3 := Or.inr (Or.inr ⟨_, _, _, h3⟩)
  have hr : Relation.ReflTransGen FsStep (fs_empty (fun _ => 0)) s3 :=
    ((Relation.ReflTransGen.single st1).tail st2).tail st3
  have hinv := (fs_allocation_invariant (fun _ => 0)).1 s3 hr
  exact ⟨s3, hr, c1, c2, c3, hinv.1, hinv.2.1, hinv.2.2.1⟩

/-- Claim C30: for a NUL-terminated `name`, a 32-bit `size` and `data` that is null or
points to at least `min(size, 0x1000)` bytes `d`, and a record array of sixteen name bytes:
when `file_count < 64` and `next_alloc < 64`, `fs_create` returns and appends one file
whose name holds the first 15 characters of `name` followed by a NUL, whose size is
`size' = min(size, 0x1000)`, whose region `FS_START_ADDR + next_alloc * 0x1000` holds the
bytes `d[0], ..., d[size' - 1]` of the caller in its first `size'` bytes (zeros when
`data` is null) and zero in every remaining byte up to 0x1000, while every other record
and all memory outside that region are unchanged; when `file_count ≥ 64` or
`next_alloc ≥ 64` the call changes nothing. -/
theorem fs_create_post (nm rest : List Nat) (data : Option (List Nat)) (size : Nat) (s : Fs)
    (hnm : ∀ c ∈ nm, c ≠ 0) (hlen : (s.files s.file_count).name.length = 16)
    (hsz : size < 2 ^ 32) (hdata : ∀ d, data = some d → min size MAX_FILE_SIZE ≤ d.length)
    (hbyte : ∀ d, data = some d → ∀ x ∈ d, x < 256) :
    (s.file_count < MAX_FILES → s.next_alloc < MAX_FILES →
      ∃ s', fs_create (nm ++ 0 :: rest) data size s = some s' ∧
        s'.file_count = s.file_count + 1 ∧ s'.next_alloc = s.next_alloc + 1 ∧
        (∀ j, j < min 15 nm.length →
          (s'.files s.file_count).name.getD j 0 = nm.getD j 0) ∧
        (s'.files s.file_count).name.getD (min 15 nm.length) 0 = 0 ∧
        (s'.files s.file_count).size = min size MAX_FILE_SIZE ∧
        (s'.files s.file_count).data = FS_START_ADDR + s.next_alloc * MAX_FILE_SIZE ∧
        (∀ d, data = some d → ∀ j, j < min size MAX_FILE_SIZE →
          d[j]? = some (s'.mem (FS_START_ADDR + s.next_alloc * MAX_FILE_SIZE + j))) ∧
        (data = none → ∀ j, j < min size MAX_FILE_SIZE →
          s'.mem (FS_START_ADDR + s.next_alloc * MAX_FILE_SIZE + j) = 0) ∧
        (∀ j, min size MAX_FILE_SIZE ≤ j → j < MAX_FILE_SIZE →
          s'.mem (FS_START_ADDR + s.next_alloc * MAX_FILE_SIZE + j) = 0) ∧
        (∀ i, i ≠ s.file_count → s'.files i = s.files i) ∧
        (∀ a, a < FS_START_ADDR + s.next_alloc * MAX_FILE_SIZE ∨
              FS_START_ADDR + s.next_alloc * MAX_FILE_SIZE + MAX_FILE_SIZE ≤ a →
          s'.mem a = s.mem a)) ∧
    (MAX_FILES ≤ s.file_count ∨ MAX_FILES ≤ s.next_alloc →
      fs_create (nm ++ 0 :: rest) data size s = some s) := by
  refine ⟨fun hfc hna => ?_, fun h => fs_create_full _ _ _ _ h⟩
  have hclamp : (if size % 2 ^ 32 > MAX_FILE_SIZE then MAX_FILE_SIZE else size % 2 ^ 32) =
      min size MAX_FILE_SIZE := by
    rw [Nat.mod_eq_of_lt hsz]
    split_ifs <;> omega
  obtain ⟨dst', hc1, hc2, hc3, hc4⟩ := copy_name_spec (MAX_NAME - 1) 0 nm rest
    (s.files s.file_count).name hnm (by rw [hlen]; decide)
  have hshort : data_short data
      (if size % 2 ^ 32 > MAX_FILE_SIZE then MAX_FILE_SIZE else size % 2 ^ 32) = false := by
    rw [hclamp]
    cases data with
    | none => rfl
    | some d =>
      have := hdata d rfl
      simp only [data_short, decide_eq_false_iff_not]
      omega
  obtain ⟨s', hs'⟩ := fs_create_returns (nm ++ 0 :: rest) data size s hfc hna _ _ hc1 hshort
  refine ⟨s', hs', ?_⟩
  rcases fs_create_cases _ _ _ _ _ hs' with ⟨hg, _⟩ | ⟨_, _, i, nm', hcopy, _, rfl⟩
  · exact absurd hg (by omega)
  · rw [hc1] at hcopy
    simp only [Option.some.injEq, Prod.mk.injEq] at hcopy
    obtain ⟨rfl, rfl⟩ := hcopy
    have h15 : MAX_NAME - 1 = 15 := rfl
    simp only [h15, Nat.zero_add] at hc3 hc4 ⊢
    simp only [hclamp, Function.update_same]
    refine ⟨trivial, trivial, ?_, ?_, trivial, trivial, ?_, ?_, ?_, ?_, ?_⟩
    · intro j hj
      rw [← hc3 j hj]
      simp only [List.getD_eq_getElem?_getD, List.getElem?_set]
      rw [if_neg (by omega)]
    · simp only [List.getD_eq_getElem?_getD, List.getElem?_set]
      rw [if_pos trivial, if_pos (by rw [hc2, hlen]; omega)]
      rfl
    · intro d hd j hj
      have hjd : j < d.length := lt_of_lt_of_le hj (hdata d hd)
      rw [foldl_write_range', if_neg (by omega), foldl_write_range, if_pos (by omega)]
      have hj0 : FS_START_ADDR + s.next_alloc * MAX_FILE_SIZE + j -
          (FS_START_ADDR + s.next_alloc * MAX_FILE_SIZE) = j := by omega
      rw [hj0, hd]
      simp only [data_byte, List.getD_eq_getElem?_getD, List.getElem?_eq_getElem hjd,
        Option.getD_some]
      rw [Nat.mod_eq_of_lt (hbyte d hd _ (List.getElem_mem hjd))]
    · intro hnone j hj
      rw [foldl_write_range', if_neg (by omega), foldl_write_range, if_pos (by omega), hnone]
      rfl
    · intro j hj1 hj2
      rw [foldl_write_range', if_pos (by omega)]
    · intro i hi
      rw [Function.update_noteq hi]
    · intro a ha
      rw [foldl_write_range', if_neg (by omega), foldl_write_range, if_neg (by omega)]

/-- Claim C30 at a concrete input: `fs_create("a", d, 2)` on the empty store over a memory
filled with the byte 7, where `d` points to the bytes 104, 105, 33.  The new file has size
2 and its region holds 104, 105 and then zeros: the third byte of `d` is not copied, and
the byte before the region keeps the value 7. -/
theorem fs_create_post_witness :
    ((∀ c ∈ [97], c ≠ 0) ∧
      ((fs_empty (fun _ => 7)).files (fs_empty (fun _ => 7)).file_count).name.length = 16 ∧
      (2 : Nat) < 2 ^ 32 ∧ min 2 MAX_FILE_SIZE ≤ [104, 105, 33].length ∧
      (∀ x ∈ [104, 105, 33], x < 256) ∧
      (fs_empty (fun _ => 7)).file_count < MAX_FILES ∧
      (fs_empty (fun _ => 7)).next_alloc < MAX_FILES) ∧
    ∃ s', fs_create ([97] ++ 0 :: []) (some [104, 105, 33]) 2 (fs_empty (fun _ => 7)) = some s' ∧
      s'.file_count = 1 ∧ s'.next_alloc = 1 ∧
      (s'.files 0).name.getD 0 0 = 97 ∧ (s'.files 0).name.getD 1 0 = 0 ∧
      (s'.files 0).size = 2 ∧ (s'.files 0).data = 0x400000 ∧
      s'.mem 0x400000 = 104 ∧ s'.mem 0x400001 = 105 ∧ s'.mem 0x400002 = 0 ∧
      s'.mem 0x400FFF = 0 ∧ s'.mem 0x3FFFFF = 7 ∧ s'.mem 0x401000 = 7 := by
  obtain ⟨s', h1, h2, h3, h4, h5, h6, h7, h8, _, h10, _, h12⟩ :=
    (fs_create_post [97] [] (some [104, 105, 33]) 2 (fs_empty (fun _ => 7)) (by decide) rfl
      (by decide) (fun d hd => by cases hd; decide) (fun d hd => by cases hd; decide)).1
      (by decide) (by decide)
  have e0 := h8 _ rfl 0 (by decide)
  have e1 := h8 _ rfl 1 (by decide)
  exact ⟨⟨by decide, rfl, by decide, by decide, by decide, by decide, by decide⟩, s', h1, h2,
    h3, h4 0 (by decide), h5, h6, h7, (Option.some.inj e0).symm, (Option.some.inj e1).symm,
    h10 2 (by decide) (by decide), h10 0xFFF (by decide) (by decide),
    h12 0x3FFFFF (Or.inl (by decide)), h12 0x401000 (Or.inr (by decide))⟩

end Kernel
